import Mathlib

namespace BriskyPdf

/-!
# Typesetting and pagination core of BriskyPdf

A shallow embedding of `src/src/BriskyPdf.cc` (text wrapper, cell grid, column
widths, row heights, cell positions and table pagination) together with the
properties of the specification that were checked against it.

Modelling conventions
* `double` is modelled by exact rationals `ℚ`; every counterexample below uses
  small integers and halves only, which `double` represents exactly.
* `std::string` is a list of characters (one `Char` per `char` of the string).
* a thrown `std::out_of_range` is the `none` result of an `Option`.
* `std::shared_ptr<TableCell>` is an address in an explicit store of cells
  (`Heap`), so that writes through one pointer are seen through its aliases.
* `PDFUsedFont::CalculateTextDimensions` belongs to the PDF writer library and
  is a parameter of the model.
-/

/-! ## Text measuring (external collaborator) -/

/-- Contents of a `std::string`. -/
abbrev Str := List Char

/-- Result of `PDFUsedFont::CalculateTextDimensions`: only the two fields that
the layout code reads. -/
structure TextDimensions where
  width : ℚ
  height : ℚ

/-- A font of the PDF writer library, reduced to its text measuring function
(text, font size) ↦ dimensions. -/
structure PDFUsedFont where
  CalculateTextDimensions : Str → ℚ → TextDimensions

/-! ## AdvancedTextWrapper -/

/-- Fields of `AdvancedTextWrapper::WrappingOptions` read by `wrapText`
(the alignment is stored but never read by the wrapper). -/
structure WrappingOptions where
  maxWidth : ℚ
  hyphenate : Bool := false

/-- Record `AdvancedTextWrapper::WrappedTextResult`. -/
structure WrappedTextResult where
  totalHeight : ℚ
  lines : List Str
  lineWidths : List ℚ
  lineHeight : ℚ
  lineSpace : ℚ

/-- Class `AdvancedTextWrapper` with its private members. -/
structure AdvancedTextWrapper where
  mFont : PDFUsedFont
  mFontSize : ℚ
  mLineHeight : ℚ
  mLineSpace : ℚ

/-- Constructor `AdvancedTextWrapper::AdvancedTextWrapper`: the line height is
the measured height of the text "X". -/
def AdvancedTextWrapper.mk' (font : PDFUsedFont) (fontSize lineSpace : ℚ) :
    AdvancedTextWrapper :=
  { mFont := font
    mFontSize := fontSize
    mLineHeight := (font.CalculateTextDimensions ['X'] fontSize).height
    mLineSpace := lineSpace }

/-- Whitespace of the classic locale, the delimiters skipped by
`std::istream::operator>>`. -/
def isSpace (c : Char) : Bool :=
  c = ' ' || c = '\t' || c = '\n' || c = '\x0b' || c = '\x0c' || c = '\r'

/-- Loop `while (stream >> word)` of `splitWords`: `word` is the token being
read (empty while delimiters are skipped). -/
def splitWordsAux : Str → Str → List Str
  | [], word => if word.isEmpty then [] else [word]
  | c :: cs, word =>
    if isSpace c then
      if word.isEmpty then splitWordsAux cs [] else word :: splitWordsAux cs []
    else splitWordsAux cs (word ++ [c])

/-- `AdvancedTextWrapper::splitWords`. -/
def splitWords (text : Str) : List Str := splitWordsAux text []

/-- `std::string::substr(pos)`: throws when `pos > size()`. -/
def substrFrom (s : Str) (pos : Nat) : Option Str :=
  if pos > s.length then none else some (s.drop pos)

/-- `std::string::substr(0, n)`: never throws. -/
def substrTo (s : Str) (n : Nat) : Str := s.take n

/-- Expression `mFont->CalculateTextDimensions(text, mFontSize).width`. -/
def AdvancedTextWrapper.textWidth (w : AdvancedTextWrapper) (text : Str) : ℚ :=
  (w.mFont.CalculateTextDimensions text w.mFontSize).width

/-- Local `spaceWidth` of the loop of `wrapText`: 0 while the line is empty. -/
def AdvancedTextWrapper.spaceWidth (w : AdvancedTextWrapper) (currentLine : Str) : ℚ :=
  if currentLine.isEmpty then 0 else w.textWidth [' ']

/-- Loop `for (size_t i = breakPoint; i > 0; --i)` of `breakWord`: the first
`i`, counting down, whose prefix `word.substr(0, i)` fits the target width,
with the rest `word.substr(i)` (in range, as `i ≤ length / 2`). -/
def breakWordSearch (w : AdvancedTextWrapper) (word : Str) (targetWidth : ℚ) :
    Nat → Option (Str × Str)
  | 0 => none
  | i + 1 =>
    if w.textWidth (substrTo word (i + 1)) ≤ targetWidth then
      some (substrTo word (i + 1), word.drop (i + 1))
    else breakWordSearch w word targetWidth i

/-- `AdvancedTextWrapper::breakWord`; `none` is the `std::out_of_range` of
`word.substr(1)` on an empty word. -/
def AdvancedTextWrapper.breakWord (w : AdvancedTextWrapper) (word : Str) (maxWidth : ℚ) :
    Option (Str × Str) :=
  let targetWidth := maxWidth * (4 / 5)
  let breakPoint := word.length / 2
  match breakWordSearch w word targetWidth breakPoint with
  | some r => some r
  | none =>
    match substrFrom word 1 with
    | none => none
    | some rest => some (substrTo word 1, rest)

/-- The remainder returned by the prefix search is a proper suffix whenever the
word is not empty. -/
theorem breakWordSearch_snd_length (w : AdvancedTextWrapper) (word : Str) (t : ℚ) (n : Nat)
    (r : Str × Str) (h : breakWordSearch w word t n = some r) (hw : word ≠ []) :
    r.2.length < word.length := by
  induction n with
  | zero => simp [breakWordSearch] at h
  | succ i ih =>
    unfold breakWordSearch at h
    split at h
    · cases h
      have : 0 < word.length := List.length_pos.mpr hw
      simp only [List.length_drop]
      omega
    · exact ih h

/-- A successful `breakWord` hands back a remainder strictly shorter than the
word: the fact behind the termination of `wrapText`. -/
theorem breakWord_snd_length (w : AdvancedTextWrapper) (word : Str) (maxWidth : ℚ)
    (r : Str × Str) (h : w.breakWord word maxWidth = some r) :
    r.2.length < word.length := by
  unfold AdvancedTextWrapper.breakWord at h
  simp only at h
  split at h
  · rename_i r' hs
    cases h
    by_cases hw : word = []
    · subst hw
      simp [breakWordSearch] at hs
    · exact breakWordSearch_snd_length w word _ _ _ hs hw
  · split at h
    · cases h
    · rename_i rest hs
      cases h
      unfold substrFrom at hs
      split at hs
      · cases hs
      · cases hs
        simp only [List.length_drop]
        omega

/-- Statement `result.lines.push_back(line); result.lineWidths.push_back(width);
result.totalHeight += mLineHeight + mLineSpace;` shared by the three flushes
inside the loop of `wrapText`. -/
def WrappedTextResult.pushLine (result : WrappedTextResult) (w : AdvancedTextWrapper)
    (line : Str) (width : ℚ) : WrappedTextResult :=
  { result with
    lines := result.lines ++ [line]
    lineWidths := result.lineWidths ++ [width]
    totalHeight := result.totalHeight + (w.mLineHeight + w.mLineSpace) }

/-- Loop `for (size_t i = 0; i < words.size(); ++i)` of `wrapText`. The first
argument is the part of `words` from index `i` on (hyphenation inserts the
remainder of a broken word right after the current one); the result is the
state `(currentLine, currentLineWidth, result)` at the loop exit. -/
def wrapLoop (w : AdvancedTextWrapper) (options : WrappingOptions) :
    List Str → Str → ℚ → WrappedTextResult → Option (Str × ℚ × WrappedTextResult)
  | [], currentLine, currentLineWidth, result => some (currentLine, currentLineWidth, result)
  | word :: rest, currentLine, currentLineWidth, result =>
    if currentLineWidth + w.spaceWidth currentLine + w.textWidth word ≤ options.maxWidth then
      if !currentLine.isEmpty then
        wrapLoop w options rest (currentLine ++ [' '] ++ word)
          (currentLineWidth + w.spaceWidth currentLine + w.textWidth word) result
      else
        wrapLoop w options rest (currentLine ++ word) (currentLineWidth + w.textWidth word) result
    else if currentLine.isEmpty then
      if options.hyphenate then
        match _h : w.breakWord word options.maxWidth with
        | none => none
        | some brokenWord =>
          wrapLoop w options (brokenWord.2 :: rest) [] 0
            (result.pushLine w (brokenWord.1 ++ ['-']) (w.textWidth (brokenWord.1 ++ ['-'])))
      else
        wrapLoop w options rest [] 0 (result.pushLine w word (w.textWidth word))
    else
      wrapLoop w options rest word (w.textWidth word)
        (result.pushLine w currentLine currentLineWidth)
termination_by words => (words.map (fun x => x.length + 1)).sum
decreasing_by
  all_goals simp_wf
  all_goals first
    | omega
    | exact breakWord_snd_length w word options.maxWidth brokenWord _h

/-- Initial `result` of `wrapText`. -/
def AdvancedTextWrapper.emptyResult (w : AdvancedTextWrapper) : WrappedTextResult :=
  { totalHeight := 0, lines := [], lineWidths := []
    lineHeight := w.mLineHeight, lineSpace := w.mLineSpace }

/-- `AdvancedTextWrapper::wrapText`; `none` when `breakWord` throws. -/
def AdvancedTextWrapper.wrapText (w : AdvancedTextWrapper) (text : Str)
    (options : WrappingOptions) : Option WrappedTextResult :=
  match wrapLoop w options (splitWords text) [] 0 w.emptyResult with
  | none => none
  | some (currentLine, currentLineWidth, result) =>
    if !currentLine.isEmpty then
      some { result with
             lines := result.lines ++ [currentLine]
             lineWidths := result.lineWidths ++ [currentLineWidth]
             totalHeight := result.totalHeight + w.mLineHeight }
    else some result

/-! ## Table data model -/

/-- Address of a `TableCell` held through a `std::shared_ptr`. -/
abbrev Ptr := Nat

/-- Fields of `struct TableCell` used by the layout code, with the defaults of
the header file. `colspan` and `rowspan` are the non-negative `int` values. -/
structure TableCell where
  content : Str := []
  colspan : Nat := 1
  rowspan : Nat := 1
  fontSize : ℚ := -1
  width : ℚ := 0
  isHeader : Bool := false
  font : Option PDFUsedFont := none
  actualRow : Int := -1
  actualCol : Int := -1
  isSpanned : Bool := false
  height : ℚ := 0
  isRowHeader : Bool := false

/-- Record `struct TableRow`; `cells` holds shared pointers. -/
structure TableRow where
  cells : List Ptr := []
  height : ℚ := 20
  isHeader : Bool := false
  pageBreakBefore : Bool := false

instance : Inhabited TableRow := ⟨{}⟩

/-- Fields of `struct TableStyle` read by the layout code. The style font is
taken to be set (a null font would be dereferenced by the wrapper). -/
structure TableStyle where
  cellPadding : ℚ := 4
  fontSize : ℚ := 10
  font : PDFUsedFont

/-- The store of table cells reachable through shared pointers: the cell at
every address, and the first address not yet handed out by `make_shared`. -/
structure Heap where
  cell : Ptr → TableCell
  next : Ptr

/-- Write through a pointer: `p->field = value`. -/
def Heap.modify (heap : Heap) (p : Ptr) (f : TableCell → TableCell) : Heap :=
  { heap with cell := Function.update heap.cell p (f (heap.cell p)) }

/-- `std::make_shared<TableCell>()` followed by the initialisation of the new
cell: returns the fresh address. -/
def Heap.alloc (heap : Heap) (c : TableCell) : Ptr × Heap :=
  (heap.next, { cell := Function.update heap.cell heap.next c, next := heap.next + 1 })

/-- The grid `std::vector<std::vector<std::shared_ptr<TableCell>>>`; `none` is
`nullptr`. -/
abbrev Grid := List (List (Option Ptr))

/-- Read `grid[r][c]` (a null slot outside the grid, where C++ is undefined). -/
def Grid.get (grid : Grid) (r c : Nat) : Option Ptr := (grid.getD r []).getD c none

/-- Assignment `grid[r][c] = v`. -/
def Grid.set (grid : Grid) (r c : Nat) (v : Option Ptr) : Grid :=
  List.set grid r ((grid.getD r []).set c v)

/-- Record `struct CellPosition`; the fields `x` and `y` are never assigned by
the layout code and are left out. -/
structure CellPosition where
  row : Nat
  col : Nat
  width : ℚ
  height : ℚ
  cell : Ptr

/-! ## PDFTable::BuildCellGrid -/

/-- First loop of `BuildCellGrid`: the largest sum of colspans over the rows. -/
def maxColsOf (heap : Heap) (rows : List TableRow) : Nat :=
  rows.foldl
    (fun maxCols row =>
      max maxCols (row.cells.foldl (fun colCount cell => colCount + (heap.cell cell).colspan) 0))
    0

/-- Loop `while (colIdx < maxCols && grid[rowIdx][colIdx] != nullptr) colIdx++`:
`fuel` bounds the remaining columns. -/
def skipClaimed (grid : Grid) (rowIdx maxCols : Nat) : Nat → Nat → Nat
  | 0, colIdx => colIdx
  | fuel + 1, colIdx =>
    if colIdx < maxCols ∧ (grid.get rowIdx colIdx).isSome then
      skipClaimed grid rowIdx maxCols fuel (colIdx + 1)
    else colIdx

/-- Writes `cell->height = row.height; cell->isRowHeader = row.isHeader` of
the anchor branch, for `row = rows[rowIdx]`. -/
def anchorCell (rows : List TableRow) (rowIdx : Nat) (x : TableCell) : TableCell :=
  { x with
    height := (rows.getD rowIdx default).height
    isRowHeader := (rows.getD rowIdx default).isHeader }

/-- The placeholder built in the other branch: a default cell marked as
spanned, with the height of its own row and the width and header flag read
through `grid[rowIdx][colIdx]`, which is `cell` itself (stored by the first
iteration of the two loops). -/
def spannedCell (rows : List TableRow) (heap : Heap) (rowIdx colIdx : Nat) (cell : Ptr)
    (r c : Nat) : TableCell :=
  { isSpanned := true
    actualRow := ((rowIdx + r : Nat) : Int)
    actualCol := ((colIdx + c : Nat) : Int)
    height := (rows.getD (rowIdx + r) default).height
    width := (heap.cell cell).width
    isRowHeader := (heap.cell cell).isHeader }

/-- Body of the two innermost loops of `BuildCellGrid` for the offsets `r`, `c`
inside the span of `cell`, anchored at `(rowIdx, colIdx)`. -/
def claimSlot (rows : List TableRow) (rowIdx colIdx : Nat) (cell : Ptr) (r c : Nat)
    (st : Grid × Heap) : Grid × Heap :=
  if r = 0 ∧ c = 0 then
    (st.1.set (rowIdx + r) (colIdx + c) (some cell), st.2.modify cell (anchorCell rows rowIdx))
  else
    (st.1.set (rowIdx + r) (colIdx + c)
        (some (st.2.alloc (spannedCell rows st.2 rowIdx colIdx cell r c)).1),
      (st.2.alloc (spannedCell rows st.2 rowIdx colIdx cell r c)).2)

/-- Loops `for r` / `for c` of `BuildCellGrid`: the offsets run over
`r < min(rowspan, rows.size() - rowIdx)` and `c < min(colspan, maxCols - colIdx)`,
which is where both loop conditions hold. -/
def claimSpan (rows : List TableRow) (maxCols rowIdx colIdx : Nat) (cell : Ptr)
    (st : Grid × Heap) : Grid × Heap :=
  (List.range (min (st.2.cell cell).rowspan (rows.length - rowIdx))).foldl
    (fun st r =>
      (List.range (min (st.2.cell cell).colspan (maxCols - colIdx))).foldl
        (fun st c => claimSlot rows rowIdx colIdx cell r c st) st)
    st

/-- Loop `for (const auto &cell : row.cells)` of `BuildCellGrid`, with the
running `colIdx`; the `break` ends the row. -/
def placeCells (rows : List TableRow) (maxCols rowIdx : Nat) :
    List Ptr → Nat → Grid × Heap → Grid × Heap
  | [], _, st => st
  | cell :: cells, colIdx, st =>
    let colIdx := skipClaimed st.1 rowIdx maxCols maxCols colIdx
    if colIdx ≥ maxCols then st
    else
      let st := claimSpan rows maxCols rowIdx colIdx cell st
      placeCells rows maxCols rowIdx cells (colIdx + (st.2.cell cell).colspan) st

/-- `PDFTable::BuildCellGrid`: the grid, and the store after the writes to the
input cells and the allocation of the placeholders. -/
def BuildCellGrid (rows : List TableRow) (heap : Heap) : Grid × Heap :=
  let maxCols := maxColsOf heap rows
  let grid : Grid := List.replicate rows.length (List.replicate maxCols none)
  (List.range rows.length).foldl
    (fun st rowIdx => placeCells rows maxCols rowIdx (rows.getD rowIdx default).cells 0 st)
    (grid, heap)

/-! ## PDFTable::CalculateCellPositions -/

/-- Inner loop `for (int col = 0; col < numCols;)` of the explicit width scan
in grid row `row`, from column `col` on. A cell with colspan 0 never advances
`col`: the loop then does not end, which is the result `none`. -/
def explicitWidthsRow (heap : Heap) (grid : Grid) (row numCols : Nat)
    (col : Nat) (colWidths : List ℚ) : Option (List ℚ) :=
  if _h : col < numCols then
    match grid.get row col with
    | none => explicitWidthsRow heap grid row numCols (col + 1) colWidths
    | some p =>
      let cell := heap.cell p
      let colWidths := if cell.width > 0 then colWidths.set col cell.width else colWidths
      if _hc : cell.colspan = 0 then none
      else explicitWidthsRow heap grid row numCols (col + cell.colspan) colWidths
  else some colWidths
termination_by numCols - col
decreasing_by
  · omega
  · have : 0 < (heap.cell p).colspan := Nat.pos_of_ne_zero _hc
    omega

/-- Loop over the rows of the explicit width scan (source lines 207–219). -/
def explicitWidths (heap : Heap) (grid : Grid) (numRows numCols : Nat)
    (colWidths : List ℚ) : Option (List ℚ) :=
  (List.range numRows).foldlM
    (fun colWidths row => explicitWidthsRow heap grid row numCols 0 colWidths) colWidths

/-- Accumulation `sumWidths += item` over the columns. -/
def sumWidthsOf (colWidths : List ℚ) : ℚ := colWidths.foldl (fun s item => s + item) 0

/-- Accumulation `if (item == fixWidth) fixWidthCount++` over the columns. -/
def fixWidthCountOf (fixWidth : ℚ) (colWidths : List ℚ) : ℚ :=
  colWidths.foldl (fun n item => if item = fixWidth then n + 1 else n) 0

/-- Redistribution step (source lines 221–230): every column still equal to
`fixWidth` receives `diff`. With `fixWidthCount = 0` the quotient is used by
no column. -/
def distributeFlexible (tableWidth fixWidth : ℚ) (colWidths : List ℚ) : List ℚ :=
  let sumWidths := sumWidthsOf colWidths
  let fixWidthCount := fixWidthCountOf fixWidth colWidths
  let diff := (tableWidth - sumWidths) / fixWidthCount
  colWidths.map (fun item => if item = fixWidth then item + diff else item)

/-- Column widths solved by `CalculateCellPositions` (source lines 199–230)
for a non-empty grid. -/
def solveColumnWidths (heap : Heap) (grid : Grid) (tableWidth : ℚ) : Option (List ℚ) :=
  let numCols := (grid.getD 0 []).length
  let numRows := grid.length
  let fixWidth := tableWidth / numCols
  match explicitWidths heap grid numRows numCols (List.replicate numCols fixWidth) with
  | none => none
  | some colWidths => some (distributeFlexible tableWidth fixWidth colWidths)

/-- Loops of source lines 232–239: `grid[row][col]->width = colWidths[col]`. -/
def writeBackWidths (grid : Grid) (numRows numCols : Nat) (colWidths : List ℚ)
    (heap : Heap) : Heap :=
  (List.range numRows).foldl
    (fun heap row =>
      (List.range numCols).foldl
        (fun heap col =>
          match grid.get row col with
          | none => heap
          | some p => heap.modify p (fun x => { x with width := colWidths.getD col 0 }))
        heap)
    heap

/-- Sum of `colWidths[c]` for `col ≤ c < col + colspan`, `c < numCols`. -/
def spanWidth (colWidths : List ℚ) (numCols col colspan : Nat) : ℚ :=
  (List.range' col (min colspan (numCols - col))).foldl
    (fun acc c => acc + colWidths.getD c 0) 0

/-- Loop of source lines 278–282: every cell of the row takes `maxRowHeight`. -/
def propagateRowHeight (grid : Grid) (row numCols : Nat) (maxRowHeight : ℚ)
    (heap : Heap) : Heap :=
  (List.range numCols).foldl
    (fun heap col =>
      match grid.get row col with
      | none => heap
      | some p => heap.modify p (fun x => { x with height := maxRowHeight }))
    heap

/-- The wrapper that the row height loop builds for a cell (source lines
248–258): the font and size of the cell, or of the style when the cell has
none, and line spacing 10. -/
def cellWrapper (style : TableStyle) (cell : TableCell) : AdvancedTextWrapper :=
  AdvancedTextWrapper.mk'
    (match cell.font with
      | none => style.font
      | some f => f)
    (if cell.fontSize > 0 then cell.fontSize else style.fontSize) 10

/-- Height of the wrapped content of a cell plus the padding, as measured in
the row height loop (source lines 259–270, hyphenation on); `none` when the
wrapper throws. -/
def measureCell (style : TableStyle) (colWidths : List ℚ) (numCols col : Nat)
    (cell : TableCell) : Option ℚ :=
  match (cellWrapper style cell).wrapText cell.content
      { maxWidth := spanWidth colWidths numCols col cell.colspan - 2 * style.cellPadding
        hyphenate := true } with
  | none => none
  | some dimension => some (dimension.totalHeight + style.cellPadding * 2)

/-- Statement `if (totalHeight > cell->height) cell->height = totalHeight;`
(source lines 271–274). -/
def raiseHeight (heap : Heap) (p : Ptr) (totalHeight : ℚ) : Heap :=
  if totalHeight > (heap.cell p).height then
    heap.modify p (fun x => { x with height := totalHeight })
  else heap

/-- Statement `if (maxRowHeight < cell->height) { … }` (source lines 275–283)
on the state `(maxRowHeight, heap)`. -/
def raiseRowHeight (grid : Grid) (row numCols : Nat) (p : Ptr) (st : ℚ × Heap) : ℚ × Heap :=
  if st.1 < (st.2.cell p).height then
    ((st.2.cell p).height, propagateRowHeight grid row numCols (st.2.cell p).height st.2)
  else st

/-- Body of the column loop of the row height pass (source lines 246–283) on
the state `(maxRowHeight, heap)`. -/
def rowHeightStep (style : TableStyle) (grid : Grid) (colWidths : List ℚ)
    (numCols row : Nat) (st : ℚ × Heap) (col : Nat) : Option (ℚ × Heap) :=
  match grid.get row col with
  | none => some st
  | some p =>
    match measureCell style colWidths numCols col (st.2.cell p) with
    | none => none
    | some totalHeight =>
      some (raiseRowHeight grid row numCols p (st.1, raiseHeight st.2 p totalHeight))

/-- Row height pass for one grid row: `maxRowHeight` starts at 0. -/
def rowHeightsRow (style : TableStyle) (grid : Grid) (colWidths : List ℚ)
    (numCols : Nat) (heap : Heap) (row : Nat) : Option Heap :=
  ((List.range numCols).foldlM (rowHeightStep style grid colWidths numCols row)
    ((0 : ℚ), heap)).map (fun st => st.2)

/-- Row height pass (source lines 241–286). -/
def resolveRowHeights (style : TableStyle) (grid : Grid) (colWidths : List ℚ)
    (numRows numCols : Nat) (heap : Heap) : Option Heap :=
  (List.range numRows).foldlM (rowHeightsRow style grid colWidths numCols) heap

/-- Height of a position (source lines 309–316): the cell height once per
spanned row, or the default row height when the cell height is not positive. -/
def spanHeight (style : TableStyle) (numRows row : Nat) (cell : TableCell) : ℚ :=
  (List.range' row (min cell.rowspan (numRows - row))).foldl
    (fun acc _ =>
      if cell.height > 0 then acc + cell.height
      else acc + (style.fontSize + 2 * style.cellPadding))
    0

/-- Loops of source lines 289–322: one position per non-null slot, row-major. -/
def buildPositions (style : TableStyle) (grid : Grid) (colWidths : List ℚ)
    (numRows numCols : Nat) (heap : Heap) : List CellPosition :=
  (List.range numRows).foldl
    (fun positions row =>
      (List.range numCols).foldl
        (fun positions col =>
          match grid.get row col with
          | none => positions
          | some p =>
            positions ++
              [{ row := row, col := col
                 width := spanWidth colWidths numCols col (heap.cell p).colspan
                 height := spanHeight style numRows row (heap.cell p)
                 cell := p }])
        positions)
    []

/-- `PDFTable::CalculateCellPositions`: the positions and the store after the
writes to the cells; `none` when the call does not return (a text wrapper
exception, or the width scan stuck on a cell of colspan 0). -/
def CalculateCellPositions (style : TableStyle) (grid : Grid) (tableWidth : ℚ)
    (heap : Heap) : Option (List CellPosition × Heap) :=
  if grid.isEmpty then some ([], heap)
  else
    let numCols := (grid.getD 0 []).length
    let numRows := grid.length
    match solveColumnWidths heap grid tableWidth with
    | none => none
    | some colWidths =>
      let heap := writeBackWidths grid numRows numCols colWidths heap
      match resolveRowHeights style grid colWidths numRows numCols heap with
      | none => none
      | some heap =>
        some (buildPositions style grid colWidths numRows numCols heap, heap)

/-! ## Pagination: PDFTable drawing loops and PDFCreator::DrawTableOnPages -/

/-- Record `struct Dimension`. -/
structure Dimension where
  x : ℚ := 0
  y : ℚ := 0
  width : ℚ := 0
  height : ℚ := 0
  ok : Bool := false

/-- One call of `PDFTable::DrawCell`. -/
structure DrawCellCall where
  cell : Ptr
  x : ℚ
  y : ℚ
  width : ℚ
  height : ℚ

/-- What the pagination code does to the document, in order: a page started by
`createNewPage`, and the calls of `DrawRowCells` made by `DrawTableHeader`
(`headerRow`) and by `DrawRowsOnPage` (`dataRow`) with the cells they draw. -/
inductive CanvasOp where
  | newPage : CanvasOp
  | headerRow (rowIdx : Nat) (rowY : ℚ) (cells : List DrawCellCall) : CanvasOp
  | dataRow (rowIdx : Nat) (rowY : ℚ) (cells : List DrawCellCall) : CanvasOp

/-- Anonymous struct `pageStyle` of `PDFCreator`. -/
structure PageStyle where
  headerHeight : ℚ := 60
  footerHeight : ℚ := 40
  margin : ℚ := 50

/-- The members of `PDFCreator` that pagination reads or writes.
`currentContext` tells whether the pointer is non-null; `writerOk n` tells
whether the PDF writer hands out a content context for the page started when
`pageNumber = n` (the writer is an external collaborator). -/
structure PDFCreator where
  currentContext : Bool := false
  pageNumber : Nat := 0
  pageWidth : ℚ := 595
  pageHeight : ℚ := 842
  pageStyle : PageStyle := {}
  writerOk : Nat → Bool := fun _ => true

/-- `PDFCreator::createNewPage`. -/
def PDFCreator.createNewPage (pdf : PDFCreator) : PDFCreator :=
  if pdf.writerOk pdf.pageNumber then
    { pdf with currentContext := true, pageNumber := pdf.pageNumber + 1 }
  else { pdf with currentContext := false }

/-- The members of `PDFTable`. -/
structure PDFTable where
  mStyle : TableStyle
  mCurrentY : ℚ
  margin : ℚ := 50

/-- `PDFTable::DrawRowCells`: the calls of `DrawCell` it makes; `sx` is the
running left edge. -/
def DrawRowCells (heap : Heap) (rowIdx : Nat) (rowY : ℚ) :
    List CellPosition → ℚ → List DrawCellCall
  | [], _ => []
  | pos :: rest, sx =>
    if pos.row = rowIdx ∧ (heap.cell pos.cell).isSpanned then
      DrawRowCells heap rowIdx rowY rest (sx + (heap.cell pos.cell).width)
    else if pos.row = rowIdx ∧ ¬ (heap.cell pos.cell).isSpanned then
      { cell := pos.cell, x := sx, y := rowY, width := pos.width, height := pos.height } ::
        DrawRowCells heap rowIdx rowY rest (sx + (heap.cell pos.cell).width)
    else DrawRowCells heap rowIdx rowY rest sx

/-- Expression `row.cells[0]->height`; `none` when the row has no cell (the
access is out of range). -/
def firstCellHeight (heap : Heap) (row : TableRow) : Option ℚ :=
  row.cells.head?.map (fun c => (heap.cell c).height)

/-- Outcome of `PDFTable::DrawRowsOnPage`: the returned count (`none` when the
call ran into an out-of-range access) and the rows drawn. -/
structure RowsOnPage where
  rowsDrawn : Option Nat
  ops : List CanvasOp

/-- Loop of `PDFTable::DrawRowsOnPage` over the rows from `rowIdx` on. -/
def drawRowsLoop (margin : ℚ) (heap : Heap) (cellPositions : List CellPosition) (startX : ℚ) :
    List TableRow → Nat → ℚ → Nat → List CanvasOp → RowsOnPage
  | [], _, _, rowsDrawn, ops => ⟨some rowsDrawn, ops⟩
  | row :: rest, rowIdx, currentY, rowsDrawn, ops =>
    match firstCellHeight heap row with
    | none => ⟨none, ops⟩
    | some rowHeight =>
      if row.pageBreakBefore ∧ rowsDrawn > 0 then ⟨some rowsDrawn, ops⟩
      else if currentY - rowHeight < margin then ⟨some rowsDrawn, ops⟩
      else
        drawRowsLoop margin heap cellPositions startX rest (rowIdx + 1) (currentY - rowHeight)
          (rowsDrawn + 1)
          (ops ++ [CanvasOp.dataRow rowIdx currentY
            (DrawRowCells heap rowIdx currentY cellPositions startX)])

/-- `PDFTable::DrawRowsOnPage`. -/
def PDFTable.DrawRowsOnPage (table : PDFTable) (heap : Heap) (rows : List TableRow)
    (cellPositions : List CellPosition) (startX startY : ℚ) (startRow : Nat) : RowsOnPage :=
  drawRowsLoop table.margin heap cellPositions startX (rows.drop startRow) startRow startY 0 []

/-- `PDFTable::GetHeaderHeight`; `none` when a header row has no cell. -/
def GetHeaderHeight (heap : Heap) : List TableRow → Option ℚ
  | [] => some 0
  | row :: rest =>
    if row.isHeader then
      match firstCellHeight heap row, GetHeaderHeight heap rest with
      | some h, some total => some (h + total)
      | _, _ => none
    else GetHeaderHeight heap rest

/-- Loop of `PDFTable::DrawTableHeader` over the rows from `rowIdx` on; the
height of the first cell is read for every row, header or not. -/
def drawHeaderLoop (heap : Heap) (cellPositions : List CellPosition) (startX : ℚ) :
    List TableRow → Nat → ℚ → List CanvasOp → Option (List CanvasOp)
  | [], _, _, ops => some ops
  | row :: rest, rowIdx, currentY, ops =>
    match firstCellHeight heap row with
    | none => none
    | some rowHeight =>
      if row.isHeader then
        drawHeaderLoop heap cellPositions startX rest (rowIdx + 1) (currentY - rowHeight)
          (ops ++ [CanvasOp.headerRow rowIdx currentY
            (DrawRowCells heap rowIdx currentY cellPositions startX)])
      else drawHeaderLoop heap cellPositions startX rest (rowIdx + 1) currentY ops

/-- `PDFTable::DrawTableHeader`. -/
def DrawTableHeader (heap : Heap) (rows : List TableRow) (cellPositions : List CellPosition)
    (startX startY : ℚ) : Option (List CanvasOp) :=
  drawHeaderLoop heap cellPositions startX rows 0 startY []

/-- A run of `PDFCreator::DrawTableOnPages`: the returned `Dimension` (`none`
when the call ran into an out-of-range access instead of returning), the
creator afterwards, the canvas operations in order, the counts returned by the
calls of `DrawRowsOnPage`, and the number of loop iterations entered. -/
structure TableRun where
  ret : Option Dimension
  pdf : PDFCreator
  trace : List CanvasOp
  pageCounts : List Nat
  iterations : Nat

/-- How one iteration of the loop of `DrawTableOnPages` gets to the end of the
call of `DrawRowsOnPage` (source lines 1195–1211): it returns early because
there is no page context, it runs into an out-of-range access, or the page is
drawn and `DrawRowsOnPage` returns `rowsDrawn`. Each case carries the creator
and the trace at that point. -/
inductive PageAttempt where
  | noContext (pdf : PDFCreator) (trace : List CanvasOp) : PageAttempt
  | outOfRange (pdf : PDFCreator) (trace : List CanvasOp) : PageAttempt
  | page (rowsDrawn : Nat) (pdf : PDFCreator) (trace : List CanvasOp) : PageAttempt

/-- Lines 1204–1211 of the loop body, once the page context is known to exist:
the header replay of a continuation page and the call of `DrawRowsOnPage`. -/
def drawPage (table : PDFTable) (heap : Heap) (rows : List TableRow)
    (cellPositions : List CellPosition) (startX : ℚ) (currentRow : Nat) (isFirstPage : Bool)
    (currentPageY : ℚ) (pdf : PDFCreator) (trace : List CanvasOp) : PageAttempt :=
  if isFirstPage then
    let page := table.DrawRowsOnPage heap rows cellPositions startX currentPageY currentRow
    match page.rowsDrawn with
    | none => .outOfRange pdf (trace ++ page.ops)
    | some rowsDrawn => .page rowsDrawn pdf (trace ++ page.ops)
  else
    match DrawTableHeader heap rows cellPositions startX currentPageY with
    | none => .outOfRange pdf trace
    | some headerOps =>
      match GetHeaderHeight heap rows with
      | none => .outOfRange pdf (trace ++ headerOps)
      | some headerHeight =>
        let page := table.DrawRowsOnPage heap rows cellPositions startX
          (currentPageY - headerHeight) currentRow
        match page.rowsDrawn with
        | none => .outOfRange pdf (trace ++ headerOps ++ page.ops)
        | some rowsDrawn => .page rowsDrawn pdf (trace ++ headerOps ++ page.ops)

/-- Lines 1195–1211 of the loop body: the page top, the new page of a
continuation page, the context check, then `drawPage`. A `newPage` enters the
trace when `createNewPage` obtained a context. -/
def pageAttempt (table : PDFTable) (heap : Heap) (rows : List TableRow)
    (cellPositions : List CellPosition) (startX : ℚ) (currentRow : Nat) (isFirstPage : Bool)
    (pdf : PDFCreator) (trace : List CanvasOp) : PageAttempt :=
  if isFirstPage then
    if !pdf.currentContext then .noContext pdf trace
    else
      drawPage table heap rows cellPositions startX currentRow true table.mCurrentY pdf trace
  else
    let currentPageY := pdf.pageHeight - pdf.pageStyle.margin - pdf.pageStyle.headerHeight - 50
    let pdf := pdf.createNewPage
    if !pdf.currentContext then .noContext pdf trace
    else
      drawPage table heap rows cellPositions startX currentRow false currentPageY pdf
        (trace ++ [CanvasOp.newPage])

/-- Loop `while (currentRow < rows.size())` of `DrawTableOnPages`. `direct`
is `FormXObject == nullptr`; `ret` is the `Dimension` prepared before the
loop; the last four arguments accumulate the run. -/
def tablePagesLoop (direct : Bool) (table : PDFTable) (heap : Heap) (rows : List TableRow)
    (cellPositions : List CellPosition) (startX : ℚ) (ret : Dimension)
    (currentRow : Nat) (isFirstPage : Bool) (pdf : PDFCreator) (trace : List CanvasOp)
    (pageCounts : List Nat) (iterations : Nat) : TableRun :=
  if _h : currentRow < rows.length then
    match pageAttempt table heap rows cellPositions startX currentRow isFirstPage pdf trace with
    | .noContext pdf trace => ⟨some ret, pdf, trace, pageCounts, iterations + 1⟩
    | .outOfRange pdf trace => ⟨none, pdf, trace, pageCounts, iterations + 1⟩
    | .page rowsDrawn pdf trace =>
      if _h0 : rowsDrawn = 0 then
        ⟨some { ret with ok := true }, pdf, trace, pageCounts ++ [rowsDrawn], iterations + 1⟩
      else
        tablePagesLoop direct table heap rows cellPositions startX ret
          (currentRow + rowsDrawn) (if direct then false else isFirstPage) pdf
          trace (pageCounts ++ [rowsDrawn]) (iterations + 1)
  else ⟨some { ret with ok := true }, pdf, trace, pageCounts, iterations⟩
termination_by rows.length - currentRow
decreasing_by omega

/-- `PDFCreator::DrawTableOnPages`. -/
def PDFCreator.DrawTableOnPages (pdf : PDFCreator) (direct : Bool) (table : PDFTable)
    (heap : Heap) (rows : List TableRow) (cellPositions : List CellPosition)
    (startX : ℚ) : TableRun :=
  tablePagesLoop direct table heap rows cellPositions startX
    { x := startX, y := table.mCurrentY } 0 true pdf [] [] 0

/-- Outcome of `PDFCreator::DrawTableWithPageBreaks`: the run of
`DrawTableOnPages` and the store after the layout; `none` when the layout
(`CalculateCellPositions`) does not return. -/
def PDFCreator.DrawTableWithPageBreaks (pdf : PDFCreator) (direct : Bool) (table : PDFTable)
    (heap : Heap) (rows : List TableRow) (startX startY tableWidth : ℚ) :
    Option (TableRun × Heap) :=
  if rows.isEmpty then some (⟨some { ok := true }, pdf, [], [], 0⟩, heap)
  else
    let table := { table with mCurrentY := startY }
    let built := BuildCellGrid rows heap
    match CalculateCellPositions table.mStyle built.1 tableWidth built.2 with
    | none => none
    | some (cellPositions, heap) =>
      some (pdf.DrawTableOnPages direct table heap rows cellPositions startX, heap)

/-! ## Reading a trace -/

/-- Whether the operation starts a page. -/
def CanvasOp.isNewPage : CanvasOp → Bool
  | .newPage => true
  | _ => false

/-- Index of the row drawn by the operation, if it draws one. -/
def CanvasOp.rowIdx? : CanvasOp → Option Nat
  | .newPage => none
  | .headerRow i _ _ => some i
  | .dataRow i _ _ => some i

/-- Index of the row drawn by the operation as a data row (by
`DrawRowsOnPage`), if it is one. -/
def CanvasOp.dataIdx? : CanvasOp → Option Nat
  | .dataRow i _ _ => some i
  | _ => none

/-- Number of pages started in a trace. -/
def newPages (trace : List CanvasOp) : Nat := trace.countP CanvasOp.isNewPage

/-- Rows drawn as data rows, in drawing order. -/
def dataRows (trace : List CanvasOp) : List Nat := trace.filterMap CanvasOp.dataIdx?

/-- Rows drawn (header replay or data), in drawing order. -/
def rowsDrawnIn (ops : List CanvasOp) : List Nat := ops.filterMap CanvasOp.rowIdx?

/-- The trace cut into pages: a new page begins at every `newPage`. -/
def pagesOf : List CanvasOp → List (List CanvasOp)
  | [] => [[]]
  | op :: rest =>
    match op.isNewPage, pagesOf rest with
    | true, ps => [] :: ps
    | false, p :: ps => (op :: p) :: ps
    | false, [] => [[op]]

/-! ## Worked example of the specification -/

/-- Store with two cells, of heights `h0` (address 0) and `h1` (elsewhere). -/
def twoCellHeap (h0 h1 : ℚ) : Heap :=
  { cell := fun p => if p = 0 then { height := h0 } else { height := h1 }, next := 2 }

/-- Two rows of one cell each (addresses 0 and 1). -/
def twoRows : List TableRow := [{ cells := [0] }, { cells := [1] }]

/-- One row of one cell (address 0). -/
def oneRow : List TableRow := [{ cells := [0] }]

/-- Font measuring every character 5 wide and every text 10 high. -/
def exampleFont : PDFUsedFont := ⟨fun s _ => ⟨5 * s.length, 10⟩⟩

/-- Cells of the worked example: three header cells (declared widths 100, 50
and none) at addresses 0–2, a cell of colspan 2 at address 3 and a normal cell
at address 4. -/
def exampleCells : Ptr → TableCell
  | 0 => { width := 100, isHeader := true }
  | 1 => { width := 50, isHeader := true }
  | 2 => { isHeader := true }
  | 3 => { colspan := 2 }
  | _ => {}

/-- Store of the worked example: five cells allocated. -/
def exampleHeap : Heap := { cell := exampleCells, next := 5 }

/-- Rows of the worked example, with the default row height 20. -/
def exampleRows : List TableRow :=
  [{ cells := [0, 1, 2], isHeader := true }, { cells := [3, 4] }]

/-- Grid that `BuildCellGrid` builds for the worked example: the slot right of
the spanning cell holds the placeholder allocated at address 5. -/
def exampleGrid : Grid := [[some 0, some 1, some 2], [some 3, some 5, some 4]]

/-- Cells of the worked example after `BuildCellGrid`. -/
def exampleCellsBuilt : Ptr → TableCell
  | 0 => { width := 100, isHeader := true, height := 20, isRowHeader := true }
  | 1 => { width := 50, isHeader := true, height := 20, isRowHeader := true }
  | 2 => { isHeader := true, height := 20, isRowHeader := true }
  | 3 => { colspan := 2, height := 20 }
  | 4 => { height := 20 }
  | 5 => { isSpanned := true, actualRow := 1, actualCol := 1, height := 20 }
  | _ => {}

/-- Table style of the examples: padding 4, font size 10, `exampleFont`. -/
def exampleStyle : TableStyle := { font := exampleFont }

/-- Store with two cells of declared widths `w0` (address 0) and `w1`
(elsewhere). -/
def twoWidthHeap (w0 w1 : ℚ) : Heap :=
  { cell := fun p => if p = 0 then { width := w0 } else { width := w1 }, next := 2 }

/-- Table whose cursor stands at y = 700, bottom margin 50. -/
def exampleTable : PDFTable := { mStyle := { font := exampleFont }, mCurrentY := 700, margin := 50 }

/-- Creator with an open page of the default size 595 × 842 (continuation pages
start their rows at 842 - 50 - 60 - 50 = 682). -/
def examplePdf : PDFCreator := { currentContext := true }

/-- Two header rows of one cell each; the second asks for a page break
before it. -/
def twoHeaderRows : List TableRow :=
  [{ cells := [0], isHeader := true }, { cells := [1], isHeader := true, pageBreakBefore := true }]

/-- The rows drawn on a page are the header rows `0, …, k - 1` in order,
followed only by rows that are not among them. -/
def headersFirst (k : Nat) (page : List CanvasOp) : Prop :=
  ∃ rest : List Nat, rowsDrawnIn page = List.range k ++ rest ∧ ∀ i ∈ rest, k ≤ i

/-- Wrapper over `exampleFont` at size 10 with line spacing 10: every
character is 5 wide, the line height is 10. -/
def exampleWrapper : AdvancedTextWrapper := AdvancedTextWrapper.mk' exampleFont 10 10

/-! ## The round trip of the specification (its words, not the code)

The next two definitions follow the sentence of the specification on the wrap
round trip; they are what the lines of `wrapText` are compared with. -/

/-- Whitespace normalisation in the words of the specification: every run of
whitespace becomes one space, leading and trailing whitespace disappears.
`started` tells that a character was kept already, `pending` that whitespace
was seen since. -/
def specNormalizeFrom : Str → Bool → Bool → Str
  | [], _, _ => []
  | c :: cs, started, pending =>
    if isSpace c then specNormalizeFrom cs started started
    else if pending then ' ' :: c :: specNormalizeFrom cs true false
    else c :: specNormalizeFrom cs true false

/-- Whitespace-normalised source text of the specification. -/
def specNormalize (text : Str) : Str := specNormalizeFrom text false false

/-- Re-joining of wrapped lines in the words of the specification: a line that
ends with the hyphen marker loses it and is joined directly to the next line;
any other two consecutive lines are joined with one space. -/
def specRejoin : List Str → Str
  | [] => []
  | [line] => if line.getLast? = some '-' then line.dropLast else line
  | line :: next :: rest =>
    if line.getLast? = some '-' then line.dropLast ++ specRejoin (next :: rest)
    else line ++ ' ' :: specRejoin (next :: rest)

/-! ## Vocabulary of the proofs: invariants and readings of the state -/

/-- Indices, counted from `rowIdx`, of the rows flagged as header. -/
def headerRowsFrom : List TableRow → Nat → List Nat
  | [], _ => []
  | row :: rest, rowIdx =>
    if row.isHeader then rowIdx :: headerRowsFrom rest (rowIdx + 1)
    else headerRowsFrom rest (rowIdx + 1)

/-- Trace at the end of an iteration, whatever its outcome. -/
def PageAttempt.trace : PageAttempt → List CanvasOp
  | .noContext _ trace => trace
  | .outOfRange _ trace => trace
  | .page _ _ trace => trace

/-- The cell with its `height` replaced. -/
def TableCell.withHeight (c : TableCell) (h : ℚ) : TableCell := { c with height := h }

/-- The cell with its `width` replaced. -/
def TableCell.withWidth (c : TableCell) (x : ℚ) : TableCell := { c with width := x }

/-- Two stores hold the same cells up to their heights. -/
def Heap.sameButHeights (h h' : Heap) : Prop :=
  ∀ q, (h'.cell q).withHeight 0 = (h.cell q).withHeight 0

/-- Two stores hold the same cells up to their widths. -/
def Heap.sameButWidths (h h' : Heap) : Prop :=
  ∀ q, (h'.cell q).withWidth 0 = (h.cell q).withWidth 0

/-- Invariant of the column loop of the row height pass before column `j`, for
a row whose cells all start at the height `h0` and measure `t c` in column
`c`: `hp` is the store at the start of the row, `st = (maxRowHeight, heap)`. -/
structure RowInv (grid : Grid) (row numCols : Nat) (h0 : ℚ) (t : Nat → ℚ) (hp : Heap)
    (j : Nat) (st : ℚ × Heap) : Prop where
  same : hp.sameButHeights st.2
  others : ∀ q, (¬ ∃ c, c < numCols ∧ grid.get row c = some q) → st.2.cell q = hp.cell q
  nonneg : 0 ≤ st.1
  done : ∀ c p, c < j → grid.get row c = some p →
    (st.2.cell p).height = st.1 ∧ max h0 (t c) ≤ st.1
  todo : ∀ c p, j ≤ c → c < numCols → grid.get row c = some p →
    (st.2.cell p).height = if 0 < st.1 then st.1 else h0
  attained : (∃ c p, c < j ∧ grid.get row c = some p) →
    ∃ c p, c < j ∧ grid.get row c = some p ∧ st.1 = max h0 (t c)
  fresh : (¬ ∃ c p, c < j ∧ grid.get row c = some p) → st.1 = 0

/-- State of grid row `r` once its heights are final: every cell of the row has
the same height `M`, which bounds `max (decl r) (t r c)` for every cell of the
row and is that maximum for one of them. -/
def RowFinal (grid : Grid) (numCols : Nat) (decl : Nat → ℚ) (t : Nat → Nat → ℚ) (r : Nat)
    (heap : Heap) : Prop :=
  ∃ M : ℚ,
    (∀ c p, c < numCols → grid.get r c = some p →
      (heap.cell p).height = M ∧ max (decl r) (t r c) ≤ M) ∧
    ((∃ c p, c < numCols ∧ grid.get r c = some p) →
      ∃ c p, c < numCols ∧ grid.get r c = some p ∧ M = max (decl r) (t r c))

/-- Invariant of `BuildCellGrid` on the state `(grid, heap)`, relative to the
rows, the store `h0` at the call and the column count: `placed` lists the input
cells handled so far. The grid keeps its shape; its slots hold pairwise
distinct allocated cells whose height is the declared height of their row;
input cells found in the grid have been placed; the other cells of the grid
are placeholders without content; input cells changed in `height` and
`isRowHeader` only. -/
structure BuildInv (rows : List TableRow) (h0 : Heap) (maxCols : Nat) (placed : List Ptr)
    (st : Grid × Heap) : Prop where
  rowsLen : st.1.length = rows.length
  colsLen : ∀ i, i < rows.length → (st.1.getD i []).length = maxCols
  next : h0.next ≤ st.2.next
  alloc : ∀ r c p, st.1.get r c = some p → p < st.2.next
  inj : ∀ r r' c c' p, st.1.get r c = some p → st.1.get r' c' = some p → r = r' ∧ c = c'
  height : ∀ r c p, st.1.get r c = some p →
    (st.2.cell p).height = (rows.getD r default).height
  anchor : ∀ r c p, st.1.get r c = some p → p < h0.next → p ∈ placed
  spanned : ∀ r c p, st.1.get r c = some p → h0.next ≤ p →
    (st.2.cell p).isSpanned = true ∧ (st.2.cell p).content = []
  input : ∀ p, p < h0.next →
    st.2.cell p = { h0.cell p with
      height := (st.2.cell p).height, isRowHeader := (st.2.cell p).isRowHeader }

/-- The cell pointers of all rows, in row order. -/
def allCells (rows : List TableRow) : List Ptr := (rows.map (fun row => row.cells)).flatten

/-- Measured height (wrapped text plus padding) of the cell in slot `(r, c)`,
0 for a null slot. -/
def measuredAt (style : TableStyle) (colWidths : List ℚ) (numCols : Nat) (grid : Grid)
    (heap : Heap) (r c : Nat) : ℚ :=
  match grid.get r c with
  | some p => (measureCell style colWidths numCols c (heap.cell p)).getD 0
  | none => 0

/-! ## Column widths with the quotients made explicit -/

/-- What keeps the column width solver from giving widths: a quotient with a
zero divisor, or a width scan that never ends. -/
inductive SolverFault where
  | zeroDivisor : SolverFault
  | scanStuck : SolverFault
  deriving DecidableEq

/-- Quotient of two `double`s as the solver writes it, with the zero divisor
told apart (the language leaves that quotient undefined; IEEE arithmetic
answers it with an infinity or a NaN). -/
def divChecked (a b : ℚ) : Except SolverFault ℚ :=
  if b = 0 then .error .zeroDivisor else .ok (a / b)

/-- Redistribution step (source lines 221–230) with its quotient made
explicit: line 226 evaluates `(tableWidth - sumWidths) / fixWidthCount` on
every call, before the loop that adds it to the flexible columns. -/
def distributeFlexibleChecked (tableWidth fixWidth : ℚ) (colWidths : List ℚ) :
    Except SolverFault (List ℚ) :=
  match divChecked (tableWidth - sumWidthsOf colWidths) (fixWidthCountOf fixWidth colWidths) with
  | .error e => .error e
  | .ok diff => .ok (colWidths.map (fun item => if item = fixWidth then item + diff else item))

/-- The column width solver (source lines 199–230) with both quotients made
explicit: `tableWidth / numCols` of line 200 and the one of the
redistribution. -/
def solveColumnWidthsChecked (heap : Heap) (grid : Grid) (tableWidth : ℚ) :
    Except SolverFault (List ℚ) :=
  match divChecked tableWidth ((grid.getD 0 []).length : ℚ) with
  | .error e => .error e
  | .ok fixWidth =>
    match explicitWidths heap grid grid.length (grid.getD 0 []).length
        (List.replicate (grid.getD 0 []).length fixWidth) with
    | none => .error .scanStuck
    | some colWidths => distributeFlexibleChecked tableWidth fixWidth colWidths

/-! ## Further vocabulary and example tables -/

/-- Sum of the colspans of the cells of a row. -/
def colspanSum (heap : Heap) (row : TableRow) : Nat :=
  (row.cells.map (fun c => (heap.cell c).colspan)).sum

/-- Every populated slot of `g` is populated in `g'`. -/
def Grid.keeps (g g' : Grid) : Prop :=
  ∀ r c, (g.get r c).isSome = true → (g'.get r c).isSome = true

/-- The part of the invariant of `BuildCellGrid` that needs no assumption on
the rows: the grid keeps its shape, allocation only moves forward, and the
cells that existed at the call keep their spans. -/
structure ShapeInv (rows : List TableRow) (h0 : Heap) (maxCols : Nat) (st : Grid × Heap) :
    Prop where
  rowsLen : st.1.length = rows.length
  colsLen : ∀ i, i < rows.length → (st.1.getD i []).length = maxCols
  next : h0.next ≤ st.2.next
  spans : ∀ p, p < h0.next →
    (st.2.cell p).colspan = (h0.cell p).colspan ∧ (st.2.cell p).rowspan = (h0.cell p).rowspan

/-- Cursor of `DrawRowsOnPage` before the `i`-th row of the page: the start
position minus the heights (of the first cell) of the rows before it. -/
def cursorBefore (heap : Heap) (rows : List TableRow) (startRow : Nat) (startY : ℚ)
    (i : Nat) : ℚ :=
  startY - (((rows.drop startRow).take i).map (fun row => (firstCellHeight heap row).getD 0)).sum

/-- Store of `n` cells, all with the defaults of `TableCell`. -/
def plainHeap (n : Nat) : Heap := { cell := fun _ => {}, next := n }

/-- Two rows of default cells: two cells (addresses 0 and 1), then one cell
(address 2). -/
def raggedRows : List TableRow := [{ cells := [0, 1] }, { cells := [2] }]

/-- One row without cells. -/
def emptyRow : List TableRow := [{ cells := [] }]

/-- Cells of the row span example: the cell at address 0 spans two rows. -/
def spanCells : Ptr → TableCell
  | 0 => { rowspan := 2 }
  | _ => {}

/-- Store of the row span example: three cells allocated. -/
def spanHeap : Heap := { cell := spanCells, next := 3 }

/-- Rows of the row span example: declared heights 20 and 30; the first cell
of the first row spans both rows. -/
def spanRows : List TableRow :=
  [{ cells := [0, 1], height := 20 }, { cells := [2], height := 30 }]

/-- Grid that `BuildCellGrid` builds for the row span example: the slot below
the spanning cell holds the placeholder allocated at address 3. -/
def spanGrid : Grid := [[some 0, some 1], [some 3, some 2]]

/-- Cells of the row span example after `BuildCellGrid`. -/
def spanCellsBuilt : Ptr → TableCell
  | 0 => { rowspan := 2, height := 20 }
  | 1 => { height := 20 }
  | 2 => { height := 30 }
  | 3 => { isSpanned := true, actualRow := 1, actualCol := 0, height := 30 }
  | _ => {}

/-- Cells of the one-row table `oneRow` after `BuildCellGrid`: the cell at
address 0 has taken the default row height 20. -/
def oneCellBuilt : Ptr → TableCell
  | 0 => { height := 20 }
  | _ => {}

/-- Store of the narrow table: one cell with the content "ab". -/
def narrowHeap : Heap :=
  { cell := fun p => if p = 0 then { content := ['a', 'b'] } else {}, next := 1 }

/-- Cells of the narrow table after `BuildCellGrid` on `oneRow`. -/
def narrowCellsBuilt : Ptr → TableCell
  | 0 => { content := ['a', 'b'], height := 20 }
  | _ => {}

/-- One row of two cells (addresses 0 and 1). -/
def flexRows : List TableRow := [{ cells := [0, 1] }]

/-- Cells of `flexRows`, taken from `plainHeap 2`, after `BuildCellGrid`. -/
def flexCellsBuilt : Ptr → TableCell
  | 0 => { height := 20 }
  | 1 => { height := 20 }
  | _ => {}

/-- Cells of the wide span example: the cell at address 0 spans two columns
and two rows and declares the width 70. -/
def wideCells : Ptr → TableCell
  | 0 => { colspan := 2, rowspan := 2, width := 70 }
  | _ => {}

/-- Store of the wide span example: three cells allocated. -/
def wideHeap : Heap := { cell := wideCells, next := 3 }

/-- Rows of the wide span example: the spanning cell and a normal cell, then a
row of one normal cell. -/
def wideRows : List TableRow := [{ cells := [0, 1] }, { cells := [2] }]

/-- Grid that `BuildCellGrid` builds for the wide span example: the
placeholders of the spanning cell are allocated at the addresses 3, 4 and 5. -/
def wideGrid : Grid := [[some 0, some 3, some 1], [some 4, some 5, some 2]]

/-- Cells of the wide span example after `BuildCellGrid`: every placeholder
carries the declared width 70 of the spanning cell. -/
def wideCellsBuilt : Ptr → TableCell
  | 0 => { colspan := 2, rowspan := 2, width := 70, height := 20 }
  | 1 => { height := 20 }
  | 2 => { height := 20 }
  | 3 => { isSpanned := true, actualRow := 0, actualCol := 1, height := 20, width := 70 }
  | 4 => { isSpanned := true, actualRow := 1, actualCol := 0, height := 20, width := 70 }
  | 5 => { isSpanned := true, actualRow := 1, actualCol := 1, height := 20, width := 70 }
  | _ => {}

/-- Cells of the overlap example: the cell at address 1 spans two rows, the
cell at address 2 spans two columns. -/
def overlapCells : Ptr → TableCell
  | 1 => { rowspan := 2 }
  | 2 => { colspan := 2 }
  | _ => {}

/-- Store of the overlap example: three cells allocated. -/
def overlapHeap : Heap := { cell := overlapCells, next := 3 }

/-- Rows of the overlap example: a normal cell and the cell spanning two rows,
then the cell spanning two columns. -/
def overlapRows : List TableRow := [{ cells := [0, 1] }, { cells := [2] }]

/-- The first cells of row `i` of the table sit in grid row `i` at the columns
`cols`, in the order of the cell list, each leaving room for its colspan
before the next one; when cells of the row are left over, the grid row is
full. -/
def RowAnchors (rows : List TableRow) (h0 : Heap) (maxCols : Nat) (grid : Grid) (i : Nat)
    (cols : List Nat) : Prop :=
  cols.length ≤ (rows.getD i default).cells.length ∧
  (∀ j, j < cols.length → cols.getD j 0 < maxCols) ∧
  (∀ j1 j2, j1 < j2 → j2 < cols.length →
    cols.getD j1 0 + (h0.cell ((rows.getD i default).cells.getD j1 0)).colspan
      ≤ cols.getD j2 0) ∧
  (∀ j, j < cols.length →
    grid.get i (cols.getD j 0) = some ((rows.getD i default).cells.getD j 0)) ∧
  (cols.length < (rows.getD i default).cells.length →
    ∀ c, c < maxCols → (grid.get i c).isSome = true)

/-- Local `sx` of `PDFTable::DrawRowCells` when its loop ends: every position
of the row, drawn or placeholder, advances it by the width of its cell. -/
def rowEndX (heap : Heap) (rowIdx : Nat) : List CellPosition → ℚ → ℚ
  | [], sx => sx
  | pos :: rest, sx =>
    if pos.row = rowIdx ∧ (heap.cell pos.cell).isSpanned then
      rowEndX heap rowIdx rest (sx + (heap.cell pos.cell).width)
    else if pos.row = rowIdx ∧ ¬ (heap.cell pos.cell).isSpanned then
      rowEndX heap rowIdx rest (sx + (heap.cell pos.cell).width)
    else rowEndX heap rowIdx rest sx

/-! ## The tiling of a row (the words of the claim, not the code) -/

/-- Left edge of column `c`: `startX` plus the widths of the columns to its
left. -/
def columnLeft (colWidths : List ℚ) (startX : ℚ) (c : Nat) : ℚ :=
  startX + Finset.sum (Finset.range c) (fun j => colWidths.getD j 0)

/-- The drawing call expected for the slot `(r, c)`: none for a null slot or a
placeholder; an anchor cell is drawn at the left edge of its column, as wide as
the columns `c, …, min(c + colspan, numCols) - 1` together, with the height of
its position. -/
def specTile (style : TableStyle) (heap : Heap) (grid : Grid) (colWidths : List ℚ)
    (numRows numCols r : Nat) (startX rowY : ℚ) (c : Nat) : Option DrawCellCall :=
  match grid.get r c with
  | none => none
  | some p =>
    if (heap.cell p).isSpanned then none
    else
      some
        { cell := p
          x := columnLeft colWidths startX c
          y := rowY
          width := Finset.sum (Finset.Ico c (min (c + (heap.cell p).colspan) numCols))
            (fun j => colWidths.getD j 0)
          height := spanHeight style numRows r (heap.cell p) }

/-- Cells of the over-wide table: the cell at address 0 declares the width
150, the others declare none. -/
def overCells : Ptr → TableCell
  | 0 => { width := 150 }
  | _ => {}

/-- Store of the over-wide table: three cells allocated. -/
def overHeap : Heap := { cell := overCells, next := 3 }

/-- One row of three cells (addresses 0, 1 and 2). -/
def overRows : List TableRow := [{ cells := [0, 1, 2] }]

/-- Cells of the over-wide table after `BuildCellGrid` on `overRows`. -/
def overCellsBuilt : Ptr → TableCell
  | 0 => { width := 150, height := 20 }
  | 1 => { height := 20 }
  | 2 => { height := 20 }
  | _ => {}

/-! ## Lemmas on the drawing loops -/

theorem drawRowsLoop_spec(margin : ℚ) (heap : Heap) (cellPositions : List CellPosition)
    (startX : ℚ) (l : List TableRow) :
    ∀ (rowIdx : Nat) (currentY : ℚ) (rowsDrawn : Nat) (ops : List CanvasOp),
      ∃ (n : Nat) (added : List CanvasOp),
        n ≤ l.length ∧
        (drawRowsLoop margin heap cellPositions startX l rowIdx currentY rowsDrawn ops).ops
          = ops ++ added ∧
        newPages added = 0 ∧
        dataRows added = List.range' rowIdx n ∧
        rowsDrawnIn added = List.range' rowIdx n ∧
        ∀ m, (drawRowsLoop margin heap cellPositions startX l rowIdx currentY rowsDrawn ops).rowsDrawn
          = some m → m = rowsDrawn + n := by
  induction l with
  | nil =>
    intro rowIdx currentY rowsDrawn ops
    refine ⟨0, [], ?_⟩
    simp [drawRowsLoop, newPages, dataRows, rowsDrawnIn]
  | cons row rest ih =>
    intro rowIdx currentY rowsDrawn ops
    unfold drawRowsLoop
    cases hfc : firstCellHeight heap row with
    | none =>
      refine ⟨0, [], ?_⟩
      simp [newPages, dataRows, rowsDrawnIn]
    | some rowHeight =>
      simp only
      split
      · refine ⟨0, [], ?_⟩
        simp [newPages, dataRows, rowsDrawnIn]
      · split
        · refine ⟨0, [], ?_⟩
          simp [newPages, dataRows, rowsDrawnIn]
        · obtain ⟨n, added, hn, hops, hnp, hdata, hrows, hcount⟩ :=
            ih (rowIdx + 1) (currentY - rowHeight) (rowsDrawn + 1)
              (ops ++ [CanvasOp.dataRow rowIdx currentY
                (DrawRowCells heap rowIdx currentY cellPositions startX)])
          refine ⟨n + 1, CanvasOp.dataRow rowIdx currentY
            (DrawRowCells heap rowIdx currentY cellPositions startX) :: added, ?_⟩
          refine ⟨by simp; omega, by simp [hops], ?_, ?_, ?_, ?_⟩
          · simpa [newPages, CanvasOp.isNewPage, List.countP_cons] using hnp
          · simp only [dataRows, List.filterMap_cons, CanvasOp.dataIdx?] at hdata ⊢
            rw [hdata, List.range'_succ]
          · simp only [rowsDrawnIn, List.filterMap_cons, CanvasOp.rowIdx?] at hrows ⊢
            rw [hrows, List.range'_succ]
          · intro m hm
            have := hcount m hm
            omega

theorem DrawRowsOnPage_spec (table : PDFTable) (heap : Heap) (rows : List TableRow)
    (cellPositions : List CellPosition) (startX startY : ℚ) (startRow : Nat) :
    ∃ n : Nat,
      n ≤ rows.length - startRow ∧
      newPages (table.DrawRowsOnPage heap rows cellPositions startX startY startRow).ops = 0 ∧
      dataRows (table.DrawRowsOnPage heap rows cellPositions startX startY startRow).ops
        = List.range' startRow n ∧
      rowsDrawnIn (table.DrawRowsOnPage heap rows cellPositions startX startY startRow).ops
        = List.range' startRow n ∧
      ∀ m, (table.DrawRowsOnPage heap rows cellPositions startX startY startRow).rowsDrawn
        = some m → m = n := by
  obtain ⟨n, added, hn, hops, hnp, hdata, hrows, hcount⟩ :=
    drawRowsLoop_spec table.margin heap cellPositions startX (rows.drop startRow) startRow startY 0 []
  refine ⟨n, ?_, ?_, ?_, ?_, ?_⟩
  · simpa using hn
  · simp only [PDFTable.DrawRowsOnPage, hops, List.nil_append, hnp]
  · simp only [PDFTable.DrawRowsOnPage, hops, List.nil_append, hdata]
  · simp only [PDFTable.DrawRowsOnPage, hops, List.nil_append, hrows]
  · intro m hm
    have := hcount m hm
    omega

theorem drawHeaderLoop_spec (heap : Heap) (cellPositions : List CellPosition) (startX : ℚ)
    (l : List TableRow) :
    ∀ (rowIdx : Nat) (currentY : ℚ) (ops out : List CanvasOp),
      drawHeaderLoop heap cellPositions startX l rowIdx currentY ops = some out →
      ∃ added : List CanvasOp,
        out = ops ++ added ∧ newPages added = 0 ∧ dataRows added = [] ∧
        rowsDrawnIn added = headerRowsFrom l rowIdx := by
  induction l with
  | nil =>
    intro rowIdx currentY ops out h
    simp only [drawHeaderLoop, Option.some.injEq] at h
    exact ⟨[], by simp [h], rfl, rfl, rfl⟩
  | cons row rest ih =>
    intro rowIdx currentY ops out h
    unfold drawHeaderLoop at h
    cases hfc : firstCellHeight heap row with
    | none => simp [hfc] at h
    | some rowHeight =>
      simp only [hfc] at h
      by_cases hh : row.isHeader = true
      · simp only [hh, ↓reduceIte] at h
        obtain ⟨added, hout, hnp, hdata, hrows⟩ := ih _ _ _ _ h
        refine ⟨CanvasOp.headerRow rowIdx currentY
          (DrawRowCells heap rowIdx currentY cellPositions startX) :: added, ?_, ?_, ?_, ?_⟩
        · simp [hout]
        · simpa [newPages, CanvasOp.isNewPage, List.countP_cons] using hnp
        · simpa [dataRows, CanvasOp.dataIdx?] using hdata
        · simp only [rowsDrawnIn, List.filterMap_cons, CanvasOp.rowIdx?, headerRowsFrom, hh,
            ↓reduceIte] at hrows ⊢
          rw [hrows]
      · simp only [hh] at h
        obtain ⟨added, hout, hnp, hdata, hrows⟩ := ih _ _ _ _ h
        refine ⟨added, hout, hnp, hdata, ?_⟩
        simp only [headerRowsFrom, hh]
        exact hrows

theorem newPages_append (a b : List CanvasOp) : newPages (a ++ b) = newPages a + newPages b := by
  simp [newPages, List.countP_append]

theorem dataRows_append (a b : List CanvasOp) : dataRows (a ++ b) = dataRows a ++ dataRows b := by
  simp [dataRows, List.filterMap_append]

theorem rowsDrawnIn_append (a b : List CanvasOp) :
    rowsDrawnIn (a ++ b) = rowsDrawnIn a ++ rowsDrawnIn b := by
  simp [rowsDrawnIn, List.filterMap_append]

/-- What a drawn page adds to the trace: the header replay of a continuation
page (all header rows, in order), then the data rows `currentRow, …,
currentRow + rowsDrawn - 1`. -/
theorem drawPage_page (table : PDFTable) (heap : Heap) (rows : List TableRow)
    (cellPositions : List CellPosition) (startX : ℚ) (currentRow : Nat) (isFirstPage : Bool)
    (currentPageY : ℚ) (pdf : PDFCreator) (trace : List CanvasOp)
    (rowsDrawn : Nat) (pdf₁ : PDFCreator) (trace₁ : List CanvasOp)
    (h : drawPage table heap rows cellPositions startX currentRow isFirstPage currentPageY pdf trace
      = .page rowsDrawn pdf₁ trace₁) :
    pdf₁ = pdf ∧ rowsDrawn ≤ rows.length - currentRow ∧
    ∃ body : List CanvasOp, trace₁ = trace ++ body ∧ newPages body = 0 ∧
      dataRows body = List.range' currentRow rowsDrawn ∧
      rowsDrawnIn body =
        (if isFirstPage then [] else headerRowsFrom rows 0) ++ List.range' currentRow rowsDrawn := by
  unfold drawPage at h
  cases isFirstPage with
  | true =>
    simp only [↓reduceIte] at h
    obtain ⟨n, hn, hnp, hdata, hrows, hcount⟩ :=
      DrawRowsOnPage_spec table heap rows cellPositions startX currentPageY currentRow
    cases hm : (table.DrawRowsOnPage heap rows cellPositions startX currentPageY
        currentRow).rowsDrawn with
    | none => rw [hm] at h; cases h
    | some m =>
      rw [hm] at h
      simp only [PageAttempt.page.injEq] at h
      obtain ⟨h1, h2, h3⟩ := h
      have h4 := hcount m hm
      rw [← h1, ← h2, ← h3, h4]
      exact ⟨rfl, hn, _, rfl, hnp, hdata, by simpa using hrows⟩
  | false =>
    simp only [Bool.false_eq_true, ↓reduceIte] at h
    cases hho : DrawTableHeader heap rows cellPositions startX currentPageY with
    | none => rw [hho] at h; cases h
    | some headerOps =>
      rw [hho] at h
      simp only at h
      cases hhh : GetHeaderHeight heap rows with
      | none => rw [hhh] at h; cases h
      | some headerHeight =>
        rw [hhh] at h
        simp only at h
        obtain ⟨n, hn, hnp, hdata, hrows, hcount⟩ :=
          DrawRowsOnPage_spec table heap rows cellPositions startX (currentPageY - headerHeight)
            currentRow
        obtain ⟨added, hout, hanp, hadata, harows⟩ :=
          drawHeaderLoop_spec heap cellPositions startX rows 0 currentPageY [] headerOps hho
        simp only [List.nil_append] at hout
        cases hm : (table.DrawRowsOnPage heap rows cellPositions startX
            (currentPageY - headerHeight) currentRow).rowsDrawn with
        | none => rw [hm] at h; cases h
        | some m =>
          rw [hm] at h
          simp only [PageAttempt.page.injEq] at h
          obtain ⟨h1, h2, h3⟩ := h
          have h4 := hcount m hm
          rw [← h1, ← h2, ← h3, h4, hout]
          refine ⟨rfl, hn, added ++ (table.DrawRowsOnPage heap rows cellPositions startX
            (currentPageY - headerHeight) currentRow).ops, by simp, ?_, ?_, ?_⟩
          · rw [newPages_append, hanp, hnp]
          · rw [dataRows_append, hadata, hdata, List.nil_append]
          · rw [rowsDrawnIn_append, harows, hrows]
            simp

/-- Outcome `page` of an iteration: the trace grows by a `newPage` (on a
continuation page) and the body of the page. -/
theorem pageAttempt_page (table : PDFTable) (heap : Heap) (rows : List TableRow)
    (cellPositions : List CellPosition) (startX : ℚ) (currentRow : Nat) (isFirstPage : Bool)
    (pdf : PDFCreator) (trace : List CanvasOp)
    (rowsDrawn : Nat) (pdf₁ : PDFCreator) (trace₁ : List CanvasOp)
    (h : pageAttempt table heap rows cellPositions startX currentRow isFirstPage pdf trace
      = .page rowsDrawn pdf₁ trace₁) :
    rowsDrawn ≤ rows.length - currentRow ∧
    ∃ body : List CanvasOp,
      trace₁ = trace ++ (if isFirstPage then [] else [CanvasOp.newPage]) ++ body ∧
      newPages body = 0 ∧
      dataRows body = List.range' currentRow rowsDrawn ∧
      rowsDrawnIn body =
        (if isFirstPage then [] else headerRowsFrom rows 0) ++ List.range' currentRow rowsDrawn := by
  unfold pageAttempt at h
  cases isFirstPage with
  | true =>
    simp only [↓reduceIte] at h
    by_cases hc : (!pdf.currentContext) = true
    · rw [if_pos hc] at h; cases h
    · rw [if_neg hc] at h
      obtain ⟨_, hle, body, ht, hrest⟩ := drawPage_page _ _ _ _ _ _ _ _ _ _ _ _ _ h
      exact ⟨hle, body, by simpa using ht, by simpa using hrest⟩
  | false =>
    simp only [Bool.false_eq_true, ↓reduceIte] at h
    by_cases hc : (!pdf.createNewPage.currentContext) = true
    · rw [if_pos hc] at h; cases h
    · rw [if_neg hc] at h
      obtain ⟨_, hle, body, ht, hrest⟩ := drawPage_page _ _ _ _ _ _ _ _ _ _ _ _ _ h
      exact ⟨hle, body, by simpa using ht, by simpa using hrest⟩

theorem DrawTableHeader_newPages (heap : Heap) (rows : List TableRow)
    (cellPositions : List CellPosition) (startX startY : ℚ) (ops : List CanvasOp)
    (h : DrawTableHeader heap rows cellPositions startX startY = some ops) :
    newPages ops = 0 := by
  obtain ⟨added, hout, hanp, _, _⟩ :=
    drawHeaderLoop_spec heap cellPositions startX rows 0 startY [] ops h
  simp only [List.nil_append] at hout
  rw [hout, hanp]

theorem DrawRowsOnPage_newPages (table : PDFTable) (heap : Heap) (rows : List TableRow)
    (cellPositions : List CellPosition) (startX startY : ℚ) (startRow : Nat) :
    newPages (table.DrawRowsOnPage heap rows cellPositions startX startY startRow).ops = 0 := by
  obtain ⟨n, _, hnp, _⟩ :=
    DrawRowsOnPage_spec table heap rows cellPositions startX startY startRow
  exact hnp

theorem drawPage_newPages (table : PDFTable) (heap : Heap) (rows : List TableRow)
    (cellPositions : List CellPosition) (startX : ℚ) (currentRow : Nat) (isFirstPage : Bool)
    (currentPageY : ℚ) (pdf : PDFCreator) (trace : List CanvasOp) :
    newPages (drawPage table heap rows cellPositions startX currentRow isFirstPage currentPageY
      pdf trace).trace = newPages trace := by
  unfold drawPage
  cases isFirstPage with
  | true =>
    simp only [↓reduceIte]
    generalize (table.DrawRowsOnPage heap rows cellPositions startX currentPageY
        currentRow).rowsDrawn = rd
    cases rd <;>
      simp only [PageAttempt.trace, newPages_append, DrawRowsOnPage_newPages, Nat.add_zero]
  | false =>
    simp only [Bool.false_eq_true, ↓reduceIte]
    cases hho : DrawTableHeader heap rows cellPositions startX currentPageY with
    | none => simp only [PageAttempt.trace]
    | some headerOps =>
      have hh := DrawTableHeader_newPages heap rows cellPositions startX currentPageY headerOps hho
      cases hhh : GetHeaderHeight heap rows with
      | none => simp only [PageAttempt.trace, newPages_append, hh, Nat.add_zero]
      | some headerHeight =>
        simp only
        generalize (table.DrawRowsOnPage heap rows cellPositions startX
            (currentPageY - headerHeight) currentRow).rowsDrawn = rd
        cases rd <;>
          simp only [PageAttempt.trace, newPages_append, DrawRowsOnPage_newPages, hh,
            Nat.add_zero]

/-- An iteration starts at most one page, and none on the first page. -/
theorem pageAttempt_newPages (table : PDFTable) (heap : Heap) (rows : List TableRow)
    (cellPositions : List CellPosition) (startX : ℚ) (currentRow : Nat) (isFirstPage : Bool)
    (pdf : PDFCreator) (trace : List CanvasOp) :
    newPages (pageAttempt table heap rows cellPositions startX currentRow isFirstPage pdf
      trace).trace ≤ newPages trace + (if isFirstPage then 0 else 1) := by
  unfold pageAttempt
  cases isFirstPage with
  | true =>
    simp only [↓reduceIte]
    by_cases hc : (!pdf.currentContext) = true
    · rw [if_pos hc]; simp [PageAttempt.trace]
    · rw [if_neg hc, drawPage_newPages]; simp
  | false =>
    simp only [Bool.false_eq_true, ↓reduceIte]
    by_cases hc : (!pdf.createNewPage.currentContext) = true
    · rw [if_pos hc]; simp [PageAttempt.trace]
    · rw [if_neg hc, drawPage_newPages, newPages_append]
      simp [newPages, CanvasOp.isNewPage]

/-- Invariant of the loop of `DrawTableOnPages` behind its termination bounds. -/
theorem tablePagesLoop_bounds (direct : Bool) (table : PDFTable) (heap : Heap)
    (rows : List TableRow) (cellPositions : List CellPosition) (startX : ℚ) (ret : Dimension)
    (n : Nat) :
    ∀ (currentRow : Nat) (isFirstPage : Bool) (pdf : PDFCreator) (trace : List CanvasOp)
    (pageCounts : List Nat) (iterations : Nat), rows.length - currentRow = n →
    (∀ c ∈ pageCounts, 0 < c) →
    (tablePagesLoop direct table heap rows cellPositions startX ret currentRow isFirstPage pdf
      trace pageCounts iterations).iterations ≤ iterations + (rows.length - currentRow) ∧
    newPages (tablePagesLoop direct table heap rows cellPositions startX ret currentRow
      isFirstPage pdf trace pageCounts iterations).trace
      ≤ newPages trace + ((rows.length - currentRow) - (if isFirstPage then 1 else 0)) ∧
    ∀ c ∈ (tablePagesLoop direct table heap rows cellPositions startX ret currentRow
      isFirstPage pdf trace pageCounts iterations).pageCounts.dropLast, 0 < c := by
  induction n using Nat.strong_induction_on with
  | _ n ih =>
    intro currentRow isFirstPage pdf trace pageCounts iterations hn hpos
    rw [tablePagesLoop]
    by_cases hlt : currentRow < rows.length
    · simp only [hlt, ↓reduceDIte]
      have hnp := pageAttempt_newPages table heap rows cellPositions startX currentRow
        isFirstPage pdf trace
      have hstop : newPages trace + (if isFirstPage = true then 0 else 1)
          ≤ newPages trace + ((rows.length - currentRow) - (if isFirstPage then 1 else 0)) := by
        cases isFirstPage <;> simp
        omega
      cases hpa : pageAttempt table heap rows cellPositions startX currentRow isFirstPage pdf
          trace with
      | noContext pdf₁ trace₁ =>
        rw [hpa] at hnp
        simp only [PageAttempt.trace] at hnp
        refine ⟨by simp only; omega, le_trans hnp hstop, ?_⟩
        intro c hc
        exact hpos c (List.mem_of_mem_dropLast hc)
      | outOfRange pdf₁ trace₁ =>
        rw [hpa] at hnp
        simp only [PageAttempt.trace] at hnp
        refine ⟨by simp only; omega, le_trans hnp hstop, ?_⟩
        intro c hc
        exact hpos c (List.mem_of_mem_dropLast hc)
      | page rowsDrawn pdf₁ trace₁ =>
        rw [hpa] at hnp
        simp only [PageAttempt.trace] at hnp
        simp only
        by_cases h0 : rowsDrawn = 0
        · simp only [h0, ↓reduceDIte]
          refine ⟨by omega, le_trans hnp hstop, ?_⟩
          intro c hc
          rw [List.dropLast_concat] at hc
          exact hpos c hc
        · simp only [h0, ↓reduceDIte]
          have hpos' : ∀ c ∈ pageCounts ++ [rowsDrawn], 0 < c := by
            intro c hc
            rcases List.mem_append.mp hc with hc | hc
            · exact hpos c hc
            · simp only [List.mem_singleton] at hc
              omega
          obtain ⟨h1, h2, h3⟩ := ih (rows.length - (currentRow + rowsDrawn)) (by omega)
            (currentRow + rowsDrawn) (if direct then false else isFirstPage) pdf₁ trace₁
            (pageCounts ++ [rowsDrawn]) (iterations + 1) rfl hpos'
          refine ⟨by omega, ?_, h3⟩
          refine le_trans h2 ?_
          cases isFirstPage <;> cases direct <;> simp at hnp ⊢ <;> omega
    · simp only [hlt, ↓reduceDIte]
      refine ⟨by omega, by omega, ?_⟩
      intro c hc
      exact hpos c (List.mem_of_mem_dropLast hc)

theorem drawPage_ne_noContext (table : PDFTable) (heap : Heap) (rows : List TableRow)
    (cellPositions : List CellPosition) (startX : ℚ) (currentRow : Nat) (isFirstPage : Bool)
    (currentPageY : ℚ) (pdf : PDFCreator) (trace : List CanvasOp)
    (pdf₁ : PDFCreator) (trace₁ : List CanvasOp) :
    drawPage table heap rows cellPositions startX currentRow isFirstPage currentPageY pdf trace
      ≠ .noContext pdf₁ trace₁ := by
  unfold drawPage
  cases isFirstPage with
  | true =>
    simp only [↓reduceIte]
    generalize (table.DrawRowsOnPage heap rows cellPositions startX currentPageY
        currentRow).rowsDrawn = rd
    cases rd <;> simp
  | false =>
    simp only [Bool.false_eq_true, ↓reduceIte]
    cases DrawTableHeader heap rows cellPositions startX currentPageY with
    | none => simp
    | some headerOps =>
      cases GetHeaderHeight heap rows with
      | none => simp
      | some headerHeight =>
        simp only
        generalize (table.DrawRowsOnPage heap rows cellPositions startX
            (currentPageY - headerHeight) currentRow).rowsDrawn = rd
        cases rd <;> simp

/-- An iteration that returns for lack of a page context draws nothing. -/
theorem pageAttempt_noContext (table : PDFTable) (heap : Heap) (rows : List TableRow)
    (cellPositions : List CellPosition) (startX : ℚ) (currentRow : Nat) (isFirstPage : Bool)
    (pdf : PDFCreator) (trace : List CanvasOp) (pdf₁ : PDFCreator) (trace₁ : List CanvasOp)
    (h : pageAttempt table heap rows cellPositions startX currentRow isFirstPage pdf trace
      = .noContext pdf₁ trace₁) : trace₁ = trace := by
  unfold pageAttempt at h
  cases isFirstPage with
  | true =>
    simp only [↓reduceIte] at h
    by_cases hc : (!pdf.currentContext) = true
    · rw [if_pos hc] at h
      simp only [PageAttempt.noContext.injEq] at h
      exact h.2.symm
    · rw [if_neg hc] at h
      exact absurd h (drawPage_ne_noContext _ _ _ _ _ _ _ _ _ _ _ _)
  | false =>
    simp only [Bool.false_eq_true, ↓reduceIte] at h
    by_cases hc : (!pdf.createNewPage.currentContext) = true
    · rw [if_pos hc] at h
      simp only [PageAttempt.noContext.injEq] at h
      exact h.2.symm
    · rw [if_neg hc] at h
      exact absurd h (drawPage_ne_noContext _ _ _ _ _ _ _ _ _ _ _ _)

/-- Invariant of the loop of `DrawTableOnPages` for the rows drawn as data
rows: a run that returns has drawn the rows `currentRow, …, currentRow + k - 1`
once each, in order, where `k` is the sum of the counts of its pages; `k`
reaches the end of the row list when the run reports success and no page drew
zero rows. -/
theorem tablePagesLoop_dataRows (direct : Bool) (table : PDFTable) (heap : Heap)
    (rows : List TableRow) (cellPositions : List CellPosition) (startX : ℚ) (ret : Dimension)
    (hret : ret.ok = false) (n : Nat) :
    ∀ (currentRow : Nat) (isFirstPage : Bool) (pdf : PDFCreator) (trace : List CanvasOp)
    (pageCounts : List Nat) (iterations : Nat), rows.length - currentRow = n →
    (tablePagesLoop direct table heap rows cellPositions startX ret currentRow isFirstPage pdf
      trace pageCounts iterations).ret ≠ none →
    ∃ counts : List Nat,
      (tablePagesLoop direct table heap rows cellPositions startX ret currentRow isFirstPage pdf
        trace pageCounts iterations).pageCounts = pageCounts ++ counts ∧
      dataRows (tablePagesLoop direct table heap rows cellPositions startX ret currentRow
        isFirstPage pdf trace pageCounts iterations).trace
        = dataRows trace ++ List.range' currentRow counts.sum ∧
      counts.sum ≤ rows.length - currentRow ∧
      (((tablePagesLoop direct table heap rows cellPositions startX ret currentRow isFirstPage
          pdf trace pageCounts iterations).ret.map (fun d => d.ok)) = some true →
        0 ∉ counts → counts.sum = rows.length - currentRow) := by
  induction n using Nat.strong_induction_on with
  | _ n ih =>
    intro currentRow isFirstPage pdf trace pageCounts iterations hn
    rw [tablePagesLoop]
    by_cases hlt : currentRow < rows.length
    · simp only [hlt, ↓reduceDIte]
      cases hpa : pageAttempt table heap rows cellPositions startX currentRow isFirstPage pdf
          trace with
      | noContext pdf₁ trace₁ =>
        intro _
        have ht := pageAttempt_noContext _ _ _ _ _ _ _ _ _ _ _ hpa
        refine ⟨[], by simp, by simp [ht], by simp, ?_⟩
        simp [hret]
      | outOfRange pdf₁ trace₁ =>
        intro hne
        simp at hne
      | page rowsDrawn pdf₁ trace₁ =>
        obtain ⟨hle, body, ht, hnp, hdata, hrows⟩ := pageAttempt_page _ _ _ _ _ _ _ _ _ _ _ _ hpa
        have hdt : dataRows trace₁ = dataRows trace ++ List.range' currentRow rowsDrawn := by
          rw [ht, dataRows_append, dataRows_append, hdata]
          cases isFirstPage <;> simp [dataRows, CanvasOp.dataIdx?]
        simp only
        by_cases h0 : rowsDrawn = 0
        · simp only [h0, ↓reduceDIte]
          intro _
          refine ⟨[0], rfl, ?_, by simp, ?_⟩
          · rw [hdt, h0]; simp
          · intro _ hz
            simp at hz
        · simp only [h0, ↓reduceDIte]
          intro hne
          obtain ⟨counts, hc1, hc2, hc3, hc4⟩ := ih (rows.length - (currentRow + rowsDrawn))
            (by omega) (currentRow + rowsDrawn) (if direct then false else isFirstPage) pdf₁
            trace₁ (pageCounts ++ [rowsDrawn]) (iterations + 1) rfl hne
          refine ⟨rowsDrawn :: counts, ?_, ?_, ?_, ?_⟩
          · rw [hc1]; simp
          · rw [hc2, hdt, List.append_assoc, List.sum_cons]
            congr 1
            have := List.range'_append currentRow rowsDrawn counts.sum 1
            simp only [Nat.one_mul] at this
            rw [this, Nat.add_comm]
          · simp only [List.sum_cons]; omega
          · intro hok hz
            simp only [List.mem_cons, not_or] at hz
            have := hc4 hok hz.2
            simp only [List.sum_cons]
            omega
    · simp only [hlt, ↓reduceDIte]
      intro _
      refine ⟨[], by simp, by simp, by simp, ?_⟩
      intro _ _
      simp only [List.sum_nil]
      omega

/-! ## Claims on pagination -/

/-- With a first row of height 20 and a second row of height 1000, taller than
any page, the first page draws one row, the second page draws none and the
loop ends: the counts are `[1, 0]` and row 1 is never drawn, although the list
has two rows. -/
theorem DrawTableOnPages_tall_row_counts :
    (examplePdf.DrawTableOnPages true exampleTable (twoCellHeap 20 1000) twoRows [] 0).pageCounts
      = [1, 0] ∧
    dataRows (examplePdf.DrawTableOnPages true exampleTable (twoCellHeap 20 1000) twoRows []
      0).trace = [0] ∧
    ([1, 0] : List Nat).sum ≠ twoRows.length := by
  refine ⟨?_, ?_, by decide⟩
  · rw [PDFCreator.DrawTableOnPages, tablePagesLoop]
    norm_num [twoRows, pageAttempt, drawPage, examplePdf, exampleTable, twoCellHeap,
      PDFTable.DrawRowsOnPage, drawRowsLoop, firstCellHeight, DrawRowCells]
    rw [tablePagesLoop]
    norm_num [pageAttempt, drawPage, PDFCreator.createNewPage, DrawTableHeader, drawHeaderLoop,
      GetHeaderHeight, PDFTable.DrawRowsOnPage, drawRowsLoop, firstCellHeight, DrawRowCells]
  · rw [PDFCreator.DrawTableOnPages, tablePagesLoop]
    norm_num [twoRows, pageAttempt, drawPage, examplePdf, exampleTable, twoCellHeap,
      PDFTable.DrawRowsOnPage, drawRowsLoop, firstCellHeight, DrawRowCells]
    rw [tablePagesLoop]
    norm_num [pageAttempt, drawPage, PDFCreator.createNewPage, DrawTableHeader, drawHeaderLoop,
      GetHeaderHeight, PDFTable.DrawRowsOnPage, drawRowsLoop, firstCellHeight, DrawRowCells,
      dataRows]
    rfl

/-- What holds of every run of `DrawTableOnPages` that returns: it has drawn,
as data rows, exactly the rows `0, …, k - 1` in order, each once (one
`DrawRowCells` call, hence on one page), where `k` is the sum of the counts
returned by `DrawRowsOnPage`; `k` never exceeds `rows.size()`, and falls short
of it only when a page drew zero rows or the run did not report success. -/
theorem DrawTableOnPages_rows_in_order (pdf : PDFCreator) (direct : Bool) (table : PDFTable)
    (heap : Heap) (rows : List TableRow) (cellPositions : List CellPosition) (startX : ℚ)
    (hreturns : (pdf.DrawTableOnPages direct table heap rows cellPositions startX).ret ≠ none) :
    dataRows (pdf.DrawTableOnPages direct table heap rows cellPositions startX).trace
      = List.range (pdf.DrawTableOnPages direct table heap rows cellPositions startX).pageCounts.sum ∧
    (pdf.DrawTableOnPages direct table heap rows cellPositions startX).pageCounts.sum
      ≤ rows.length ∧
    (((pdf.DrawTableOnPages direct table heap rows cellPositions startX).ret.map
        (fun d => d.ok)) = some true →
      0 ∉ (pdf.DrawTableOnPages direct table heap rows cellPositions startX).pageCounts →
      (pdf.DrawTableOnPages direct table heap rows cellPositions startX).pageCounts.sum
        = rows.length) := by
  unfold PDFCreator.DrawTableOnPages at hreturns ⊢
  obtain ⟨counts, h1, h2, h3, h4⟩ :=
    tablePagesLoop_dataRows direct table heap rows cellPositions startX
      { x := startX, y := table.mCurrentY } rfl rows.length 0 true pdf [] [] 0 rfl hreturns
  simp only [List.nil_append] at h1
  rw [h1] at *
  refine ⟨?_, by simpa using h3, ?_⟩
  · rw [h2, List.range_eq_range']
    simp [dataRows]
  · intro hok hz
    simpa using h4 hok hz

/-- Two rows of height 20 are drawn on the first page. -/
theorem DrawTableOnPages_rows_in_order_example :
    (examplePdf.DrawTableOnPages true exampleTable (twoCellHeap 20 20) twoRows [] 0).ret ≠ none ∧
    dataRows (examplePdf.DrawTableOnPages true exampleTable (twoCellHeap 20 20) twoRows [] 0).trace
      = List.range (examplePdf.DrawTableOnPages true exampleTable (twoCellHeap 20 20) twoRows []
          0).pageCounts.sum := by
  have hret : (examplePdf.DrawTableOnPages true exampleTable (twoCellHeap 20 20) twoRows []
      0).ret ≠ none := by
    rw [PDFCreator.DrawTableOnPages, tablePagesLoop]
    norm_num [twoRows, pageAttempt, drawPage, examplePdf, exampleTable, twoCellHeap,
      PDFTable.DrawRowsOnPage, drawRowsLoop, firstCellHeight, DrawRowCells]
    rw [tablePagesLoop]
    simp
  exact ⟨hret, (DrawTableOnPages_rows_in_order examplePdf true exampleTable (twoCellHeap 20 20)
    twoRows [] 0 hret).1⟩

/-- C4 (failing input): one row of height 20 and a table that starts at
y = 60 on the open page, bottom margin 50. The row does not fit below the
cursor (60 - 20 < 50), so `DrawRowsOnPage` returns 0 on the first page; the
loop leaves through `break` without starting a page, and the call reports
`ok = true` with the row never drawn: the counts are `[0]`, their sum 0 and
not `rows.size()` = 1. The same row is drawn when the table starts at y = 700
(counts `[1]`), and it would fit on a continuation page, whose rows start at
y = 682. -/
theorem DrawTableOnPages_fitting_row_not_drawn :
    (examplePdf.DrawTableOnPages true { exampleTable with mCurrentY := 60 } (twoCellHeap 20 20)
      oneRow [] 0).pageCounts = [0] ∧
    dataRows (examplePdf.DrawTableOnPages true { exampleTable with mCurrentY := 60 }
      (twoCellHeap 20 20) oneRow [] 0).trace = [] ∧
    newPages (examplePdf.DrawTableOnPages true { exampleTable with mCurrentY := 60 }
      (twoCellHeap 20 20) oneRow [] 0).trace = 0 ∧
    (examplePdf.DrawTableOnPages true { exampleTable with mCurrentY := 60 } (twoCellHeap 20 20)
      oneRow [] 0).ret.map (fun d => d.ok) = some true ∧
    ([0] : List Nat).sum ≠ oneRow.length ∧
    (examplePdf.DrawTableOnPages true exampleTable (twoCellHeap 20 20) oneRow [] 0).pageCounts
      = [1] ∧
    dataRows (examplePdf.DrawTableOnPages true exampleTable (twoCellHeap 20 20) oneRow []
      0).trace = [0] ∧
    (PDFTable.DrawRowsOnPage { exampleTable with mCurrentY := 60 } (twoCellHeap 20 20) oneRow []
      0 (examplePdf.pageHeight - examplePdf.pageStyle.margin - examplePdf.pageStyle.headerHeight
        - 50) 0).rowsDrawn = some 1 := by
  refine ⟨?_, ?_, ?_, ?_, by decide, ?_, ?_, ?_⟩
  · rw [PDFCreator.DrawTableOnPages, tablePagesLoop]
    norm_num [oneRow, pageAttempt, drawPage, examplePdf, exampleTable, twoCellHeap,
      PDFTable.DrawRowsOnPage, drawRowsLoop, firstCellHeight, DrawRowCells]
  · rw [PDFCreator.DrawTableOnPages, tablePagesLoop]
    norm_num [oneRow, pageAttempt, drawPage, examplePdf, exampleTable, twoCellHeap,
      PDFTable.DrawRowsOnPage, drawRowsLoop, firstCellHeight, DrawRowCells, dataRows]
  · rw [PDFCreator.DrawTableOnPages, tablePagesLoop]
    norm_num [oneRow, pageAttempt, drawPage, examplePdf, exampleTable, twoCellHeap,
      PDFTable.DrawRowsOnPage, drawRowsLoop, firstCellHeight, DrawRowCells, newPages]
  · rw [PDFCreator.DrawTableOnPages, tablePagesLoop]
    norm_num [oneRow, pageAttempt, drawPage, examplePdf, exampleTable, twoCellHeap,
      PDFTable.DrawRowsOnPage, drawRowsLoop, firstCellHeight, DrawRowCells]
  · rw [PDFCreator.DrawTableOnPages, tablePagesLoop]
    norm_num [oneRow, pageAttempt, drawPage, examplePdf, exampleTable, twoCellHeap,
      PDFTable.DrawRowsOnPage, drawRowsLoop, firstCellHeight, DrawRowCells]
    rw [tablePagesLoop]
    simp
  · rw [PDFCreator.DrawTableOnPages, tablePagesLoop]
    norm_num [oneRow, pageAttempt, drawPage, examplePdf, exampleTable, twoCellHeap,
      PDFTable.DrawRowsOnPage, drawRowsLoop, firstCellHeight, DrawRowCells]
    rw [tablePagesLoop]
    simp [dataRows, CanvasOp.dataIdx?]
  · norm_num [oneRow, examplePdf, exampleTable, twoCellHeap,
      PDFTable.DrawRowsOnPage, drawRowsLoop, firstCellHeight, DrawRowCells]

/-- C6 (failing input): a single row of height 1000 does not fit above the
margin (700 - 1000 < 50); the first page draws zero rows, the loop ends by
`break` and the call still reports `ok = true`, with the row never drawn. -/
theorem DrawTableOnPages_no_progress_reports_ok :
    (examplePdf.DrawTableOnPages true exampleTable (twoCellHeap 1000 20) oneRow [] 0).pageCounts
      = [0] ∧
    (examplePdf.DrawTableOnPages true exampleTable (twoCellHeap 1000 20) oneRow [] 0).ret.map
      (fun d => d.ok) = some true ∧
    dataRows (examplePdf.DrawTableOnPages true exampleTable (twoCellHeap 1000 20) oneRow []
      0).trace = [] := by
  refine ⟨?_, ?_, ?_⟩ <;>
  · rw [PDFCreator.DrawTableOnPages, tablePagesLoop]
    norm_num [oneRow, pageAttempt, drawPage, examplePdf, exampleTable, twoCellHeap,
      PDFTable.DrawRowsOnPage, drawRowsLoop, firstCellHeight, DrawRowCells, dataRows]

/-- C7: `DrawTableOnPages` is a total function of its inputs (its loop is
defined by recursion on `rows.size() - currentRow`), it enters the loop body at
most `rows.size()` times, starts at most `rows.size() - 1` pages, and every
page but the last one draws at least one row. -/
theorem DrawTableOnPages_terminates (pdf : PDFCreator) (direct : Bool) (table : PDFTable)
    (heap : Heap) (rows : List TableRow) (cellPositions : List CellPosition) (startX : ℚ) :
    (pdf.DrawTableOnPages direct table heap rows cellPositions startX).iterations ≤ rows.length ∧
    newPages (pdf.DrawTableOnPages direct table heap rows cellPositions startX).trace
      ≤ rows.length - 1 ∧
    ∀ c ∈ (pdf.DrawTableOnPages direct table heap rows cellPositions startX).pageCounts.dropLast,
      0 < c := by
  unfold PDFCreator.DrawTableOnPages
  obtain ⟨h1, h2, h3⟩ :=
    tablePagesLoop_bounds direct table heap rows cellPositions startX
      { x := startX, y := table.mCurrentY } rows.length 0 true pdf [] [] 0 rfl (by simp)
  refine ⟨by simpa using h1, ?_, h3⟩
  simpa [newPages] using h2

theorem pagesOf_ne_nil (t : List CanvasOp) : pagesOf t ≠ [] := by
  cases t with
  | nil => simp [pagesOf]
  | cons op rest =>
    unfold pagesOf
    cases op.isNewPage <;> cases pagesOf rest <;> simp

theorem pagesOf_of_newPages_zero (t : List CanvasOp) (h : newPages t = 0) : pagesOf t = [t] := by
  induction t with
  | nil => rfl
  | cons op rest ih =>
    have hop : op.isNewPage = false := by
      cases hb : op.isNewPage with
      | false => rfl
      | true => simp [newPages, List.countP_cons, hb] at h
    have hrest : newPages rest = 0 := by
      simpa [newPages, List.countP_cons, hop] using h
    unfold pagesOf
    rw [hop, ih hrest]

theorem pagesOf_cons_newPage (op : CanvasOp) (rest : List CanvasOp) (h : op.isNewPage = true) :
    pagesOf (op :: rest) = [] :: pagesOf rest := by
  rw [pagesOf, h]

theorem pagesOf_cons_other (op : CanvasOp) (rest p : List CanvasOp) (ps : List (List CanvasOp))
    (h : op.isNewPage = false) (hp : pagesOf rest = p :: ps) :
    pagesOf (op :: rest) = (op :: p) :: ps := by
  rw [pagesOf, h, hp]

theorem pagesOf_append_newPage (a b : List CanvasOp) :
    pagesOf (a ++ CanvasOp.newPage :: b) = pagesOf a ++ pagesOf b := by
  induction a with
  | nil =>
    rw [List.nil_append, pagesOf_cons_newPage CanvasOp.newPage b rfl]
    rfl
  | cons op rest ih =>
    rw [List.cons_append]
    cases hb : op.isNewPage with
    | true =>
      rw [pagesOf_cons_newPage _ _ hb, pagesOf_cons_newPage _ _ hb, ih]
      rfl
    | false =>
      cases hp : pagesOf rest with
      | nil => exact absurd hp (pagesOf_ne_nil rest)
      | cons p ps =>
        rw [pagesOf_cons_other _ _ p (ps ++ pagesOf b) hb (by rw [ih, hp]; rfl),
          pagesOf_cons_other _ _ p ps hb hp]
        rfl

/-- When the rows flagged as header are exactly the first `k` rows, the header
replay draws the rows `0, …, k - 1`. -/
theorem headerRowsFrom_of_leading (k : Nat) (l : List TableRow) :
    ∀ (start : Nat),
      (∀ i, i < l.length → ((l.getD i default).isHeader = true ↔ start + i < k)) →
      k ≤ start + l.length →
      headerRowsFrom l start = List.range' start (k - start) := by
  induction l with
  | nil =>
    intro start _ hk
    have : k - start = 0 := by simp at hk; omega
    rw [this]
    rfl
  | cons row rest ih =>
    intro start h hk
    have h0 := h 0 (by simp)
    simp only [List.getD_cons_zero, Nat.add_zero] at h0
    have hrest : ∀ i, i < rest.length →
        ((rest.getD i default).isHeader = true ↔ (start + 1) + i < k) := by
      intro i hi
      have := h (i + 1) (by simp; omega)
      simp only [List.getD_cons_succ] at this
      rw [this]
      omega
    have hk' : k ≤ (start + 1) + rest.length := by
      simp only [List.length_cons] at hk
      omega
    unfold headerRowsFrom
    by_cases hh : row.isHeader = true
    · rw [if_pos hh, ih (start + 1) hrest hk']
      have hlt := h0.mp hh
      have : k - start = (k - (start + 1)) + 1 := by omega
      rw [this, List.range'_succ]
    · rw [if_neg hh, ih (start + 1) hrest hk']
      have hge : ¬ start < k := fun hlt => hh (h0.mpr hlt)
      have h1 : k - (start + 1) = 0 := by omega
      have h2 : k - start = 0 := by omega
      rw [h1, h2]
      rfl

/-- Invariant of the loop of `DrawTableOnPages` on continuation pages: once
the rows `0, …, k - 1` (the header rows) are behind `currentRow`, every page
added to the trace replays them first. -/
theorem tablePagesLoop_continuation (direct : Bool) (table : PDFTable) (heap : Heap)
    (rows : List TableRow) (cellPositions : List CellPosition) (startX : ℚ) (ret : Dimension)
    (k : Nat) (hhead : headerRowsFrom rows 0 = List.range k) (n : Nat) :
    ∀ (currentRow : Nat) (pdf : PDFCreator) (trace : List CanvasOp)
    (pageCounts : List Nat) (iterations : Nat), rows.length - currentRow = n →
    k ≤ currentRow →
    (tablePagesLoop direct table heap rows cellPositions startX ret currentRow false pdf
      trace pageCounts iterations).ret ≠ none →
    ∃ added : List (List CanvasOp),
      pagesOf (tablePagesLoop direct table heap rows cellPositions startX ret currentRow false
        pdf trace pageCounts iterations).trace = pagesOf trace ++ added ∧
      ∀ page ∈ added, headersFirst k page := by
  induction n using Nat.strong_induction_on with
  | _ n ih =>
    intro currentRow pdf trace pageCounts iterations hn hk
    rw [tablePagesLoop]
    by_cases hlt : currentRow < rows.length
    · simp only [hlt, ↓reduceDIte]
      cases hpa : pageAttempt table heap rows cellPositions startX currentRow false pdf
          trace with
      | noContext pdf₁ trace₁ =>
        intro _
        have ht := pageAttempt_noContext _ _ _ _ _ _ _ _ _ _ _ hpa
        exact ⟨[], by simp [ht], by simp⟩
      | outOfRange pdf₁ trace₁ =>
        intro hne
        simp at hne
      | page rowsDrawn pdf₁ trace₁ =>
        obtain ⟨hle, body, ht, hnp, hdata, hrows⟩ := pageAttempt_page _ _ _ _ _ _ _ _ _ _ _ _ hpa
        simp only [Bool.false_eq_true, ↓reduceIte, List.append_assoc, List.singleton_append]
          at ht hrows
        have hpages : pagesOf trace₁ = pagesOf trace ++ [body] := by
          rw [ht, pagesOf_append_newPage, pagesOf_of_newPages_zero body hnp]
        have hbody : headersFirst k body := by
          refine ⟨List.range' currentRow rowsDrawn, by rw [hrows, hhead], ?_⟩
          intro i hi
          have := (List.mem_range'_1.mp hi).1
          omega
        simp only
        by_cases h0 : rowsDrawn = 0
        · simp only [h0, ↓reduceDIte]
          intro _
          refine ⟨[body], hpages, ?_⟩
          intro page hp
          simp only [List.mem_singleton] at hp
          rw [hp]
          exact hbody
        · simp only [h0, ↓reduceDIte, Bool.if_false_left, Bool.and_false, Bool.false_eq_true,
            ite_self]
          intro hne
          obtain ⟨added, ha1, ha2⟩ := ih (rows.length - (currentRow + rowsDrawn))
            (by omega) (currentRow + rowsDrawn) pdf₁
            trace₁ (pageCounts ++ [rowsDrawn]) (iterations + 1) rfl (by omega) hne
          refine ⟨body :: added, ?_, ?_⟩
          · rw [ha1, hpages]; simp
          · intro page hp
            rcases List.mem_cons.mp hp with hp | hp
            · rw [hp]; exact hbody
            · exact ha2 page hp
    · simp only [hlt, ↓reduceDIte]
      intro _
      exact ⟨[], by simp, by simp⟩

/-- C5 (counterexample): two header rows, the second with a page break before
it. The first page draws only header row 0; the second page replays header
rows 0 and 1 and then draws row 1 again as a data row. -/
theorem DrawTableOnPages_header_replay_counterexample :
    (pagesOf (examplePdf.DrawTableOnPages true exampleTable (twoCellHeap 20 20) twoHeaderRows []
      0).trace).map rowsDrawnIn = [[0], [0, 1, 1]] := by
  rw [PDFCreator.DrawTableOnPages, tablePagesLoop]
  norm_num [twoHeaderRows, pageAttempt, drawPage, examplePdf, exampleTable, twoCellHeap,
    PDFTable.DrawRowsOnPage, drawRowsLoop, firstCellHeight, DrawRowCells]
  rw [tablePagesLoop]
  norm_num [pageAttempt, drawPage, PDFCreator.createNewPage, DrawTableHeader, drawHeaderLoop,
    GetHeaderHeight, PDFTable.DrawRowsOnPage, drawRowsLoop, firstCellHeight, DrawRowCells]
  rw [tablePagesLoop]
  simp [pagesOf, CanvasOp.isNewPage, rowsDrawnIn, CanvasOp.rowIdx?]

/-- C5 (amended): when the rows flagged as header are exactly the first `k`
rows and the first page draws all of them, then on every page of a run of
`DrawTableOnPages` that draws directly on pages and returns, the rows drawn
are the header rows `0, …, k - 1` in their original order, each once, followed
only by non-header rows. -/
theorem DrawTableOnPages_header_replay (pdf : PDFCreator) (table : PDFTable)
    (heap : Heap) (rows : List TableRow) (cellPositions : List CellPosition) (startX : ℚ)
    (k : Nat) (hk : k ≤ rows.length)
    (hleading : ∀ i, i < rows.length → ((rows.getD i default).isHeader = true ↔ i < k))
    (hreturns : (pdf.DrawTableOnPages true table heap rows cellPositions startX).ret ≠ none)
    (hfirst : ∃ c, (pdf.DrawTableOnPages true table heap rows cellPositions startX).pageCounts.head?
      = some c ∧ k ≤ c) :
    ∀ page ∈ pagesOf (pdf.DrawTableOnPages true table heap rows cellPositions startX).trace,
      ∃ rest : List Nat, rowsDrawnIn page = List.range k ++ rest ∧ ∀ i ∈ rest, k ≤ i := by
  have hhead : headerRowsFrom rows 0 = List.range k := by
    rw [headerRowsFrom_of_leading k rows 0 (by simpa using hleading) (by omega),
      List.range_eq_range']
    rfl
  unfold PDFCreator.DrawTableOnPages at hreturns hfirst ⊢
  rw [tablePagesLoop] at hreturns hfirst ⊢
  by_cases hlt : 0 < rows.length
  · simp only [hlt, ↓reduceDIte] at hreturns hfirst ⊢
    cases hpa : pageAttempt table heap rows cellPositions startX 0 true pdf [] with
    | noContext pdf₁ trace₁ =>
      rw [hpa] at hfirst
      simp at hfirst
    | outOfRange pdf₁ trace₁ =>
      rw [hpa] at hreturns
      simp at hreturns
    | page rowsDrawn pdf₁ trace₁ =>
      rw [hpa] at hreturns hfirst
      simp only at hreturns hfirst ⊢
      obtain ⟨hle, body, ht, hnp, hdata, hrows⟩ := pageAttempt_page _ _ _ _ _ _ _ _ _ _ _ _ hpa
      simp only [↓reduceIte, List.append_nil, List.nil_append] at ht hrows
      have hpages : pagesOf trace₁ = [body] := by
        rw [ht, pagesOf_of_newPages_zero body hnp]
      by_cases h0 : rowsDrawn = 0
      · simp only [h0, ↓reduceDIte, List.nil_append, List.head?_cons, Option.some.injEq,
          exists_eq_left'] at hfirst ⊢
        have hk0 : k = 0 := by omega
        intro page hp
        rw [hpages, List.mem_singleton] at hp
        refine ⟨[], ?_, by simp⟩
        rw [hp, hrows, h0, hk0]
        rfl
      · simp only [h0, ↓reduceDIte, ↓reduceIte, List.nil_append] at hreturns hfirst ⊢
        obtain ⟨counts, hc1, _⟩ := tablePagesLoop_dataRows true table heap rows cellPositions
          startX { x := startX, y := table.mCurrentY } rfl (rows.length - (0 + rowsDrawn))
          (0 + rowsDrawn) false pdf₁ trace₁ [rowsDrawn] (0 + 1) rfl hreturns
        rw [hc1] at hfirst
        simp only [List.singleton_append, List.head?_cons, Option.some.injEq,
          exists_eq_left'] at hfirst
        obtain ⟨added, ha1, ha2⟩ := tablePagesLoop_continuation true table heap rows
          cellPositions startX { x := startX, y := table.mCurrentY } k hhead
          (rows.length - (0 + rowsDrawn)) (0 + rowsDrawn) pdf₁ trace₁ [rowsDrawn] (0 + 1) rfl
          (by omega) hreturns
        intro page hp
        rw [ha1, hpages] at hp
        rcases List.mem_append.mp hp with hp | hp
        · rw [List.mem_singleton] at hp
          refine ⟨List.range' k (rowsDrawn - k), ?_, ?_⟩
          · rw [hp, hrows, List.range_eq_range']
            have := List.range'_append 0 k (rowsDrawn - k) 1
            simp only [Nat.one_mul, Nat.zero_add] at this
            rw [this]
            congr 1
            omega
          · intro i hi
            exact (List.mem_range'_1.mp hi).1
        · exact ha2 page hp
  · simp only [hlt, ↓reduceDIte] at hfirst
    simp at hfirst

/-- C5 (witness): one header row and one data row, both of height 20, the
data row asking for a page break before it. The first page draws the header
row; the second page replays the header row and then draws the data row: the
rows drawn per page are `[0]` and `[0, 1]`. -/
theorem DrawTableOnPages_header_replay_witness :
    (pagesOf (examplePdf.DrawTableOnPages true exampleTable (twoCellHeap 20 20)
      [{ cells := [0], isHeader := true }, { cells := [1], pageBreakBefore := true }] []
      0).trace).map rowsDrawnIn = [[0], [0, 1]] ∧
    ∀ page ∈ pagesOf (examplePdf.DrawTableOnPages true exampleTable (twoCellHeap 20 20)
        [{ cells := [0], isHeader := true }, { cells := [1], pageBreakBefore := true }] []
        0).trace,
      ∃ rest : List Nat, rowsDrawnIn page = List.range 1 ++ rest ∧ ∀ i ∈ rest, 1 ≤ i := by
  have hrun : (examplePdf.DrawTableOnPages true exampleTable (twoCellHeap 20 20)
      [{ cells := [0], isHeader := true }, { cells := [1], pageBreakBefore := true }] []
      0).ret ≠ none ∧
      (examplePdf.DrawTableOnPages true exampleTable (twoCellHeap 20 20)
      [{ cells := [0], isHeader := true }, { cells := [1], pageBreakBefore := true }] []
      0).pageCounts = [1, 1] ∧
      (pagesOf (examplePdf.DrawTableOnPages true exampleTable (twoCellHeap 20 20)
      [{ cells := [0], isHeader := true }, { cells := [1], pageBreakBefore := true }] []
      0).trace).map rowsDrawnIn = [[0], [0, 1]] := by
    rw [PDFCreator.DrawTableOnPages, tablePagesLoop]
    norm_num [pageAttempt, drawPage, examplePdf, exampleTable, twoCellHeap,
      PDFTable.DrawRowsOnPage, drawRowsLoop, firstCellHeight, DrawRowCells]
    rw [tablePagesLoop]
    norm_num [pageAttempt, drawPage, PDFCreator.createNewPage, DrawTableHeader, drawHeaderLoop,
      GetHeaderHeight, PDFTable.DrawRowsOnPage, drawRowsLoop, firstCellHeight, DrawRowCells]
    rw [tablePagesLoop]
    simp [pagesOf, CanvasOp.isNewPage, rowsDrawnIn, CanvasOp.rowIdx?]
  refine ⟨hrun.2.2, ?_⟩
  refine DrawTableOnPages_header_replay examplePdf exampleTable (twoCellHeap 20 20)
    [{ cells := [0], isHeader := true }, { cells := [1], pageBreakBefore := true }] [] 0 1
    (by simp) ?_ hrun.1 ?_
  · intro i hi
    simp only [List.length_cons, List.length_nil] at hi
    have : i = 0 ∨ i = 1 := by omega
    rcases this with h | h <;> subst h <;> simp
  · rw [hrun.2.1]
    exact ⟨1, rfl, le_refl 1⟩

/-! ## Claims on the text wrapper -/

/-- Every line flushed inside the loop of `wrapText` adds one line height and
one line space to the total height. -/
theorem wrapLoop_totalHeight (w : AdvancedTextWrapper) (options : WrappingOptions)
    (words : List Str) (currentLine : Str) (currentLineWidth : ℚ) (result : WrappedTextResult) :
    ∀ st, wrapLoop w options words currentLine currentLineWidth result = some st →
      result.lines.length ≤ st.2.2.lines.length ∧
      st.2.2.totalHeight = result.totalHeight +
        ((st.2.2.lines.length : ℚ) - result.lines.length) * (w.mLineHeight + w.mLineSpace) ∧
      st.2.2.lineHeight = result.lineHeight ∧ st.2.2.lineSpace = result.lineSpace := by
  induction words, currentLine, currentLineWidth, result using wrapLoop.induct w options with
  | case1 currentLine currentLineWidth result =>
    intro st h
    simp only [wrapLoop, Option.some.injEq] at h
    subst h
    simp
  | case2 word rest currentLine currentLineWidth result hfit hne ih =>
    intro st h
    rw [wrapLoop, if_pos hfit, if_pos hne] at h
    exact ih st h
  | case3 word rest currentLine currentLineWidth result hfit hne ih =>
    intro st h
    rw [wrapLoop, if_pos hfit, if_neg hne] at h
    exact ih st h
  | case4 word rest currentLine currentLineWidth result hfit hempty hhyp hnone =>
    intro st h
    rw [wrapLoop, if_neg hfit, if_pos hempty, if_pos hhyp] at h
    split at h
    · cases h
    · rename_i bw hbw
      rw [hnone] at hbw
      cases hbw
  | case5 word rest currentLine currentLineWidth result hfit hempty hhyp brokenWord hsome ih =>
    intro st h
    rw [wrapLoop, if_neg hfit, if_pos hempty, if_pos hhyp] at h
    split at h
    · cases h
    · rename_i bw hbw
      rw [hsome] at hbw
      cases hbw
      obtain ⟨h1, h2, h3, h4⟩ := ih st h
      simp only [WrappedTextResult.pushLine, List.length_append, List.length_singleton]
        at h1 h2 h3 h4
      refine ⟨by omega, ?_, h3, h4⟩
      rw [h2]; push_cast; ring
  | case6 word rest currentLine currentLineWidth result hfit hempty hhyp ih =>
    intro st h
    rw [wrapLoop, if_neg hfit, if_pos hempty, if_neg hhyp] at h
    obtain ⟨h1, h2, h3, h4⟩ := ih st h
    simp only [WrappedTextResult.pushLine, List.length_append, List.length_singleton]
      at h1 h2 h3 h4
    refine ⟨by omega, ?_, h3, h4⟩
    rw [h2]; push_cast; ring
  | case7 word rest currentLine currentLineWidth result hfit hempty ih =>
    intro st h
    rw [wrapLoop, if_neg hfit, if_neg hempty] at h
    obtain ⟨h1, h2, h3, h4⟩ := ih st h
    simp only [WrappedTextResult.pushLine, List.length_append, List.length_singleton]
      at h1 h2 h3 h4
    refine ⟨by omega, ?_, h3, h4⟩
    rw [h2]; push_cast; ring

/-- C1 (failing input): the text "a b" wrapped with hyphenation into a width
of 1, narrower than one character (5). `breakWord` splits the one-character
word "a" into "a" and an empty remainder, so `wrapText` emits "a-" for a word
that was not broken, and likewise "b-". Re-joined as the specification says,
the lines give "ab", while the normalised source is "a b". -/
theorem wrapText_roundtrip_fails :
    '-' ∉ "a b".toList ∧
    (exampleWrapper.wrapText "a b".toList { maxWidth := 1, hyphenate := true }).map
      (fun r => r.lines) = some ["a-".toList, "b-".toList] ∧
    specRejoin ["a-".toList, "b-".toList] = "ab".toList ∧
    specNormalize "a b".toList = "a b".toList := by
  refine ⟨by decide, ?_, by decide, by decide⟩
  simp [AdvancedTextWrapper.wrapText, wrapLoop, splitWords, splitWordsAux, isSpace,
    exampleWrapper, exampleFont, AdvancedTextWrapper.mk', AdvancedTextWrapper.breakWord,
    breakWordSearch, substrFrom, substrTo, WrappedTextResult.pushLine,
    AdvancedTextWrapper.emptyResult, AdvancedTextWrapper.textWidth,
    AdvancedTextWrapper.spaceWidth]

/-- Branch of the loop of `wrapText` that hyphenates a word too wide for an
empty line. -/
theorem wrapLoop_hyphen (w : AdvancedTextWrapper) (options : WrappingOptions) (word : Str)
    (rest : List Str) (currentLineWidth : ℚ) (result : WrappedTextResult) (brokenWord : Str × Str)
    (hfit : ¬ currentLineWidth + w.spaceWidth [] + w.textWidth word ≤ options.maxWidth)
    (hhyp : options.hyphenate = true)
    (hbw : w.breakWord word options.maxWidth = some brokenWord) :
    wrapLoop w options (word :: rest) [] currentLineWidth result
      = wrapLoop w options (brokenWord.2 :: rest) [] 0
          (result.pushLine w (brokenWord.1 ++ ['-']) (w.textWidth (brokenWord.1 ++ ['-']))) := by
  rw [wrapLoop, if_neg hfit, if_pos (by rfl : ([] : Str).isEmpty = true), if_pos hhyp]
  split
  · rename_i h
    rw [hbw] at h
    cases h
  · rename_i bw h
    rw [hbw] at h
    cases h
    rfl

/-- Branch of the loop of `wrapText` in which `breakWord` throws. -/
theorem wrapLoop_throw (w : AdvancedTextWrapper) (options : WrappingOptions) (word : Str)
    (rest : List Str) (currentLineWidth : ℚ) (result : WrappedTextResult)
    (hfit : ¬ currentLineWidth + w.spaceWidth [] + w.textWidth word ≤ options.maxWidth)
    (hhyp : options.hyphenate = true)
    (hbw : w.breakWord word options.maxWidth = none) :
    wrapLoop w options (word :: rest) [] currentLineWidth result = none := by
  rw [wrapLoop, if_neg hfit, if_pos (by rfl : ([] : Str).isEmpty = true), if_pos hhyp]
  split
  · rfl
  · rename_i bw h
    rw [hbw] at h
    cases h

/-- C9 (failing input): the single word "ab" (width 10) wrapped with
hyphenation into the negative width -1. The word is split into "a-" and "b",
"b" into "b-" and the empty word, and the empty word (width 0 > -1) is handed
to `breakWord`, whose `word.substr(1)` throws: `wrapText` returns nothing. -/
theorem wrapText_single_word_throws :
    exampleWrapper.textWidth "ab".toList > -1 ∧
    exampleWrapper.wrapText "ab".toList { maxWidth := -1, hyphenate := true } = none := by
  have hw : ∀ word : Str, exampleWrapper.textWidth word = 5 * word.length := by
    intro word
    simp [AdvancedTextWrapper.textWidth, exampleWrapper, exampleFont, AdvancedTextWrapper.mk']
  have hnofit : ∀ word : Str,
      ¬ (0 : ℚ) + exampleWrapper.spaceWidth [] + exampleWrapper.textWidth word ≤ -1 := by
    intro word
    rw [hw]
    simp only [AdvancedTextWrapper.spaceWidth, List.isEmpty_nil, ↓reduceIte, not_le]
    have : (0 : ℚ) ≤ 5 * (word.length : ℚ) := by positivity
    linarith
  have hb1 : exampleWrapper.breakWord "ab".toList (-1) = some ("a".toList, "b".toList) := by
    norm_num [AdvancedTextWrapper.breakWord, breakWordSearch, substrFrom, substrTo, hw]
  have hb2 : exampleWrapper.breakWord "b".toList (-1) = some ("b".toList, []) := by
    norm_num [AdvancedTextWrapper.breakWord, breakWordSearch, substrFrom, substrTo]
  have hb3 : exampleWrapper.breakWord [] (-1) = none := by
    norm_num [AdvancedTextWrapper.breakWord, breakWordSearch, substrFrom]
  constructor
  · rw [hw]
    norm_num
  · have hsplit : splitWords "ab".toList = ["ab".toList] := by decide
    unfold AdvancedTextWrapper.wrapText
    rw [hsplit, wrapLoop_hyphen _ _ _ _ _ _ _ (hnofit _) rfl hb1,
      wrapLoop_hyphen _ _ _ _ _ _ _ (hnofit _) rfl hb2,
      wrapLoop_throw _ _ _ _ _ _ (hnofit _) rfl hb3]

/-- The empty text gives no line and total height 0 (the formula of the block
height, read with n = 0, would give minus one line space). -/
theorem wrapText_totalHeight_empty :
    ∃ r, exampleWrapper.wrapText [] { maxWidth := 100 } = some r ∧
      r.lines.length = 0 ∧ r.totalHeight = 0 ∧
      r.totalHeight ≠
        (r.lines.length : ℚ) * r.lineHeight + ((r.lines.length : ℚ) - 1) * r.lineSpace := by
  refine ⟨exampleWrapper.emptyResult, ?_, rfl, rfl, ?_⟩
  · simp [AdvancedTextWrapper.wrapText, wrapLoop, splitWords, splitWordsAux]
  · norm_num [AdvancedTextWrapper.emptyResult, exampleWrapper, AdvancedTextWrapper.mk']

/-- The total height that `wrapText` returns, by the way its loop ends. When
the loop ends with a non-empty current line (the last word was placed on a
line, which the final step flushes with one line height) the total height is
n × lineHeight + (n − 1) × lineSpace for the n returned lines. When it ends
with an empty current line (the last line was emitted inside the loop, by the
branch of a word too wide for an empty line) every line has added one line
height and one line space: the total height is n × (lineHeight + lineSpace),
one line space more than the formula for n ≥ 1. -/
theorem wrapText_totalHeight_cases (w : AdvancedTextWrapper) (text : Str)
    (options : WrappingOptions) (st : Str × ℚ × WrappedTextResult)
    (hloop : wrapLoop w options (splitWords text) [] 0 w.emptyResult = some st) :
    ∃ r, w.wrapText text options = some r ∧
      (r.lines = [] → r.totalHeight = 0) ∧
      (st.1 ≠ [] →
        r.totalHeight =
          (r.lines.length : ℚ) * r.lineHeight + ((r.lines.length : ℚ) - 1) * r.lineSpace) ∧
      (st.1 = [] →
        r.totalHeight = (r.lines.length : ℚ) * (r.lineHeight + r.lineSpace)) := by
  obtain ⟨h1, h2, h3, h4⟩ := wrapLoop_totalHeight w options _ _ _ _ st hloop
  obtain ⟨currentLine, currentLineWidth, result⟩ := st
  simp only [AdvancedTextWrapper.emptyResult, List.length_nil, Nat.cast_zero, sub_zero,
    zero_add] at h1 h2 h3 h4
  unfold AdvancedTextWrapper.wrapText
  rw [hloop]
  by_cases hcl : currentLine = []
  · subst hcl
    refine ⟨result, by simp, ?_, by simp, ?_⟩
    · intro hl
      rw [h2, hl]
      simp
    · intro _
      rw [h2, h3, h4]
  · refine ⟨{ result with
        lines := result.lines ++ [currentLine]
        lineWidths := result.lineWidths ++ [currentLineWidth]
        totalHeight := result.totalHeight + w.mLineHeight }, by simp [hcl], ?_, ?_, ?_⟩
    · intro hl
      simp at hl
    · intro _
      simp only [h2, h3, h4, List.length_append, List.length_singleton]
      push_cast
      ring
    · intro he
      exact absurd he hcl

/-- C10 (failing input): line height 10, line space 10, every glyph 5 wide,
no hyphenation, maxWidth 10. The text "abc" (15 wide) does not fit the empty
line and is emitted by the overflow branch, which adds lineHeight + lineSpace:
one line, total height 20, where the formula gives 1 × 10 + 0 × 10 = 10. The
text "abc defg" gives two lines, both emitted by that branch, and total height
40, where the formula gives 2 × 10 + 1 × 10 = 30. The final flush of a pending
line adds lineHeight only: "ab" (one line) gives 10 and "abc de" (two lines)
gives 30, as the formula says. -/
theorem wrapText_totalHeight_trailing_space :
    (exampleWrapper.wrapText "abc".toList { maxWidth := 10, hyphenate := false }).map
        (fun r => (r.lines, r.totalHeight, r.lineHeight, r.lineSpace))
      = some (["abc".toList], 20, 10, 10) ∧
    (20 : ℚ) ≠ 1 * 10 + (1 - 1) * 10 ∧
    (exampleWrapper.wrapText "abc defg".toList { maxWidth := 10, hyphenate := false }).map
        (fun r => (r.lines, r.totalHeight, r.lineHeight, r.lineSpace))
      = some (["abc".toList, "defg".toList], 40, 10, 10) ∧
    (40 : ℚ) ≠ 2 * 10 + (2 - 1) * 10 ∧
    (exampleWrapper.wrapText "ab".toList { maxWidth := 10, hyphenate := false }).map
        (fun r => (r.lines, r.totalHeight, r.lineHeight, r.lineSpace))
      = some (["ab".toList], 10, 10, 10) ∧
    (exampleWrapper.wrapText "abc de".toList { maxWidth := 10, hyphenate := false }).map
        (fun r => (r.lines, r.totalHeight, r.lineHeight, r.lineSpace))
      = some (["abc".toList, "de".toList], 30, 10, 10) := by
  refine ⟨?_, by norm_num, ?_, by norm_num, ?_, ?_⟩
  all_goals
    simp [AdvancedTextWrapper.wrapText, wrapLoop, splitWords, splitWordsAux, isSpace,
      exampleWrapper, exampleFont, AdvancedTextWrapper.mk', WrappedTextResult.pushLine,
      AdvancedTextWrapper.emptyResult, AdvancedTextWrapper.textWidth,
      AdvancedTextWrapper.spaceWidth]
    norm_num
    try simp

/-! ## Claims on the column widths -/

/-- The grid and the store that `BuildCellGrid` produces for the worked
example. -/
theorem BuildCellGrid_example :
    BuildCellGrid exampleRows exampleHeap = (exampleGrid, ⟨exampleCellsBuilt, 6⟩) := by
  simp [BuildCellGrid, exampleRows, exampleHeap, maxColsOf, exampleCells, placeCells,
    skipClaimed, claimSpan, claimSlot, anchorCell, spannedCell, Grid.get, Grid.set, Heap.modify,
    Heap.alloc, List.range, List.range.loop, Function.update, exampleGrid]
  funext p
  match p with
  | 0 => simp [exampleCellsBuilt, exampleCells]
  | 1 => simp [exampleCellsBuilt, exampleCells]
  | 2 => simp [exampleCellsBuilt, exampleCells]
  | 3 => simp [exampleCellsBuilt, exampleCells]
  | 4 => simp [exampleCellsBuilt, exampleCells]
  | 5 => simp [exampleCellsBuilt, exampleCells]
  | n + 6 => simp [exampleCellsBuilt, exampleCells]

/-- Column widths solved for the worked example. -/
theorem solveColumnWidths_example :
    solveColumnWidths ⟨exampleCellsBuilt, 6⟩ exampleGrid 300 = some [125, 50, 125] := by
  simp only [solveColumnWidths, explicitWidths, List.range, List.range.loop, List.foldlM,
    List.getD_cons_zero, List.length, exampleGrid]
  simp [explicitWidthsRow, Grid.get, List.range, List.range.loop, distributeFlexible,
    sumWidthsOf, fixWidthCountOf, exampleCellsBuilt]
  norm_num

/-- A cell without content measures twice the padding. -/
theorem measureCell_empty (style : TableStyle) (colWidths : List ℚ) (numCols col : Nat)
    (cell : TableCell) (h : cell.content = []) :
    measureCell style colWidths numCols col cell = some (style.cellPadding * 2) := by
  simp [measureCell, h, AdvancedTextWrapper.wrapText, splitWords, splitWordsAux, wrapLoop,
    AdvancedTextWrapper.emptyResult]

/-! ## Generic facts on loops over `0 … n-1` -/

/-- Invariant rule for a loop over the indices `0, …, n - 1` whose body may
fail: if the invariant at index `j` is carried to `j + 1` by every body that
returns, it holds at `n` when the loop returns. -/
theorem foldlM_range_invariant {β : Type} (f : β → Nat → Option β) (P : Nat → β → Prop)
    (n : Nat) (hstep : ∀ j b b', j < n → f b j = some b' → P j b → P (j + 1) b') :
    ∀ b b', (List.range n).foldlM f b = some b' → P 0 b → P n b' := by
  induction n with
  | zero =>
    intro b b' h h0
    simp only [List.range_zero, List.foldlM_nil, Option.pure_def, Option.some.injEq] at h
    rw [← h]
    exact h0
  | succ n ih =>
    intro b b' h h0
    rw [List.range_succ, List.foldlM_append] at h
    cases hm : (List.range n).foldlM f b with
    | none => simp [hm] at h
    | some mid =>
      rw [hm] at h
      simp only [Option.bind_eq_bind, Option.some_bind, List.foldlM_cons, List.foldlM_nil,
        Option.pure_def, Option.bind_some] at h
      have hmid := ih (fun j b b' hj => hstep j b b' (by omega)) b mid hm h0
      exact hstep n mid b' (by omega) h hmid

/-- Totality rule for a loop over the indices `0, …, n - 1`: if the body
returns whenever the invariant holds, so does the loop. -/
theorem foldlM_range_total {β : Type} (f : β → Nat → Option β) (P : Nat → β → Prop)
    (n : Nat) (hstep : ∀ j b, j < n → P j b → ∃ b', f b j = some b' ∧ P (j + 1) b') :
    ∀ b, P 0 b → ∃ b', (List.range n).foldlM f b = some b' ∧ P n b' := by
  induction n with
  | zero =>
    intro b h0
    exact ⟨b, by simp, h0⟩
  | succ n ih =>
    intro b h0
    obtain ⟨mid, hm, hmid⟩ := ih (fun j b hj => hstep j b (by omega)) b h0
    obtain ⟨b', hb', hP⟩ := hstep n mid (by omega) hmid
    refine ⟨b', ?_, hP⟩
    rw [List.range_succ, List.foldlM_append, hm]
    simp [hb']

/-- Invariant rule for a loop over the indices `0, …, n - 1` that cannot fail. -/
theorem foldl_range_invariant {β : Type} (f : β → Nat → β) (P : Nat → β → Prop)
    (n : Nat) (hstep : ∀ j b, j < n → P j b → P (j + 1) (f b j)) :
    ∀ b, P 0 b → P n ((List.range n).foldl f b) := by
  induction n with
  | zero =>
    intro b h0
    simpa using h0
  | succ n ih =>
    intro b h0
    rw [List.range_succ, List.foldl_append]
    simp only [List.foldl_cons, List.foldl_nil]
    exact hstep n _ (by omega) (ih (fun j b hj => hstep j b (by omega)) b h0)

/-! ## What the passes of `CalculateCellPositions` leave unchanged -/

theorem Heap.modify_cell_same (heap : Heap) (p : Ptr) (f : TableCell → TableCell) :
    (heap.modify p f).cell p = f (heap.cell p) := by
  simp [Heap.modify]

theorem Heap.modify_cell_other (heap : Heap) (p q : Ptr) (f : TableCell → TableCell)
    (h : q ≠ p) : (heap.modify p f).cell q = heap.cell q := by
  simp [Heap.modify, Function.update_noteq h]

theorem Heap.sameButHeights_modify (h0 heap : Heap) (p : Ptr) (x : ℚ)
    (h : h0.sameButHeights heap) :
    h0.sameButHeights (heap.modify p (fun c => { c with height := x })) := by
  intro q
  by_cases hq : q = p
  · subst hq
    rw [Heap.modify_cell_same, ← h q]
    rfl
  · rw [Heap.modify_cell_other _ _ _ _ hq]
    exact h q

theorem Heap.sameButWidths_modify (h0 heap : Heap) (p : Ptr) (x : ℚ)
    (h : h0.sameButWidths heap) :
    h0.sameButWidths (heap.modify p (fun c => { c with width := x })) := by
  intro q
  by_cases hq : q = p
  · subst hq
    rw [Heap.modify_cell_same, ← h q]
    rfl
  · rw [Heap.modify_cell_other _ _ _ _ hq]
    exact h q

/-- The measured height of a cell does not depend on its `height` field. -/
theorem measureCell_withHeight (style : TableStyle) (colWidths : List ℚ) (numCols col : Nat)
    (cell : TableCell) (x : ℚ) :
    measureCell style colWidths numCols col (cell.withHeight x)
      = measureCell style colWidths numCols col cell := rfl

theorem measureCell_congr (style : TableStyle) (colWidths : List ℚ) (numCols col : Nat)
    (a b : TableCell) (h : a.withHeight 0 = b.withHeight 0) :
    measureCell style colWidths numCols col a = measureCell style colWidths numCols col b := by
  rw [← measureCell_withHeight style colWidths numCols col a 0, h, measureCell_withHeight]

theorem propagateRowHeight_same (grid : Grid) (row numCols : Nat) (maxRowHeight : ℚ)
    (h0 heap : Heap) (h : h0.sameButHeights heap) :
    h0.sameButHeights (propagateRowHeight grid row numCols maxRowHeight heap) := by
  unfold propagateRowHeight
  refine foldl_range_invariant _ (fun _ hp => h0.sameButHeights hp) numCols ?_ heap h
  intro j b _ hb
  cases grid.get row j with
  | none => exact hb
  | some p => exact Heap.sameButHeights_modify h0 b p maxRowHeight hb

theorem raiseHeight_same (h0 heap : Heap) (p : Ptr) (totalHeight : ℚ)
    (h : h0.sameButHeights heap) : h0.sameButHeights (raiseHeight heap p totalHeight) := by
  unfold raiseHeight
  split
  · exact Heap.sameButHeights_modify h0 heap p totalHeight h
  · exact h

theorem raiseRowHeight_same (grid : Grid) (row numCols : Nat) (p : Ptr) (h0 : Heap)
    (st : ℚ × Heap) (h : h0.sameButHeights st.2) :
    h0.sameButHeights (raiseRowHeight grid row numCols p st).2 := by
  unfold raiseRowHeight
  split
  · exact propagateRowHeight_same grid row numCols _ h0 _ h
  · exact h

theorem rowHeightStep_same (style : TableStyle) (grid : Grid) (colWidths : List ℚ)
    (numCols row : Nat) (h0 : Heap) (st st' : ℚ × Heap) (col : Nat)
    (hstep : rowHeightStep style grid colWidths numCols row st col = some st')
    (h : h0.sameButHeights st.2) : h0.sameButHeights st'.2 := by
  unfold rowHeightStep at hstep
  cases hg : grid.get row col with
  | none =>
    rw [hg] at hstep
    simp only [Option.some.injEq] at hstep
    rw [← hstep]
    exact h
  | some p =>
    rw [hg] at hstep
    simp only at hstep
    cases hm : measureCell style colWidths numCols col (st.2.cell p) with
    | none => rw [hm] at hstep; cases hstep
    | some totalHeight =>
      rw [hm] at hstep
      simp only [Option.some.injEq] at hstep
      rw [← hstep]
      exact raiseRowHeight_same grid row numCols p h0 _ (raiseHeight_same h0 st.2 p totalHeight h)

theorem rowHeightsRow_same (style : TableStyle) (grid : Grid) (colWidths : List ℚ)
    (numCols : Nat) (h0 heap heap' : Heap) (row : Nat)
    (hrow : rowHeightsRow style grid colWidths numCols heap row = some heap')
    (h : h0.sameButHeights heap) : h0.sameButHeights heap' := by
  unfold rowHeightsRow at hrow
  cases hf : (List.range numCols).foldlM (rowHeightStep style grid colWidths numCols row)
      ((0 : ℚ), heap) with
  | none => rw [hf] at hrow; cases hrow
  | some st =>
    rw [hf] at hrow
    simp only [Option.map_some', Option.some.injEq] at hrow
    rw [← hrow]
    exact foldlM_range_invariant _ (fun _ s => h0.sameButHeights s.2) numCols
      (fun j b b' _ hb hP => rowHeightStep_same style grid colWidths numCols row h0 b b' j hb hP)
      _ _ hf h

/-- The row height pass changes nothing but cell heights. -/
theorem resolveRowHeights_same (style : TableStyle) (grid : Grid) (colWidths : List ℚ)
    (numRows numCols : Nat) (heap heap' : Heap)
    (hres : resolveRowHeights style grid colWidths numRows numCols heap = some heap') :
    heap.sameButHeights heap' := by
  unfold resolveRowHeights at hres
  exact foldlM_range_invariant _ (fun _ s => heap.sameButHeights s) numRows
    (fun j b b' _ hb hP => rowHeightsRow_same style grid colWidths numCols heap b b' j hb hP)
    _ _ hres (fun _ => rfl)

/-- The width write-back changes nothing but cell widths. -/
theorem writeBackWidths_same (grid : Grid) (numRows numCols : Nat) (colWidths : List ℚ)
    (heap : Heap) : heap.sameButWidths (writeBackWidths grid numRows numCols colWidths heap) := by
  unfold writeBackWidths
  refine foldl_range_invariant _ (fun _ hp => heap.sameButWidths hp) numRows ?_ heap
    (fun _ => rfl)
  intro row b _ hb
  refine foldl_range_invariant _ (fun _ hp => heap.sameButWidths hp) numCols ?_ b hb
  intro col b' _ hb'
  cases grid.get row col with
  | none => exact hb'
  | some p => exact Heap.sameButWidths_modify heap b' p _ hb'

/-- The row height pass returns when every cell of the grid can be measured. -/
theorem resolveRowHeights_total (style : TableStyle) (grid : Grid) (colWidths : List ℚ)
    (numRows numCols : Nat) (heap : Heap)
    (hmeasure : ∀ r c p, grid.get r c = some p →
      ∃ t, measureCell style colWidths numCols c (heap.cell p) = some t) :
    ∃ heap', resolveRowHeights style grid colWidths numRows numCols heap = some heap' := by
  unfold resolveRowHeights
  obtain ⟨heap', h, _⟩ := foldlM_range_total
    (rowHeightsRow style grid colWidths numCols) (fun _ s => heap.sameButHeights s) numRows
    (by
      intro row b _ hb
      unfold rowHeightsRow
      obtain ⟨st, hst, hP⟩ := foldlM_range_total
        (rowHeightStep style grid colWidths numCols row)
        (fun _ s => heap.sameButHeights s.2) numCols
        (by
          intro col st _ hs
          unfold rowHeightStep
          cases hg : grid.get row col with
          | none => exact ⟨st, rfl, hs⟩
          | some p =>
            obtain ⟨t, ht⟩ := hmeasure row col p hg
            rw [← measureCell_congr style colWidths numCols col _ _ (hs p)] at ht
            simp only [ht]
            exact ⟨_, rfl, raiseRowHeight_same grid row numCols p heap _
              (raiseHeight_same heap st.2 p t hs)⟩)
        ((0 : ℚ), b) hb
      exact ⟨st.2, by rw [hst]; rfl, hP⟩)
    heap (fun _ => rfl)
  exact ⟨heap', h⟩

/-- C8 (failing input, the worked example itself): the explicit width 100 of
the first column equals the flexible value 300 / 3, so the redistribution
takes that column for a flexible one and shares the missing 50 between columns
0 and 2. The solved widths are [125, 50, 125], not [100, 50, 150], and the
position of the spanning cell of row 2 (row index 1, column 0) is 175 wide,
not 150. -/
theorem worked_example_widths :
    BuildCellGrid exampleRows exampleHeap = (exampleGrid, ⟨exampleCellsBuilt, 6⟩) ∧
    solveColumnWidths ⟨exampleCellsBuilt, 6⟩ exampleGrid 300 = some [125, 50, 125] ∧
    ∃ positions heap,
      CalculateCellPositions exampleStyle exampleGrid 300 ⟨exampleCellsBuilt, 6⟩
        = some (positions, heap) ∧
      positions.map (fun pos => (pos.row, pos.col, pos.width))
        = [(0, 0, 125), (0, 1, 50), (0, 2, 125), (1, 0, 175), (1, 1, 50), (1, 2, 125)] := by
  refine ⟨BuildCellGrid_example, solveColumnWidths_example, ?_⟩
  have hcontent : ∀ p, (exampleCellsBuilt p).content = [] := by
    intro p
    unfold exampleCellsBuilt
    split <;> rfl
  have hw := writeBackWidths_same exampleGrid 2 3 [125, 50, 125] ⟨exampleCellsBuilt, 6⟩
  obtain ⟨heap, hheap⟩ := resolveRowHeights_total exampleStyle exampleGrid [125, 50, 125] 2 3
    (writeBackWidths exampleGrid 2 3 [125, 50, 125] ⟨exampleCellsBuilt, 6⟩)
    (by
      intro r c p _
      refine ⟨_, measureCell_empty exampleStyle _ _ _ _ ?_⟩
      have := congrArg TableCell.content (hw p)
      simp only [TableCell.withWidth] at this
      rw [this]
      exact hcontent p)
  have hh := resolveRowHeights_same _ _ _ _ _ _ _ hheap
  have hspan : ∀ p, (heap.cell p).colspan = (exampleCellsBuilt p).colspan := by
    intro p
    have h1 := congrArg TableCell.colspan (hh p)
    have h2 := congrArg TableCell.colspan (hw p)
    simp only [TableCell.withHeight, TableCell.withWidth] at h1 h2
    rw [h1, h2]
  refine ⟨buildPositions exampleStyle exampleGrid [125, 50, 125] 2 3 heap, heap, ?_, ?_⟩
  · unfold CalculateCellPositions
    simp only [solveColumnWidths_example]
    simp only [exampleGrid, List.isEmpty, List.getD_cons_zero, List.length] at hheap ⊢
    simp only [Nat.zero_add, Nat.reduceAdd, Bool.false_eq_true, ↓reduceIte] at hheap ⊢
    rw [hheap]
  · simp [buildPositions, spanWidth, Grid.get, exampleGrid, hspan, exampleCellsBuilt,
      List.range, List.range.loop, List.range']
    norm_num

theorem foldl_add_eq_sum (l : List ℚ) : ∀ acc : ℚ,
    l.foldl (fun s item => s + item) acc = acc + l.sum := by
  induction l with
  | nil => intro acc; simp
  | cons x xs ih =>
    intro acc
    rw [List.foldl_cons, ih, List.sum_cons]
    ring

theorem sumWidthsOf_eq_sum (l : List ℚ) : sumWidthsOf l = l.sum := by
  rw [sumWidthsOf, foldl_add_eq_sum, zero_add]

theorem foldl_count_eq (fixWidth : ℚ) (l : List ℚ) : ∀ acc : ℚ,
    l.foldl (fun n item => if item = fixWidth then n + 1 else n) acc
      = acc + (l.count fixWidth : ℚ) := by
  induction l with
  | nil => intro acc; simp
  | cons x xs ih =>
    intro acc
    rw [List.foldl_cons, ih, List.count_cons]
    by_cases hx : x = fixWidth
    · simp [hx]; ring
    · have : ¬ (x == fixWidth) = true := by simpa using hx
      simp [hx]

theorem fixWidthCountOf_eq_count (fixWidth : ℚ) (l : List ℚ) :
    fixWidthCountOf fixWidth l = (l.count fixWidth : ℚ) := by
  rw [fixWidthCountOf, foldl_count_eq, zero_add]

theorem sum_map_add_diff (fixWidth diff : ℚ) (l : List ℚ) :
    (l.map (fun item => if item = fixWidth then item + diff else item)).sum
      = l.sum + (l.count fixWidth : ℚ) * diff := by
  induction l with
  | nil => simp
  | cons x xs ih =>
    rw [List.map_cons, List.sum_cons, ih, List.sum_cons, List.count_cons]
    by_cases hx : x = fixWidth
    · simp [hx]; ring
    · simp [hx]; ring

/-- The redistribution makes the widths sum to `tableWidth` as soon as one
column holds the flexible value. -/
theorem distributeFlexible_sum (tableWidth fixWidth : ℚ) (colWidths : List ℚ)
    (h : fixWidthCountOf fixWidth colWidths ≠ 0) :
    sumWidthsOf (distributeFlexible tableWidth fixWidth colWidths) = tableWidth := by
  rw [sumWidthsOf_eq_sum, distributeFlexible, sum_map_add_diff, sumWidthsOf_eq_sum]
  rw [fixWidthCountOf_eq_count] at h ⊢
  field_simp

/-- The redistribution changes nothing when no column holds the flexible
value. -/
theorem distributeFlexible_none (tableWidth fixWidth : ℚ) (colWidths : List ℚ)
    (h : fixWidthCountOf fixWidth colWidths = 0) :
    distributeFlexible tableWidth fixWidth colWidths = colWidths := by
  rw [fixWidthCountOf_eq_count] at h
  have hc : colWidths.count fixWidth = 0 := by exact_mod_cast h
  have hmem : fixWidth ∉ colWidths := List.count_eq_zero.mp hc
  unfold distributeFlexible
  simp only
  conv_rhs => rw [← List.map_id colWidths]
  apply List.map_congr_left
  intro item hitem
  have : item ≠ fixWidth := fun e => hmem (e ▸ hitem)
  simp [this]

/-- The explicit width scan of a row in which no cell declares a width leaves
the widths as they are. -/
theorem explicitWidthsRow_flexible (heap : Heap) (grid : Grid) (row numCols : Nat)
    (hflex : ∀ c p, grid.get row c = some p →
      (heap.cell p).width ≤ 0 ∧ (heap.cell p).colspan ≠ 0)
    (colWidths : List ℚ) (n : Nat) :
    ∀ col, numCols - col = n →
      explicitWidthsRow heap grid row numCols col colWidths = some colWidths := by
  induction n using Nat.strong_induction_on with
  | _ n ih =>
    intro col hn
    rw [explicitWidthsRow]
    by_cases hlt : col < numCols
    · simp only [hlt, ↓reduceDIte]
      cases hg : grid.get row col with
      | none =>
        simp only
        exact ih (numCols - (col + 1)) (by omega) (col + 1) rfl
      | some p =>
        obtain ⟨hw, hc⟩ := hflex col p hg
        have hw' : ¬ (heap.cell p).width > 0 := not_lt.mpr hw
        simp only [hw', ↓reduceIte, hc, ↓reduceDIte]
        exact ih (numCols - (col + (heap.cell p).colspan)) (by omega) _ rfl
    · simp only [hlt, ↓reduceDIte]

/-- The explicit width scan of a grid in which no cell declares a width leaves
the widths as they are. -/
theorem explicitWidths_flexible (heap : Heap) (grid : Grid) (numRows numCols : Nat)
    (hflex : ∀ r c p, grid.get r c = some p →
      (heap.cell p).width ≤ 0 ∧ (heap.cell p).colspan ≠ 0)
    (colWidths : List ℚ) :
    explicitWidths heap grid numRows numCols colWidths = some colWidths := by
  unfold explicitWidths
  obtain ⟨res, hres, heq⟩ := foldlM_range_total
    (fun colWidths row => explicitWidthsRow heap grid row numCols 0 colWidths)
    (fun _ cw => cw = colWidths) numRows
    (by
      intro row b _ hb
      subst hb
      exact ⟨b, explicitWidthsRow_flexible heap grid row numCols (hflex row) b _ 0 rfl, rfl⟩)
    colWidths rfl
  rw [hres, heq]

/-- With every column at the flexible value the redistribution adds nothing. -/
theorem distributeFlexible_replicate (tableWidth : ℚ) (n : Nat) (hn : 0 < n) :
    distributeFlexible tableWidth (tableWidth / (n : ℚ))
      (List.replicate n (tableWidth / (n : ℚ))) = List.replicate n (tableWidth / (n : ℚ)) := by
  have hne : (n : ℚ) ≠ 0 := by exact_mod_cast (Nat.pos_iff_ne_zero.mp hn)
  unfold distributeFlexible
  simp only [fixWidthCountOf_eq_count, List.count_replicate_self, sumWidthsOf_eq_sum,
    List.sum_replicate, smul_eq_mul, List.map_replicate, ↓reduceIte]
  congr 1
  field_simp

/-- C2 (counterexample): one row of two cells with the explicit widths 100 and
50 and tableWidth 300 (flexible value 150): no column is flexible, the solved
widths are [100, 50] and they sum to 150, not to 300. -/
theorem solveColumnWidths_sum_counterexample :
    solveColumnWidths (twoWidthHeap 100 50) [[some 0, some 1]] 300 = some [100, 50] ∧
    sumWidthsOf [100, 50] ≠ 300 := by
  constructor
  · simp only [solveColumnWidths, explicitWidths, List.range, List.range.loop, List.foldlM,
      List.getD_cons_zero, List.length]
    simp [explicitWidthsRow, Grid.get, distributeFlexible, sumWidthsOf, fixWidthCountOf,
      twoWidthHeap]
    norm_num
  · norm_num [sumWidthsOf]

/-- C2 (amended): for a grid with at least one column, in which no cell has
colspan 0, (1) when no cell declares a width, the solved column widths are
`tableWidth / numCols` each and sum to `tableWidth`; (2) more generally the
solved widths sum to `tableWidth` whenever the explicit widths leave at least
one column at the flexible value; (3) when they leave none (zero-flexible),
the solved widths are the explicit widths unchanged, so that their sum is the
sum of the explicit widths. -/
theorem solveColumnWidths_sum (heap : Heap) (grid : Grid) (tableWidth : ℚ) :
    ((∀ r c p, grid.get r c = some p →
        (heap.cell p).width ≤ 0 ∧ (heap.cell p).colspan ≠ 0) →
      0 < (grid.getD 0 []).length →
      ∃ colWidths, solveColumnWidths heap grid tableWidth = some colWidths ∧
        colWidths = List.replicate (grid.getD 0 []).length
          (tableWidth / ((grid.getD 0 []).length : ℚ)) ∧
        sumWidthsOf colWidths = tableWidth) ∧
    (∀ explicit,
      explicitWidths heap grid grid.length (grid.getD 0 []).length
        (List.replicate (grid.getD 0 []).length (tableWidth / ((grid.getD 0 []).length : ℚ)))
        = some explicit →
      (fixWidthCountOf (tableWidth / ((grid.getD 0 []).length : ℚ)) explicit ≠ 0 →
        ∃ colWidths, solveColumnWidths heap grid tableWidth = some colWidths ∧
          sumWidthsOf colWidths = tableWidth) ∧
      (fixWidthCountOf (tableWidth / ((grid.getD 0 []).length : ℚ)) explicit = 0 →
        solveColumnWidths heap grid tableWidth = some explicit)) := by
  constructor
  · intro hflex hcols
    have hexp := explicitWidths_flexible heap grid grid.length (grid.getD 0 []).length hflex
      (List.replicate (grid.getD 0 []).length (tableWidth / ((grid.getD 0 []).length : ℚ)))
    have hcount : fixWidthCountOf (tableWidth / ((grid.getD 0 []).length : ℚ))
        (List.replicate (grid.getD 0 []).length (tableWidth / ((grid.getD 0 []).length : ℚ)))
        = ((grid.getD 0 []).length : ℚ) := by
      rw [fixWidthCountOf_eq_count, List.count_replicate_self]
    have hne : ((grid.getD 0 []).length : ℚ) ≠ 0 := by
      exact_mod_cast (Nat.pos_iff_ne_zero.mp hcols)
    have hsum := distributeFlexible_sum tableWidth (tableWidth / ((grid.getD 0 []).length : ℚ))
      (List.replicate (grid.getD 0 []).length (tableWidth / ((grid.getD 0 []).length : ℚ)))
      (by rw [hcount]; exact hne)
    exact ⟨_, by simp only [solveColumnWidths, hexp],
      distributeFlexible_replicate tableWidth _ hcols, hsum⟩
  · intro explicit hexp
    constructor
    · intro hcount
      exact ⟨_, by simp only [solveColumnWidths, hexp],
        distributeFlexible_sum tableWidth _ explicit hcount⟩
    · intro hcount
      simp only [solveColumnWidths, hexp, distributeFlexible_none tableWidth _ explicit hcount]

/-- C2 (witness): two cells without declared width share tableWidth 300
(150 each); two cells with the explicit widths 100 and 50 keep them. -/
theorem solveColumnWidths_sum_witness :
    (∃ colWidths, solveColumnWidths (twoWidthHeap 0 0) [[some 0, some 1]] 300 = some colWidths ∧
      sumWidthsOf colWidths = 300) ∧
    solveColumnWidths (twoWidthHeap 100 50) [[some 0, some 1]] 300 = some [100, 50] := by
  constructor
  · obtain ⟨colWidths, h1, _, h3⟩ :=
      (solveColumnWidths_sum (twoWidthHeap 0 0) [[some 0, some 1]] 300).1
        (by
          intro r c p _
          unfold twoWidthHeap
          constructor
          · simp only; split <;> simp
          · simp only; split <;> simp)
        (by simp)
    exact ⟨colWidths, h1, h3⟩
  · refine ((solveColumnWidths_sum (twoWidthHeap 100 50) [[some 0, some 1]] 300).2
      [100, 50] ?_).2 ?_
    · simp only [explicitWidths, List.range, List.range.loop, List.foldlM,
        List.getD_cons_zero, List.length]
      simp [explicitWidthsRow, Grid.get, twoWidthHeap]
    · norm_num [fixWidthCountOf]

/-! ## The row height pass -/

theorem raiseHeight_height (heap : Heap) (p : Ptr) (x : ℚ) :
    ((raiseHeight heap p x).cell p).height = max (heap.cell p).height x := by
  unfold raiseHeight
  split
  · rename_i h
    rw [Heap.modify_cell_same]
    simp only
    exact (max_eq_right (le_of_lt h)).symm
  · rename_i h
    exact (max_eq_left (not_lt.mp h)).symm

theorem raiseHeight_other (heap : Heap) (p q : Ptr) (x : ℚ) (h : q ≠ p) :
    (raiseHeight heap p x).cell q = heap.cell q := by
  unfold raiseHeight
  split
  · exact Heap.modify_cell_other heap p q _ h
  · rfl

/-- After the propagation loop every cell of the row (in the first `numCols`
columns) has the new height, and no other cell changed its height. -/
theorem propagateRowHeight_height (grid : Grid) (row numCols : Nat) (maxRowHeight : ℚ)
    (heap : Heap) :
    (∀ q, (∃ c, c < numCols ∧ grid.get row c = some q) →
      ((propagateRowHeight grid row numCols maxRowHeight heap).cell q).height = maxRowHeight) ∧
    (∀ q, (¬ ∃ c, c < numCols ∧ grid.get row c = some q) →
      (propagateRowHeight grid row numCols maxRowHeight heap).cell q = heap.cell q) := by
  unfold propagateRowHeight
  refine foldl_range_invariant _
    (fun j hp =>
      (∀ q, (∃ c, c < j ∧ grid.get row c = some q) → (hp.cell q).height = maxRowHeight) ∧
      (∀ q, (¬ ∃ c, c < j ∧ grid.get row c = some q) → hp.cell q = heap.cell q))
    numCols ?_ heap ⟨?_, ?_⟩
  · intro j b _ hb
    obtain ⟨hb1, hb2⟩ := hb
    cases hg : grid.get row j with
    | none =>
      simp only
      constructor
      · intro q hq
        obtain ⟨c, hc, hcq⟩ := hq
        have hcj : c ≠ j := by
          intro e
          rw [e, hg] at hcq
          cases hcq
        exact hb1 q ⟨c, by omega, hcq⟩
      · intro q hq
        exact hb2 q (fun ⟨c, hc, hcq⟩ => hq ⟨c, by omega, hcq⟩)
    | some p =>
      simp only
      constructor
      · intro q hq
        by_cases hqp : q = p
        · rw [hqp, Heap.modify_cell_same]
        · rw [Heap.modify_cell_other _ _ _ _ hqp]
          obtain ⟨c, hc, hcq⟩ := hq
          have hcj : c ≠ j := by
            intro e
            rw [e, hg] at hcq
            exact hqp (Option.some.inj hcq).symm
          exact hb1 q ⟨c, by omega, hcq⟩
      · intro q hq
        have hqp : q ≠ p := by
          intro e
          exact hq ⟨j, by omega, by rw [hg, e]⟩
        rw [Heap.modify_cell_other _ _ _ _ hqp]
        exact hb2 q (fun ⟨c, hc, hcq⟩ => hq ⟨c, by omega, hcq⟩)
  · intro q hq
    obtain ⟨c, hc, _⟩ := hq
    omega
  · intro q _
    rfl

theorem RowInv.floor {grid : Grid} {row numCols : Nat} {h0 : ℚ} {t : Nat → ℚ} {hp : Heap}
    {j : Nat} {st : ℚ × Heap} (hinv : RowInv grid row numCols h0 t hp j st)
    (hpos : 0 < st.1) : h0 ≤ st.1 := by
  by_cases hex : ∃ c p, c < j ∧ grid.get row c = some p
  · obtain ⟨c, p, _, _, hM⟩ := hinv.attained hex
    rw [hM]
    exact le_max_left _ _
  · have := hinv.fresh hex
    rw [this] at hpos
    exact absurd hpos (lt_irrefl 0)

/-- One column of the row height pass keeps the invariant. -/
theorem rowHeightStep_inv (style : TableStyle) (grid : Grid) (colWidths : List ℚ)
    (numCols row : Nat) (h0 : ℚ) (t : Nat → ℚ) (hp : Heap)
    (hinj : ∀ c c' p, c < numCols → c' < numCols → grid.get row c = some p →
      grid.get row c' = some p → c = c')
    (hmeas : ∀ c p, c < numCols → grid.get row c = some p →
      measureCell style colWidths numCols c (hp.cell p) = some (t c) ∧ 0 ≤ t c)
    (j : Nat) (hj : j < numCols) (st : ℚ × Heap)
    (hinv : RowInv grid row numCols h0 t hp j st) :
    ∃ st', rowHeightStep style grid colWidths numCols row st j = some st' ∧
      RowInv grid row numCols h0 t hp (j + 1) st' := by
  unfold rowHeightStep
  cases hg : grid.get row j with
  | none =>
    refine ⟨st, rfl, ?_⟩
    have hne : ∀ c p, grid.get row c = some p → c ≠ j := by
      intro c p hc e
      rw [e, hg] at hc
      cases hc
    exact {
      same := hinv.same
      others := hinv.others
      nonneg := hinv.nonneg
      done := fun c p hc hcp =>
        hinv.done c p (by have := hne c p hcp; omega) hcp
      todo := fun c p hc hcn hcp => hinv.todo c p (by omega) hcn hcp
      attained := fun ⟨c, p, hc, hcp⟩ => by
        obtain ⟨c', p', hc', hcp', hM⟩ :=
          hinv.attained ⟨c, p, by have := hne c p hcp; omega, hcp⟩
        exact ⟨c', p', by omega, hcp', hM⟩
      fresh := fun hno => hinv.fresh (fun ⟨c, p, hc, hcp⟩ => hno ⟨c, p, by omega, hcp⟩) }
  | some p =>
    obtain ⟨hm, htj⟩ := hmeas j p hj hg
    rw [← measureCell_congr style colWidths numCols j _ _ (hinv.same p)] at hm
    simp only [hm]
    refine ⟨_, rfl, ?_⟩
    have hcur := hinv.todo j p (le_refl j) hj hg
    have hv := raiseHeight_height st.2 p (t j)
    have hother : ∀ c q, c < numCols → grid.get row c = some q → c ≠ j →
        (raiseHeight st.2 p (t j)).cell q = st.2.cell q := by
      intro c q hc hcq hcj
      refine raiseHeight_other st.2 p q (t j) ?_
      intro e
      rw [e] at hcq
      exact hcj (hinj c j p hc hj hcq hg)
    have hsame1 := raiseHeight_same hp st.2 p (t j) hinv.same
    have hprow : ∃ c, c < numCols ∧ grid.get row c = some p := ⟨j, hj, hg⟩
    unfold raiseRowHeight
    simp only
    by_cases hlt : st.1 < ((raiseHeight st.2 p (t j)).cell p).height
    · rw [if_pos hlt]
      obtain ⟨hprop1, hprop2⟩ := propagateRowHeight_height grid row numCols
        ((raiseHeight st.2 p (t j)).cell p).height (raiseHeight st.2 p (t j))
      have hvpos : 0 < ((raiseHeight st.2 p (t j)).cell p).height :=
        lt_of_le_of_lt hinv.nonneg hlt
      have hh0 : h0 ≤ ((raiseHeight st.2 p (t j)).cell p).height := by
        by_cases hM : 0 < st.1
        · exact le_trans (hinv.floor hM) (le_of_lt hlt)
        · rw [hv, hcur, if_neg hM]
          exact le_max_left _ _
      have htv : t j ≤ ((raiseHeight st.2 p (t j)).cell p).height := by
        rw [hv]
        exact le_max_right _ _
      exact {
        same := propagateRowHeight_same grid row numCols _ hp _ hsame1
        others := fun q hq => by
          show (propagateRowHeight grid row numCols _ _).cell q = hp.cell q
          rw [hprop2 q hq, raiseHeight_other st.2 p q (t j)
            (fun e => hq (e ▸ hprow))]
          exact hinv.others q hq
        nonneg := le_of_lt hvpos
        done := fun c q hc hcq => by
          refine ⟨hprop1 q ⟨c, by omega, hcq⟩, ?_⟩
          by_cases hcj : c = j
          · rw [hcj]
            exact max_le hh0 htv
          · exact le_trans (hinv.done c q (by omega) hcq).2 (le_of_lt hlt)
        todo := fun c q _ hcn hcq => by
          show ((propagateRowHeight grid row numCols _ _).cell q).height = _
          rw [hprop1 q ⟨c, hcn, hcq⟩]
          simp only [hvpos, ↓reduceIte]
        attained := fun _ => by
          refine ⟨j, p, by omega, hg, ?_⟩
          show ((raiseHeight st.2 p (t j)).cell p).height = max h0 (t j)
          by_cases hM : 0 < st.1
          · have h1 : ((raiseHeight st.2 p (t j)).cell p).height = max st.1 (t j) := by
              rw [hv, hcur, if_pos hM]
            have h2 : st.1 < t j := by
              rw [h1] at hlt
              rcases lt_max_iff.mp hlt with h | h
              · exact absurd h (lt_irrefl _)
              · exact h
            rw [h1, max_eq_right (le_of_lt h2),
              max_eq_right (le_trans (hinv.floor hM) (le_of_lt h2))]
          · rw [hv, hcur, if_neg hM]
        fresh := fun hno => absurd ⟨j, p, by omega, hg⟩ hno }
    · rw [if_neg hlt]
      have hle : ((raiseHeight st.2 p (t j)).cell p).height ≤ st.1 := not_lt.mp hlt
      have hveq : ((raiseHeight st.2 p (t j)).cell p).height = st.1 := by
        apply le_antisymm hle
        by_cases hM : 0 < st.1
        · rw [hv, hcur, if_pos hM]
          exact le_max_left _ _
        · have h0M : st.1 = 0 := le_antisymm (not_lt.mp hM) hinv.nonneg
          rw [h0M, hv]
          exact le_trans htj (le_max_right _ _)
      have hmaxle : max h0 (t j) ≤ st.1 := by
        by_cases hM : 0 < st.1
        · refine max_le (hinv.floor hM) ?_
          rw [← hveq, hv]
          exact le_max_right _ _
        · rw [← hveq, hv, hcur, if_neg hM]
      exact {
        same := hsame1
        others := fun q hq => by
          show (raiseHeight st.2 p (t j)).cell q = hp.cell q
          rw [raiseHeight_other st.2 p q (t j) (fun e => hq (e ▸ hprow))]
          exact hinv.others q hq
        nonneg := hinv.nonneg
        done := fun c q hc hcq => by
          by_cases hcj : c = j
          · have hqp : q = p := by
              rw [hcj, hg] at hcq
              exact (Option.some.inj hcq).symm
            rw [hqp, hcj]
            exact ⟨hveq, hmaxle⟩
          · show ((raiseHeight st.2 p (t j)).cell q).height = st.1 ∧ _
            rw [hother c q (by omega) hcq hcj]
            exact hinv.done c q (by omega) hcq
        todo := fun c q hc hcn hcq => by
          show ((raiseHeight st.2 p (t j)).cell q).height = _
          rw [hother c q hcn hcq (by omega)]
          exact hinv.todo c q (by omega) hcn hcq
        attained := fun _ => by
          by_cases hex : ∃ c p, c < j ∧ grid.get row c = some p
          · obtain ⟨c', p', hc', hcp', hM⟩ := hinv.attained hex
            exact ⟨c', p', by omega, hcp', hM⟩
          · refine ⟨j, p, by omega, hg, ?_⟩
            have h0M := hinv.fresh hex
            have hM : ¬ 0 < st.1 := by rw [h0M]; exact lt_irrefl 0
            rw [← hveq, hv, hcur, if_neg hM]
        fresh := fun hno => absurd ⟨j, p, by omega, hg⟩ hno }

/-- The row height pass on one row whose cells are pairwise distinct, start at
the height `h0` and can be measured with non-negative results. -/
theorem rowHeightsRow_spec (style : TableStyle) (grid : Grid) (colWidths : List ℚ)
    (numCols row : Nat) (decl : Nat → ℚ) (t : Nat → Nat → ℚ) (hp : Heap)
    (hinj : ∀ c c' p, c < numCols → c' < numCols → grid.get row c = some p →
      grid.get row c' = some p → c = c')
    (hmeas : ∀ c p, c < numCols → grid.get row c = some p →
      measureCell style colWidths numCols c (hp.cell p) = some (t row c) ∧ 0 ≤ t row c)
    (hinit : ∀ c p, c < numCols → grid.get row c = some p → (hp.cell p).height = decl row) :
    ∃ hp', rowHeightsRow style grid colWidths numCols hp row = some hp' ∧
      hp.sameButHeights hp' ∧
      (∀ q, (¬ ∃ c, c < numCols ∧ grid.get row c = some q) → hp'.cell q = hp.cell q) ∧
      RowFinal grid numCols decl t row hp' := by
  obtain ⟨st, hst, hinv⟩ := foldlM_range_total
    (rowHeightStep style grid colWidths numCols row)
    (fun j st => RowInv grid row numCols (decl row) (t row) hp j st) numCols
    (fun j st hj hinv =>
      rowHeightStep_inv style grid colWidths numCols row (decl row) (t row) hp hinj hmeas j hj
        st hinv)
    ((0 : ℚ), hp)
    { same := fun _ => rfl
      others := fun _ _ => rfl
      nonneg := le_refl 0
      done := fun c p hc _ => absurd hc (Nat.not_lt_zero c)
      todo := fun c p _ hcn hcp => by
        simp only [lt_irrefl, ↓reduceIte]
        exact hinit c p hcn hcp
      attained := fun ⟨c, _, hc, _⟩ => absurd hc (Nat.not_lt_zero c)
      fresh := fun _ => rfl }
  refine ⟨st.2, by unfold rowHeightsRow; rw [hst]; rfl, hinv.same, hinv.others, st.1, ?_, ?_⟩
  · intro c p hc hcp
    exact hinv.done c p hc hcp
  · intro hex
    exact hinv.attained hex

/-- The row height pass on a grid whose cells are pairwise distinct, start at
the declared height of their row and can be measured with non-negative
results: it returns, and every row is final. -/
theorem resolveRowHeights_spec (style : TableStyle) (grid : Grid) (colWidths : List ℚ)
    (numRows numCols : Nat) (decl : Nat → ℚ) (t : Nat → Nat → ℚ) (hpp : Heap)
    (hinj : ∀ r r' c c' p, r < numRows → r' < numRows → c < numCols → c' < numCols →
      grid.get r c = some p → grid.get r' c' = some p → r = r' ∧ c = c')
    (hmeas : ∀ r c p, r < numRows → c < numCols → grid.get r c = some p →
      measureCell style colWidths numCols c (hpp.cell p) = some (t r c) ∧ 0 ≤ t r c)
    (hinit : ∀ r c p, r < numRows → c < numCols → grid.get r c = some p →
      (hpp.cell p).height = decl r) :
    ∃ heap', resolveRowHeights style grid colWidths numRows numCols hpp = some heap' ∧
      hpp.sameButHeights heap' ∧
      ∀ r, r < numRows → RowFinal grid numCols decl t r heap' := by
  unfold resolveRowHeights
  obtain ⟨heap', hres, hsame, _, hfinal⟩ := foldlM_range_total
    (rowHeightsRow style grid colWidths numCols)
    (fun i h =>
      hpp.sameButHeights h ∧
      (∀ r c p, i ≤ r → r < numRows → c < numCols → grid.get r c = some p →
        h.cell p = hpp.cell p) ∧
      (∀ r, r < i → RowFinal grid numCols decl t r h)) numRows
    (by
      intro i h hi hQ
      obtain ⟨hsame, huntouched, hdone⟩ := hQ
      obtain ⟨h', hrow, hsame', hothers, hfin⟩ := rowHeightsRow_spec style grid colWidths
        numCols i decl t h
        (fun c c' p hc hc' hcp hcp' => (hinj i i c c' p hi hi hc hc' hcp hcp').2)
        (fun c p hc hcp => by
          rw [measureCell_congr style colWidths numCols c _ _ (hsame p)]
          exact hmeas i c p hi hc hcp)
        (fun c p hc hcp => by
          rw [huntouched i c p (le_refl i) hi hc hcp]
          exact hinit i c p hi hc hcp)
      have hnotrow : ∀ r c p, r ≠ i → r < numRows → c < numCols → grid.get r c = some p →
          ¬ ∃ c', c' < numCols ∧ grid.get i c' = some p := by
        intro r c p hri hr hc hcp ⟨c', hc', hcp'⟩
        exact hri (hinj r i c c' p hr hi hc hc' hcp hcp').1
      refine ⟨h', hrow, ?_, ?_, ?_⟩
      · intro q
        rw [hsame' q, hsame q]
      · intro r c p hir hr hc hcp
        rw [hothers p (hnotrow r c p (by omega) hr hc hcp)]
        exact huntouched r c p (by omega) hr hc hcp
      · intro r hr
        by_cases hri : r = i
        · rw [hri]
          exact hfin
        · obtain ⟨M, hM1, hM2⟩ := hdone r (by omega)
          refine ⟨M, ?_, hM2⟩
          intro c p hc hcp
          rw [hothers p (hnotrow r c p hri (by omega) hc hcp)]
          exact hM1 c p hc hcp)
    hpp ⟨fun _ => rfl, fun _ _ _ _ _ _ _ => rfl, fun r hr => absurd hr (Nat.not_lt_zero r)⟩
  exact ⟨heap', hres, hsame, hfinal⟩

/-! ## Invariants of `BuildCellGrid` -/

theorem getD_set_eq {α : Type} (l : List α) (i j : Nat) (v d : α) :
    (l.set i v).getD j d = if j = i ∧ i < l.length then v else l.getD j d := by
  rw [List.getD_eq_getElem?_getD, List.getD_eq_getElem?_getD, List.getElem?_set]
  by_cases hji : j = i
  · subst hji
    by_cases hlen : j < l.length
    · simp [hlen]
    · have : l.length ≤ j := Nat.le_of_not_lt hlen
      simp [hlen, List.getElem?_eq_none this]
  · have hij : ¬ i = j := fun e => hji e.symm
    simp [hji, hij]

theorem Grid.get_set (grid : Grid) (r c r' c' : Nat) (v : Option Ptr) :
    (grid.set r c v).get r' c'
      = if r' = r ∧ c' = c ∧ r < grid.length ∧ c < (grid.getD r []).length then v
        else grid.get r' c' := by
  unfold Grid.set Grid.get
  rw [getD_set_eq]
  by_cases hr : r' = r ∧ r < grid.length
  · rw [if_pos hr, getD_set_eq]
    obtain ⟨hr1, hr2⟩ := hr
    subst hr1
    by_cases hc : c' = c ∧ c < (grid.getD r' []).length
    · rw [if_pos hc, if_pos ⟨rfl, hc.1, hr2, hc.2⟩]
    · rw [if_neg hc, if_neg (fun h => hc ⟨h.2.1, h.2.2.2⟩)]
  · rw [if_neg hr, if_neg (fun h => hr ⟨h.1, h.2.2.1⟩)]

theorem Grid.set_length (grid : Grid) (r c : Nat) (v : Option Ptr) :
    (grid.set r c v).length = grid.length := by
  simp [Grid.set]

theorem Grid.set_row_length (grid : Grid) (r c : Nat) (v : Option Ptr) (i : Nat) :
    ((grid.set r c v).getD i []).length = (grid.getD i []).length := by
  unfold Grid.set
  rw [getD_set_eq]
  by_cases hi : i = r ∧ r < grid.length
  · rw [if_pos hi, List.length_set, hi.1]
  · rw [if_neg hi]

theorem Grid.get_some_bounds (grid : Grid) (r c : Nat) (p : Ptr)
    (h : grid.get r c = some p) : r < grid.length ∧ c < (grid.getD r []).length := by
  unfold Grid.get at h
  have hc : c < (grid.getD r []).length := by
    by_contra hcon
    have : (grid.getD r []).length ≤ c := Nat.le_of_not_lt hcon
    rw [List.getD_eq_getElem?_getD, List.getElem?_eq_none this] at h
    simp at h
  refine ⟨?_, hc⟩
  by_contra hcon
  have : grid.length ≤ r := Nat.le_of_not_lt hcon
  rw [List.getD_eq_getElem?_getD, List.getElem?_eq_none this] at hc
  simp at hc

theorem BuildInv.mono {rows : List TableRow} {h0 : Heap} {maxCols : Nat}
    {placed placed' : List Ptr} {st : Grid × Heap}
    (hinv : BuildInv rows h0 maxCols placed st) (hsub : ∀ p, p ∈ placed → p ∈ placed') :
    BuildInv rows h0 maxCols placed' st :=
  { rowsLen := hinv.rowsLen
    colsLen := hinv.colsLen
    next := hinv.next
    alloc := hinv.alloc
    inj := hinv.inj
    height := hinv.height
    anchor := fun r c p h hp => hsub p (hinv.anchor r c p h hp)
    spanned := hinv.spanned
    input := hinv.input }

theorem Grid.get_set_cases (grid : Grid) (R C r c : Nat) (v : Option Ptr) (p : Ptr)
    (h : (grid.set R C v).get r c = some p) :
    (r = R ∧ c = C ∧ v = some p) ∨ ((¬ (r = R ∧ c = C)) ∧ grid.get r c = some p) := by
  rw [Grid.get_set] at h
  by_cases hcond : r = R ∧ c = C ∧ R < grid.length ∧ C < (grid.getD R []).length
  · rw [if_pos hcond] at h
    exact Or.inl ⟨hcond.1, hcond.2.1, h⟩
  · rw [if_neg hcond] at h
    by_cases hrc : r = R ∧ c = C
    · obtain ⟨h1, h2⟩ := hrc
      subst h1 h2
      have hb := Grid.get_some_bounds grid r c p h
      exact absurd ⟨rfl, rfl, hb.1, hb.2⟩ hcond
    · exact Or.inr ⟨hrc, h⟩

/-- A slot claimed by `claimSlot` with a cell that is not in the grid yet:
the slots of the new grid stay pairwise distinct. -/
theorem Grid.set_inj (grid : Grid) (R C : Nat) (q : Ptr)
    (hinj : ∀ r r' c c' p, grid.get r c = some p → grid.get r' c' = some p → r = r' ∧ c = c')
    (hq : ∀ r c, grid.get r c ≠ some q) :
    ∀ r r' c c' p, (grid.set R C (some q)).get r c = some p →
      (grid.set R C (some q)).get r' c' = some p → r = r' ∧ c = c' := by
  intro r r' c c' p h1 h2
  rw [Grid.get_set] at h1 h2
  by_cases hc1 : r = R ∧ c = C ∧ R < grid.length ∧ C < (grid.getD R []).length
  · rw [if_pos hc1] at h1
    by_cases hc2 : r' = R ∧ c' = C ∧ R < grid.length ∧ C < (grid.getD R []).length
    · exact ⟨hc1.1.trans hc2.1.symm, hc1.2.1.trans hc2.2.1.symm⟩
    · rw [if_neg hc2] at h2
      rw [← Option.some.inj h1] at h2
      exact absurd h2 (hq r' c')
  · rw [if_neg hc1] at h1
    by_cases hc2 : r' = R ∧ c' = C ∧ R < grid.length ∧ C < (grid.getD R []).length
    · rw [if_pos hc2] at h2
      rw [← Option.some.inj h2] at h1
      exact absurd h1 (hq r c)
    · rw [if_neg hc2] at h2
      exact hinj r r' c c' p h1 h2

/-- Claiming one slot keeps the invariant: the anchor step needs a cell that
was not placed before. -/
theorem claimSlot_inv (rows : List TableRow) (h0 : Heap) (maxCols : Nat) (placed : List Ptr)
    (rowIdx colIdx : Nat) (cell : Ptr) (r c : Nat) (st : Grid × Heap)
    (hinv : BuildInv rows h0 maxCols placed st) (hcell : cell < h0.next)
    (hnew : r = 0 ∧ c = 0 → cell ∉ placed) :
    BuildInv rows h0 maxCols (cell :: placed) (claimSlot rows rowIdx colIdx cell r c st) := by
  unfold claimSlot
  by_cases h00 : r = 0 ∧ c = 0
  · rw [if_pos h00]
    have hnotin : ∀ r' c', st.1.get r' c' ≠ some cell :=
      fun r' c' h => hnew h00 (hinv.anchor r' c' cell h hcell)
    obtain ⟨hr0, hc0⟩ := h00
    subst hr0 hc0
    exact {
      rowsLen := by simp only [Grid.set_length]; exact hinv.rowsLen
      colsLen := fun i hi => by simp only [Grid.set_row_length]; exact hinv.colsLen i hi
      next := hinv.next
      alloc := fun r' c' p h => by
        rcases Grid.get_set_cases _ _ _ _ _ _ _ h with ⟨_, _, hv⟩ | ⟨_, hold⟩
        · rw [← Option.some.inj hv]
          exact lt_of_lt_of_le hcell hinv.next
        · exact hinv.alloc r' c' p hold
      inj := Grid.set_inj st.1 _ _ cell hinv.inj hnotin
      height := fun r' c' p h => by
        rcases Grid.get_set_cases _ _ _ _ _ _ _ h with ⟨hr, _, hv⟩ | ⟨_, hold⟩
        · rw [← Option.some.inj hv, hr]
          show ((st.2.modify cell (anchorCell rows rowIdx)).cell cell).height = _
          rw [Heap.modify_cell_same]
          rfl
        · have hne : p ≠ cell := fun e => hnotin r' c' (e ▸ hold)
          show ((st.2.modify cell (anchorCell rows rowIdx)).cell p).height = _
          rw [Heap.modify_cell_other _ _ _ _ hne]
          exact hinv.height r' c' p hold
      anchor := fun r' c' p h hp => by
        rcases Grid.get_set_cases _ _ _ _ _ _ _ h with ⟨_, _, hv⟩ | ⟨_, hold⟩
        · rw [← Option.some.inj hv]
          exact List.mem_cons_self _ _
        · exact List.mem_cons_of_mem _ (hinv.anchor r' c' p hold hp)
      spanned := fun r' c' p h hp => by
        have hne : p ≠ cell := fun e => by
          rw [e] at hp
          exact absurd hcell (not_lt.mpr hp)
        rcases Grid.get_set_cases _ _ _ _ _ _ _ h with ⟨_, _, hv⟩ | ⟨_, hold⟩
        · exact absurd (Option.some.inj hv).symm hne
        · show ((st.2.modify cell (anchorCell rows rowIdx)).cell p).isSpanned = true ∧
            ((st.2.modify cell (anchorCell rows rowIdx)).cell p).content = []
          rw [Heap.modify_cell_other _ _ _ _ hne]
          exact hinv.spanned r' c' p hold hp
      input := fun p hp => by
        show (st.2.modify cell (anchorCell rows rowIdx)).cell p
          = { h0.cell p with
              height := ((st.2.modify cell (anchorCell rows rowIdx)).cell p).height
              isRowHeader := ((st.2.modify cell (anchorCell rows rowIdx)).cell p).isRowHeader }
        by_cases hpc : p = cell
        · rw [hpc, Heap.modify_cell_same]
          have := hinv.input cell hcell
          rw [this]
          rfl
        · rw [Heap.modify_cell_other _ _ _ _ hpc]
          exact hinv.input p hp }
  · rw [if_neg h00]
    have hfresh : ∀ r' c', st.1.get r' c' ≠ some st.2.next :=
      fun r' c' h => absurd (hinv.alloc r' c' _ h) (lt_irrefl _)
    have hother : ∀ p, p ≠ st.2.next →
        (st.2.alloc (spannedCell rows st.2 rowIdx colIdx cell r c)).2.cell p = st.2.cell p := by
      intro p hp
      simp [Heap.alloc, Function.update_noteq hp]
    have hsame : (st.2.alloc (spannedCell rows st.2 rowIdx colIdx cell r c)).2.cell st.2.next
        = spannedCell rows st.2 rowIdx colIdx cell r c := by
      simp [Heap.alloc]
    have hptr : (st.2.alloc (spannedCell rows st.2 rowIdx colIdx cell r c)).1 = st.2.next := rfl
    rw [hptr]
    exact {
      rowsLen := by simp only [Grid.set_length]; exact hinv.rowsLen
      colsLen := fun i hi => by simp only [Grid.set_row_length]; exact hinv.colsLen i hi
      next := le_trans hinv.next (Nat.le_succ _)
      alloc := fun r' c' p h => by
        rcases Grid.get_set_cases _ _ _ _ _ _ _ h with ⟨_, _, hv⟩ | ⟨_, hold⟩
        · rw [← Option.some.inj hv]
          exact Nat.lt_succ_self _
        · exact Nat.lt_succ_of_lt (hinv.alloc r' c' p hold)
      inj := Grid.set_inj st.1 _ _ st.2.next hinv.inj hfresh
      height := fun r' c' p h => by
        rcases Grid.get_set_cases _ _ _ _ _ _ _ h with ⟨hr, _, hv⟩ | ⟨_, hold⟩
        · rw [← Option.some.inj hv, hr]
          show ((st.2.alloc (spannedCell rows st.2 rowIdx colIdx cell r c)).2.cell
            st.2.next).height = _
          rw [hsame]
          rfl
        · have hne : p ≠ st.2.next := fun e => hfresh r' c' (e ▸ hold)
          show ((st.2.alloc (spannedCell rows st.2 rowIdx colIdx cell r c)).2.cell p).height = _
          rw [hother p hne]
          exact hinv.height r' c' p hold
      anchor := fun r' c' p h hp => by
        rcases Grid.get_set_cases _ _ _ _ _ _ _ h with ⟨_, _, hv⟩ | ⟨_, hold⟩
        · have hpe : p = st.2.next := (Option.some.inj hv).symm
          rw [hpe] at hp
          exact absurd (lt_of_lt_of_le hp hinv.next) (lt_irrefl _)
        · exact List.mem_cons_of_mem _ (hinv.anchor r' c' p hold hp)
      spanned := fun r' c' p h hp => by
        show ((st.2.alloc (spannedCell rows st.2 rowIdx colIdx cell r c)).2.cell p).isSpanned
            = true ∧
          ((st.2.alloc (spannedCell rows st.2 rowIdx colIdx cell r c)).2.cell p).content = []
        rcases Grid.get_set_cases _ _ _ _ _ _ _ h with ⟨_, _, hv⟩ | ⟨_, hold⟩
        · rw [← Option.some.inj hv, hsame]
          exact ⟨rfl, rfl⟩
        · have hne : p ≠ st.2.next := fun e => hfresh r' c' (e ▸ hold)
          rw [hother p hne]
          exact hinv.spanned r' c' p hold hp
      input := fun p hp => by
        have hne : p ≠ st.2.next := fun e => by
          rw [e] at hp
          exact absurd (lt_of_lt_of_le hp hinv.next) (lt_irrefl _)
        show (st.2.alloc (spannedCell rows st.2 rowIdx colIdx cell r c)).2.cell p
          = { h0.cell p with
              height :=
                ((st.2.alloc (spannedCell rows st.2 rowIdx colIdx cell r c)).2.cell p).height
              isRowHeader :=
                ((st.2.alloc (spannedCell rows st.2 rowIdx colIdx cell r c)).2.cell
                  p).isRowHeader }
        rw [hother p hne]
        exact hinv.input p hp }

/-- Claiming the span of a cell that was not placed before keeps the
invariant. -/
theorem claimSpan_inv (rows : List TableRow) (h0 : Heap) (maxCols : Nat) (placed : List Ptr)
    (rowIdx colIdx : Nat) (cell : Ptr) (st : Grid × Heap)
    (hinv : BuildInv rows h0 maxCols placed st) (hcell : cell < h0.next)
    (hnew : cell ∉ placed) :
    BuildInv rows h0 maxCols (cell :: placed) (claimSpan rows maxCols rowIdx colIdx cell st) := by
  unfold claimSpan
  have hmono : ∀ s, BuildInv rows h0 maxCols placed s → BuildInv rows h0 maxCols (cell :: placed) s :=
    fun s hs => hs.mono (fun p hp => List.mem_cons_of_mem _ hp)
  have hfinal := foldl_range_invariant
    (fun st r =>
      (List.range (min (st.2.cell cell).colspan (maxCols - colIdx))).foldl
        (fun st c => claimSlot rows rowIdx colIdx cell r c st) st)
    (fun r s => if r = 0 then BuildInv rows h0 maxCols placed s
      else BuildInv rows h0 maxCols (cell :: placed) s)
    (min (st.2.cell cell).rowspan (rows.length - rowIdx))
    (by
      intro r b _ hb
      beta_reduce at hb ⊢
      rw [if_neg (Nat.succ_ne_zero r)]
      have hinner := foldl_range_invariant
        (fun st c => claimSlot rows rowIdx colIdx cell r c st)
        (fun c s => if r = 0 ∧ c = 0 then BuildInv rows h0 maxCols placed s
          else BuildInv rows h0 maxCols (cell :: placed) s)
        (min (b.2.cell cell).colspan (maxCols - colIdx))
        (by
          intro c s _ hs
          beta_reduce at hs ⊢
          rw [if_neg (fun h : r = 0 ∧ c + 1 = 0 => Nat.succ_ne_zero c h.2)]
          by_cases h00 : r = 0 ∧ c = 0
          · rw [if_pos h00] at hs
            exact claimSlot_inv rows h0 maxCols placed rowIdx colIdx cell r c s hs hcell
              (fun _ => hnew)
          · rw [if_neg h00] at hs
            exact (claimSlot_inv rows h0 maxCols (cell :: placed) rowIdx colIdx cell r c s hs
              hcell (fun h => absurd h h00)).mono (fun p hp => by
                rcases List.mem_cons.mp hp with h | h
                · rw [h]; exact List.mem_cons_self _ _
                · exact h))
        b
        (by
          beta_reduce
          by_cases hr : r = 0
          · rw [if_pos (⟨hr, rfl⟩ : r = 0 ∧ 0 = 0)]
            rw [if_pos hr] at hb
            exact hb
          · rw [if_neg (fun h : r = 0 ∧ 0 = 0 => hr h.1)]
            rw [if_neg hr] at hb
            exact hb)
      beta_reduce at hinner ⊢
      by_cases h00 : r = 0 ∧ min (b.2.cell cell).colspan (maxCols - colIdx) = 0
      · rw [if_pos h00] at hinner
        exact hmono _ hinner
      · rw [if_neg h00] at hinner
        exact hinner)
    st (by beta_reduce; rw [if_pos rfl]; exact hinv)
  beta_reduce at hfinal
  by_cases hn : min (st.2.cell cell).rowspan (rows.length - rowIdx) = 0
  · rw [if_pos hn] at hfinal
    exact hmono _ hfinal
  · rw [if_neg hn] at hfinal
    exact hfinal

/-- Placing the cells of one row keeps the invariant. -/
theorem placeCells_inv (rows : List TableRow) (h0 : Heap) (maxCols rowIdx : Nat) :
    ∀ (cells : List Ptr) (colIdx : Nat) (st : Grid × Heap) (placed : List Ptr),
      BuildInv rows h0 maxCols placed st →
      (∀ cell ∈ cells, cell < h0.next) → (∀ cell ∈ cells, cell ∉ placed) → cells.Nodup →
      BuildInv rows h0 maxCols (cells ++ placed)
        (placeCells rows maxCols rowIdx cells colIdx st) := by
  intro cells
  induction cells with
  | nil =>
    intro colIdx st placed hinv _ _ _
    exact hinv
  | cons cell cells ih =>
    intro colIdx st placed hinv halloc hnew hnodup
    unfold placeCells
    simp only
    split
    · exact hinv.mono (fun p hp => List.mem_append_right _ hp)
    · have hcell := halloc cell (List.mem_cons_self _ _)
      have hspan := claimSpan_inv rows h0 maxCols placed rowIdx
        (skipClaimed st.1 rowIdx maxCols maxCols colIdx) cell st hinv hcell
        (hnew cell (List.mem_cons_self _ _))
      have hnd := List.nodup_cons.mp hnodup
      refine (ih _ _ (cell :: placed) hspan
        (fun x hx => halloc x (List.mem_cons_of_mem _ hx))
        (fun x hx hmem => by
          rcases List.mem_cons.mp hmem with h | h
          · rw [h] at hx
            exact hnd.1 hx
          · exact hnew x (List.mem_cons_of_mem _ hx) h)
        hnd.2).mono ?_
      intro p hp
      rcases List.mem_append.mp hp with h | h
      · exact List.mem_append_left _ (List.mem_cons_of_mem _ h)
      · rcases List.mem_cons.mp h with h' | h'
        · rw [h']
          exact List.mem_append_left _ (List.mem_cons_self _ _)
        · exact List.mem_append_right _ h'

theorem allCells_append (a b : List TableRow) : allCells (a ++ b) = allCells a ++ allCells b := by
  simp [allCells]

theorem allCells_take_succ (rows : List TableRow) (i : Nat) (hi : i < rows.length) :
    allCells (rows.take (i + 1)) = allCells (rows.take i) ++ (rows.getD i default).cells := by
  have h1 : rows.take (i + 1) = rows.take i ++ [rows[i]] :=
    (List.take_concat_get' rows i hi).symm
  have h2 : rows.getD i default = rows[i] := by
    simp [List.getD_eq_getElem?_getD, List.getElem?_eq_getElem hi]
  rw [h1, allCells_append, h2]
  simp [allCells]

theorem Grid.get_replicate (n m r c : Nat) :
    Grid.get (List.replicate n (List.replicate m none)) r c = none := by
  unfold Grid.get
  rw [List.getD_eq_getElem?_getD, List.getD_eq_getElem?_getD]
  by_cases hr : r < n
  · rw [List.getElem?_replicate, if_pos hr]
    simp only [Option.getD_some]
    by_cases hc : c < m
    · rw [List.getElem?_replicate, if_pos hc]
      rfl
    · rw [List.getElem?_replicate, if_neg hc]
      rfl
  · rw [List.getElem?_replicate, if_neg hr]
    rfl

/-- The grid and store returned by `BuildCellGrid` satisfy the invariant, for
rows whose cell pointers are pairwise distinct and allocated. -/
theorem BuildCellGrid_inv (rows : List TableRow) (h0 : Heap)
    (hnodup : (allCells rows).Nodup) (halloc : ∀ p ∈ allCells rows, p < h0.next) :
    BuildInv rows h0 (maxColsOf h0 rows) (allCells rows) (BuildCellGrid rows h0) := by
  unfold BuildCellGrid
  have hfinal := foldl_range_invariant
    (fun st rowIdx =>
      placeCells rows (maxColsOf h0 rows) rowIdx (rows.getD rowIdx default).cells 0 st)
    (fun i st => BuildInv rows h0 (maxColsOf h0 rows) (allCells (rows.take i)) st)
    rows.length
    (by
      intro i st hi hinv
      beta_reduce at hinv ⊢
      have hsplit : allCells rows
          = allCells (rows.take (i + 1)) ++ allCells (rows.drop (i + 1)) := by
        rw [← allCells_append, List.take_append_drop]
      rw [hsplit] at hnodup
      have hpre := (List.nodup_append.mp hnodup).1
      rw [allCells_take_succ rows i hi] at hpre
      obtain ⟨_, hcells, hdisj⟩ := List.nodup_append.mp hpre
      have hsub : ∀ x ∈ (rows.getD i default).cells, x ∈ allCells rows := by
        intro x hx
        rw [hsplit, allCells_take_succ rows i hi]
        exact List.mem_append_left _ (List.mem_append_right _ hx)
      have := placeCells_inv rows h0 (maxColsOf h0 rows) i (rows.getD i default).cells 0 st
        (allCells (rows.take i)) hinv
        (fun x hx => halloc x (hsub x hx))
        (fun x hx hmem => hdisj hmem hx)
        hcells
      refine this.mono ?_
      intro p hp
      rw [allCells_take_succ rows i hi]
      rcases List.mem_append.mp hp with h | h
      · exact List.mem_append_right _ h
      · exact List.mem_append_left _ h)
    (List.replicate rows.length (List.replicate (maxColsOf h0 rows) none), h0)
    { rowsLen := by simp
      colsLen := fun i hi => by
        simp [List.getD_eq_getElem?_getD, List.getElem?_replicate, hi]
      next := le_refl _
      alloc := fun r c p h => by
        rw [Grid.get_replicate] at h
        cases h
      inj := fun r r' c c' p h _ => by
        rw [Grid.get_replicate] at h
        cases h
      height := fun r c p h => by
        rw [Grid.get_replicate] at h
        cases h
      anchor := fun r c p h _ => by
        rw [Grid.get_replicate] at h
        cases h
      spanned := fun r c p h _ => by
        rw [Grid.get_replicate] at h
        cases h
      input := fun p _ => rfl }
  beta_reduce at hfinal
  rw [List.take_length] at hfinal
  exact hfinal

/-! ## Claim on the row heights -/

/-- The measured height of a cell does not depend on its `width` field. -/
theorem measureCell_congr_width (style : TableStyle) (colWidths : List ℚ) (numCols col : Nat)
    (a b : TableCell) (h : a.withWidth 0 = b.withWidth 0) :
    measureCell style colWidths numCols col a = measureCell style colWidths numCols col b := by
  have ha : measureCell style colWidths numCols col (a.withWidth 0)
      = measureCell style colWidths numCols col a := rfl
  have hb : measureCell style colWidths numCols col (b.withWidth 0)
      = measureCell style colWidths numCols col b := rfl
  rw [← ha, h, hb]

/-- With non-negative line height and line spacing the wrapped block height
is not negative. -/
theorem wrapText_totalHeight_nonneg (w : AdvancedTextWrapper) (text : Str)
    (options : WrappingOptions) (r : WrappedTextResult)
    (h : w.wrapText text options = some r) (hlh : 0 ≤ w.mLineHeight) (hls : 0 ≤ w.mLineSpace) :
    0 ≤ r.totalHeight := by
  unfold AdvancedTextWrapper.wrapText at h
  cases hloop : wrapLoop w options (splitWords text) [] 0 w.emptyResult with
  | none => rw [hloop] at h; cases h
  | some st =>
    obtain ⟨currentLine, currentLineWidth, result⟩ := st
    rw [hloop] at h
    obtain ⟨_, h2, _, _⟩ := wrapLoop_totalHeight w options _ _ _ _ _ hloop
    simp only [AdvancedTextWrapper.emptyResult, List.length_nil, Nat.cast_zero, sub_zero,
      zero_add] at h2
    have hres : 0 ≤ result.totalHeight := by
      rw [h2]
      have : (0 : ℚ) ≤ (result.lines.length : ℚ) := Nat.cast_nonneg _
      positivity
    simp only at h
    split at h
    · simp only [Option.some.injEq] at h
      rw [← h]
      simp only
      linarith
    · simp only [Option.some.injEq] at h
      rw [← h]
      exact hres

/-- A measured cell is at least twice the padding high when its font has a
non-negative line height. -/
theorem measureCell_ge (style : TableStyle) (colWidths : List ℚ) (numCols col : Nat)
    (cell : TableCell) (t : ℚ)
    (h : measureCell style colWidths numCols col cell = some t)
    (hlh : 0 ≤ (cellWrapper style cell).mLineHeight) : style.cellPadding * 2 ≤ t := by
  unfold measureCell at h
  split at h
  · cases h
  · rename_i dimension hd
    simp only [Option.some.injEq] at h
    have := wrapText_totalHeight_nonneg _ _ _ _ hd hlh (by
      show (0 : ℚ) ≤ (cellWrapper style cell).mLineSpace
      simp [cellWrapper, AdvancedTextWrapper.mk'])
    linarith

/-- C3: take rows whose cells are pairwise distinct objects not marked as
placeholders, a table style with non-negative padding and fonts with
non-negative line height, and let `BuildCellGrid` build the grid. Whenever the
column widths are solved and every cell text can be wrapped,
`CalculateCellPositions` returns, and afterwards in every grid row all cells
(anchors and placeholders) have one common height `M`; `M` bounds
`max(declared row height, wrapped text height + 2 × cellPadding)` of every
cell anchored in the row, and equals it for one of them when the row has an
anchored cell. -/
theorem CalculateCellPositions_row_heights (style : TableStyle) (rows : List TableRow)
    (h0 : Heap) (tableWidth : ℚ) (grid : Grid) (h1 : Heap) (colWidths : List ℚ)
    (hnodup : (allCells rows).Nodup)
    (halloc : ∀ p ∈ allCells rows, p < h0.next)
    (hinput : ∀ p ∈ allCells rows, (h0.cell p).isSpanned = false)
    (hpad : 0 ≤ style.cellPadding)
    (hbuild : BuildCellGrid rows h0 = (grid, h1))
    (hcw : solveColumnWidths h1 grid tableWidth = some colWidths)
    (hwrap : ∀ r c p, grid.get r c = some p →
      0 ≤ (cellWrapper style (h1.cell p)).mLineHeight ∧
      ∃ t, measureCell style colWidths (grid.getD 0 []).length c (h1.cell p) = some t) :
    ∃ positions heap,
      CalculateCellPositions style grid tableWidth h1 = some (positions, heap) ∧
      ∀ r, ∃ M : ℚ,
        (∀ c p, grid.get r c = some p → (heap.cell p).height = M) ∧
        (∀ c p t, grid.get r c = some p → (heap.cell p).isSpanned = false →
          measureCell style colWidths (grid.getD 0 []).length c (heap.cell p) = some t →
          max (rows.getD r default).height t ≤ M) ∧
        ((∃ c p, grid.get r c = some p ∧ (heap.cell p).isSpanned = false) →
          ∃ c p t, grid.get r c = some p ∧ (heap.cell p).isSpanned = false ∧
            measureCell style colWidths (grid.getD 0 []).length c (heap.cell p) = some t ∧
            M = max (rows.getD r default).height t) := by
  have hinv := BuildCellGrid_inv rows h0 hnodup halloc
  rw [hbuild] at hinv
  have hlen : grid.length = rows.length := hinv.rowsLen
  -- every slot lies inside the loops of `CalculateCellPositions`
  have hbounds : ∀ r c p, grid.get r c = some p →
      r < grid.length ∧ c < (grid.getD 0 []).length := by
    intro r c p h
    obtain ⟨hr, hc⟩ := Grid.get_some_bounds grid r c p h
    refine ⟨hr, ?_⟩
    rw [hinv.colsLen r (by omega)] at hc
    rw [hinv.colsLen 0 (by omega)]
    exact hc
  have hw := writeBackWidths_same grid grid.length (grid.getD 0 []).length colWidths h1
  have hmeasEq : ∀ c p, measureCell style colWidths (grid.getD 0 []).length c
      ((writeBackWidths grid grid.length (grid.getD 0 []).length colWidths h1).cell p)
      = measureCell style colWidths (grid.getD 0 []).length c (h1.cell p) :=
    fun c p => measureCell_congr_width style colWidths _ c _ _ (hw p)
  have htOf : ∀ r c p t, grid.get r c = some p →
      measureCell style colWidths (grid.getD 0 []).length c (h1.cell p) = some t →
      measuredAt style colWidths (grid.getD 0 []).length grid h1 r c = t := by
    intro r c p t hg ht
    simp only [measuredAt, hg, ht, Option.getD_some]
  obtain ⟨heap, hres, hsame, hfinal⟩ := resolveRowHeights_spec style grid colWidths grid.length
    (grid.getD 0 []).length (fun r => (rows.getD r default).height)
    (measuredAt style colWidths (grid.getD 0 []).length grid h1)
    (writeBackWidths grid grid.length (grid.getD 0 []).length colWidths h1)
    (fun r r' c c' p _ _ _ _ h h' => hinv.inj r r' c c' p h h')
    (fun r c p _ _ h => by
      obtain ⟨hlh, t, ht⟩ := hwrap r c p h
      rw [hmeasEq, htOf r c p t h ht]
      refine ⟨ht, ?_⟩
      have := measureCell_ge style colWidths _ c _ t ht hlh
      linarith)
    (fun r c p _ _ h => by
      have := congrArg TableCell.height (hw p)
      simp only [TableCell.withWidth] at this
      rw [this]
      exact hinv.height r c p h)
  have hcellEq : ∀ p, (heap.cell p).withHeight 0
      = ((writeBackWidths grid grid.length (grid.getD 0 []).length colWidths h1).cell
          p).withHeight 0 := hsame
  have hspannedEq : ∀ p, (heap.cell p).isSpanned = (h1.cell p).isSpanned := by
    intro p
    have e1 := congrArg TableCell.isSpanned (hcellEq p)
    have e2 := congrArg TableCell.isSpanned (hw p)
    simp only [TableCell.withHeight, TableCell.withWidth] at e1 e2
    rw [e1, e2]
  have hmeasFinal : ∀ c p, measureCell style colWidths (grid.getD 0 []).length c (heap.cell p)
      = measureCell style colWidths (grid.getD 0 []).length c (h1.cell p) := by
    intro c p
    rw [measureCell_congr style colWidths _ c _ _ (hcellEq p), hmeasEq]
  -- a cell of the grid marked as spanned is a placeholder: it measures twice the padding
  have hplaceholder : ∀ r c p, grid.get r c = some p → (h1.cell p).isSpanned = true →
      measuredAt style colWidths (grid.getD 0 []).length grid h1 r c
        = style.cellPadding * 2 := by
    intro r c p hg hsp
    have hge : h0.next ≤ p := by
      by_contra hlt
      have hlt' : p < h0.next := Nat.lt_of_not_le hlt
      have hin := hinv.input p hlt'
      have e := congrArg TableCell.isSpanned hin
      simp only at e
      rw [e, hinput p (hinv.anchor r c p hg hlt')] at hsp
      cases hsp
    have hcontent := (hinv.spanned r c p hg hge).2
    exact htOf r c p _ hg (measureCell_empty style colWidths _ c _ hcontent)
  refine ⟨buildPositions style grid colWidths grid.length (grid.getD 0 []).length heap, heap,
    ?_, ?_⟩
  · unfold CalculateCellPositions
    by_cases hempty : grid.isEmpty = true
    · have hnil : grid = [] := List.isEmpty_iff.mp hempty
      subst hnil
      have hh : heap = h1 := by
        simp [resolveRowHeights, writeBackWidths] at hres
        exact hres.symm
      rw [if_pos hempty, hh]
      rfl
    · rw [if_neg hempty]
      simp only [hcw, hres]
  · intro r
    by_cases hr : r < grid.length
    · obtain ⟨M, hM1, hM2⟩ := hfinal r hr
      refine ⟨M, ?_, ?_, ?_⟩
      · intro c p hg
        exact (hM1 c p (hbounds r c p hg).2 hg).1
      · intro c p t hg _ ht
        rw [hmeasFinal] at ht
        have := (hM1 c p (hbounds r c p hg).2 hg).2
        rw [htOf r c p t hg ht] at this
        exact this
      · intro hex
        obtain ⟨ca, pa, hga, hspa⟩ := hex
        obtain ⟨_, ta, hta⟩ := hwrap r ca pa hga
        have hta_ge := measureCell_ge style colWidths _ ca _ ta hta (hwrap r ca pa hga).1
        have hbound_a := (hM1 ca pa (hbounds r ca pa hga).2 hga).2
        rw [htOf r ca pa ta hga hta] at hbound_a
        obtain ⟨c, p, _, hg, hMeq⟩ := hM2 ⟨ca, pa, (hbounds r ca pa hga).2, hga⟩
        by_cases hsp : (h1.cell p).isSpanned = true
        · refine ⟨ca, pa, ta, hga, hspa, by rw [hmeasFinal]; exact hta, ?_⟩
          rw [hplaceholder r c p hg hsp] at hMeq
          apply le_antisymm _ hbound_a
          rw [hMeq]
          exact max_le_max (le_refl _) hta_ge
        · obtain ⟨_, t, ht⟩ := hwrap r c p hg
          refine ⟨c, p, t, hg, ?_, by rw [hmeasFinal]; exact ht, ?_⟩
          · rw [hspannedEq]
            simpa using hsp
          · rw [htOf r c p t hg ht] at hMeq
            exact hMeq
    · refine ⟨0, ?_, ?_, ?_⟩
      · intro c p hg
        exact absurd (hbounds r c p hg).1 hr
      · intro c p t hg
        exact absurd (hbounds r c p hg).1 hr
      · intro ⟨c, p, hg, _⟩
        exact absurd (hbounds r c p hg).1 hr

/-- C3 (witness): the table of the worked example (five distinct cells without
content, padding 4, line height 10). -/
theorem CalculateCellPositions_row_heights_witness :
    (allCells exampleRows).Nodup ∧
    BuildCellGrid exampleRows exampleHeap = (exampleGrid, ⟨exampleCellsBuilt, 6⟩) ∧
    ∃ positions heap,
      CalculateCellPositions exampleStyle exampleGrid 300 ⟨exampleCellsBuilt, 6⟩
        = some (positions, heap) ∧
      ∀ r, ∃ M : ℚ,
        (∀ c p, exampleGrid.get r c = some p → (heap.cell p).height = M) ∧
        (∀ c p t, exampleGrid.get r c = some p → (heap.cell p).isSpanned = false →
          measureCell exampleStyle [125, 50, 125] (exampleGrid.getD 0 []).length c (heap.cell p)
            = some t →
          max (exampleRows.getD r default).height t ≤ M) ∧
        ((∃ c p, exampleGrid.get r c = some p ∧ (heap.cell p).isSpanned = false) →
          ∃ c p t, exampleGrid.get r c = some p ∧ (heap.cell p).isSpanned = false ∧
            measureCell exampleStyle [125, 50, 125] (exampleGrid.getD 0 []).length c
              (heap.cell p) = some t ∧
            M = max (exampleRows.getD r default).height t) := by
  have hcells : allCells exampleRows = [0, 1, 2, 3, 4] := by decide
  have hnodup : (allCells exampleRows).Nodup := by rw [hcells]; decide
  have hbuilt : ∀ p, (exampleCellsBuilt p).font = none ∧ (exampleCellsBuilt p).content = [] ∧
      (exampleCellsBuilt p).fontSize = -1 := by
    intro p
    unfold exampleCellsBuilt
    split <;> exact ⟨rfl, rfl, rfl⟩
  refine ⟨hnodup, BuildCellGrid_example, ?_⟩
  exact CalculateCellPositions_row_heights exampleStyle exampleRows exampleHeap 300 exampleGrid
    ⟨exampleCellsBuilt, 6⟩ [125, 50, 125] hnodup
    (by
      rw [hcells]
      intro p hp
      simp only [List.mem_cons, List.mem_singleton, List.not_mem_nil, or_false] at hp
      show p < 5
      rcases hp with h | h | h | h | h <;> subst h <;> decide)
    (by
      rw [hcells]
      intro p hp
      simp only [List.mem_cons, List.mem_singleton, List.not_mem_nil, or_false] at hp
      rcases hp with h | h | h | h | h <;> subst h <;> rfl)
    (by norm_num [exampleStyle])
    BuildCellGrid_example solveColumnWidths_example
    (by
      intro r c p _
      constructor
      · simp [cellWrapper, AdvancedTextWrapper.mk', (hbuilt p).1, exampleStyle, exampleFont]
      · exact ⟨_, measureCell_empty exampleStyle _ _ _ _ (hbuilt p).2.1⟩)

/-! ## Claim on the explicit column widths -/

/-- C11 (failing input, the worked example): the only anchor of grid column 0
that declares a width is the header cell at address 0, with width 100 (the
spanning cell below it declares none). The explicit width scan records
[100, 50, 100]; as 100 is also the flexible value 300 / 3, the redistribution
adds 25 to column 0: its solved width is 125, not the declared 100. -/
theorem solveColumnWidths_explicit_changed :
    exampleGrid.get 0 0 = some 0 ∧ (exampleCellsBuilt 0).width = 100 ∧
    exampleGrid.get 1 0 = some 3 ∧ (exampleCellsBuilt 3).width = 0 ∧
    explicitWidths ⟨exampleCellsBuilt, 6⟩ exampleGrid 2 3 (List.replicate 3 (300 / 3))
      = some [100, 50, 100] ∧
    distributeFlexible 300 (300 / 3) [100, 50, 100] = [125, 50, 125] ∧
    (solveColumnWidths ⟨exampleCellsBuilt, 6⟩ exampleGrid 300).map (fun cw => cw.getD 0 0)
      = some 125 := by
  refine ⟨rfl, rfl, rfl, rfl, ?_, ?_, ?_⟩
  · simp only [explicitWidths, List.range, List.range.loop, List.foldlM, exampleGrid]
    simp [explicitWidthsRow, Grid.get, exampleCellsBuilt]
    norm_num
  · simp [distributeFlexible, sumWidthsOf, fixWidthCountOf]
    norm_num
  · rw [solveColumnWidths_example]
    rfl

/-! ## Claims on the guards of the column width solver -/

/-- The solver with explicit quotients agrees with the solver whenever no
quotient has a zero divisor. -/
theorem solveColumnWidthsChecked_ok (heap : Heap) (grid : Grid) (tableWidth : ℚ)
    (colWidths : List ℚ)
    (h : solveColumnWidthsChecked heap grid tableWidth = .ok colWidths) :
    solveColumnWidths heap grid tableWidth = some colWidths := by
  unfold solveColumnWidthsChecked divChecked at h
  unfold solveColumnWidths
  split at h
  · cases h
  · rename_i fixWidth hfix
    split at hfix
    · cases hfix
    · simp only [Except.ok.injEq] at hfix
      subst hfix
      simp only
      cases hexp : explicitWidths heap grid grid.length (grid.getD 0 []).length
          (List.replicate (grid.getD 0 []).length (tableWidth / ((grid.getD 0 []).length : ℚ))) with
      | none => rw [hexp] at h; cases h
      | some cw =>
        rw [hexp] at h
        simp only at h
        unfold distributeFlexibleChecked divChecked at h
        split at h
        · cases h
        · rename_i diff hdiff
          split at hdiff
          · cases hdiff
          · simp only [Except.ok.injEq] at hdiff h
            subst hdiff
            rw [← h]
            rfl

/-- C12: take a grid with at least one column on which the explicit width
scan ends with every column away from the flexible value
`tableWidth / numCols` (fixWidthCount = 0). The solver does not skip the
redistribution: it evaluates `(tableWidth - sumWidths) / fixWidthCount` with
the divisor 0. The quotient is added to no column, so that the widths that
come out are the scanned ones. -/
theorem solveColumnWidths_zero_flexible_divides (heap : Heap) (grid : Grid) (tableWidth : ℚ)
    (colWidths : List ℚ)
    (hcols : 0 < (grid.getD 0 []).length)
    (hscan : explicitWidths heap grid grid.length (grid.getD 0 []).length
      (List.replicate (grid.getD 0 []).length (tableWidth / ((grid.getD 0 []).length : ℚ)))
      = some colWidths)
    (hnone : ∀ w ∈ colWidths, w ≠ tableWidth / ((grid.getD 0 []).length : ℚ)) :
    fixWidthCountOf (tableWidth / ((grid.getD 0 []).length : ℚ)) colWidths = 0 ∧
    solveColumnWidthsChecked heap grid tableWidth = .error .zeroDivisor ∧
    solveColumnWidths heap grid tableWidth = some colWidths := by
  have hcount : fixWidthCountOf (tableWidth / ((grid.getD 0 []).length : ℚ)) colWidths = 0 := by
    rw [fixWidthCountOf_eq_count]
    have : colWidths.count (tableWidth / ((grid.getD 0 []).length : ℚ)) = 0 :=
      List.count_eq_zero.mpr (fun hmem => hnone _ hmem rfl)
    rw [this]
    rfl
  have hne : ((grid.getD 0 []).length : ℚ) ≠ 0 := by
    exact_mod_cast (Nat.pos_iff_ne_zero.mp hcols)
  refine ⟨hcount, ?_, ?_⟩
  · simp only [solveColumnWidthsChecked, divChecked, if_neg hne, hscan,
      distributeFlexibleChecked, hcount, ↓reduceIte]
  · simp only [solveColumnWidths, hscan, distributeFlexible_none tableWidth _ colWidths hcount]

/-- C12 (failing input): one row of two cells with the explicit widths 100 and
50 and tableWidth 300 (flexible value 150). -/
theorem solveColumnWidths_zero_flexible_divides_witness :
    fixWidthCountOf (300 / 2) [100, 50] = 0 ∧
    solveColumnWidthsChecked (twoWidthHeap 100 50) [[some 0, some 1]] 300
      = .error .zeroDivisor ∧
    solveColumnWidths (twoWidthHeap 100 50) [[some 0, some 1]] 300 = some [100, 50] := by
  have h := solveColumnWidths_zero_flexible_divides (twoWidthHeap 100 50) [[some 0, some 1]] 300
    [100, 50] (by decide)
    (by
      simp only [explicitWidths, List.range, List.range.loop, List.foldlM,
        List.getD_cons_zero, List.length]
      simp [explicitWidthsRow, Grid.get, twoWidthHeap])
    (by
      intro w hw
      simp only [List.mem_cons, List.mem_singleton, List.not_mem_nil, or_false] at hw
      rcases hw with h | h <;> subst h <;> norm_num)
  simpa using h

/-! ## Claim on rows without cells -/

/-- C20 (failing input): one row without cells. `BuildCellGrid` returns the
grid of one row and zero columns. `CalculateCellPositions` then evaluates
`tableWidth / numCols` with `numCols = 0`. `DrawRowsOnPage` reads
`row.cells[0]` of the empty cell list before any check, `GetHeaderHeight` does
the same for a header row, and so the whole of `DrawTableWithPageBreaks` ends
in the out-of-range access. -/
theorem empty_row_not_tolerated :
    BuildCellGrid emptyRow (plainHeap 0) = ([[]], plainHeap 0) ∧
    solveColumnWidthsChecked (plainHeap 0) [[]] 300 = .error .zeroDivisor ∧
    CalculateCellPositions exampleStyle [[]] 300 (plainHeap 0) = some ([], plainHeap 0) ∧
    (exampleTable.DrawRowsOnPage (plainHeap 0) emptyRow [] 0 700 0).rowsDrawn = none ∧
    GetHeaderHeight (plainHeap 0) [{ cells := [], isHeader := true }] = none ∧
    (examplePdf.DrawTableWithPageBreaks true exampleTable (plainHeap 0) emptyRow 0 700 300).map
      (fun out => out.1.ret) = some none := by
  have hbuild : BuildCellGrid emptyRow (plainHeap 0) = ([[]], plainHeap 0) := by
    simp [BuildCellGrid, emptyRow, maxColsOf, placeCells, List.range, List.range.loop]
  have hpos : ∀ style : TableStyle,
      CalculateCellPositions style [[]] 300 (plainHeap 0) = some ([], plainHeap 0) := by
    intro style
    simp [CalculateCellPositions, solveColumnWidths, explicitWidths, explicitWidthsRow,
      distributeFlexible, writeBackWidths, resolveRowHeights, rowHeightsRow, buildPositions,
      List.range, List.range.loop]
  refine ⟨hbuild, ?_, hpos _, ?_, ?_, ?_⟩
  · simp [solveColumnWidthsChecked, divChecked]
  · simp [PDFTable.DrawRowsOnPage, emptyRow, drawRowsLoop, firstCellHeight]
  · simp [GetHeaderHeight, firstCellHeight]
  · simp only [PDFCreator.DrawTableWithPageBreaks, hbuild, hpos]
    rw [PDFCreator.DrawTableOnPages, tablePagesLoop]
    simp [emptyRow, pageAttempt, drawPage, examplePdf, PDFTable.DrawRowsOnPage, drawRowsLoop,
      firstCellHeight]

/-! ## Shape of the grid -/

theorem claimSlot_shape (rows : List TableRow) (h0 : Heap) (maxCols rowIdx colIdx : Nat)
    (cell : Ptr) (r c : Nat) (st : Grid × Heap) (hinv : ShapeInv rows h0 maxCols st) :
    ShapeInv rows h0 maxCols (claimSlot rows rowIdx colIdx cell r c st) := by
  unfold claimSlot
  split
  · exact
      { rowsLen := by rw [Grid.set_length]; exact hinv.rowsLen
        colsLen := fun i hi => by rw [Grid.set_row_length]; exact hinv.colsLen i hi
        next := hinv.next
        spans := fun p hp => by
          by_cases hpc : p = cell
          · subst hpc
            rw [Heap.modify_cell_same]
            exact hinv.spans p hp
          · rw [Heap.modify_cell_other _ _ _ _ hpc]
            exact hinv.spans p hp }
  · exact
      { rowsLen := by rw [Grid.set_length]; exact hinv.rowsLen
        colsLen := fun i hi => by rw [Grid.set_row_length]; exact hinv.colsLen i hi
        next := Nat.le_succ_of_le hinv.next
        spans := fun p hp => by
          have hne : p ≠ st.2.next := Nat.ne_of_lt (Nat.lt_of_lt_of_le hp hinv.next)
          simp only [Heap.alloc, Function.update_noteq hne]
          exact hinv.spans p hp }

theorem claimSpan_shape (rows : List TableRow) (h0 : Heap) (maxCols rowIdx colIdx : Nat)
    (cell : Ptr) (st : Grid × Heap) (hinv : ShapeInv rows h0 maxCols st) :
    ShapeInv rows h0 maxCols (claimSpan rows maxCols rowIdx colIdx cell st) := by
  unfold claimSpan
  refine foldl_range_invariant _ (fun _ s => ShapeInv rows h0 maxCols s) _ ?_ st hinv
  intro r s _ hs
  exact foldl_range_invariant _ (fun _ s' => ShapeInv rows h0 maxCols s') _
    (fun c s' _ hs' => claimSlot_shape rows h0 maxCols rowIdx colIdx cell r c s' hs') s hs

theorem placeCells_shape (rows : List TableRow) (h0 : Heap) (maxCols rowIdx : Nat) :
    ∀ (cells : List Ptr) (colIdx : Nat) (st : Grid × Heap), ShapeInv rows h0 maxCols st →
      ShapeInv rows h0 maxCols (placeCells rows maxCols rowIdx cells colIdx st) := by
  intro cells
  induction cells with
  | nil =>
    intro colIdx st hinv
    exact hinv
  | cons cell cells ih =>
    intro colIdx st hinv
    unfold placeCells
    simp only
    split
    · exact hinv
    · exact ih _ _ (claimSpan_shape rows h0 maxCols rowIdx _ cell st hinv)

theorem BuildCellGrid_keeps_shape (rows : List TableRow) (h0 : Heap) :
    ShapeInv rows h0 (maxColsOf h0 rows) (BuildCellGrid rows h0) := by
  unfold BuildCellGrid
  refine foldl_range_invariant _ (fun _ s => ShapeInv rows h0 (maxColsOf h0 rows) s) _ ?_ _ ?_
  · intro i s _ hs
    exact placeCells_shape rows h0 (maxColsOf h0 rows) i _ 0 s hs
  · exact
      { rowsLen := by simp
        colsLen := fun i hi => by
          simp [List.getD_eq_getElem?_getD, List.getElem?_replicate, hi]
        next := le_refl _
        spans := fun _ _ => ⟨rfl, rfl⟩ }

theorem foldl_colspan_eq (heap : Heap) (cells : List Ptr) : ∀ acc : Nat,
    cells.foldl (fun colCount cell => colCount + (heap.cell cell).colspan) acc
      = acc + (cells.map (fun c => (heap.cell c).colspan)).sum := by
  induction cells with
  | nil => intro acc; simp
  | cons c cs ih =>
    intro acc
    simp only [List.foldl_cons, List.map_cons, List.sum_cons]
    rw [ih]
    omega

theorem foldl_maxCols_spec (heap : Heap) (rows : List TableRow) : ∀ acc : Nat,
    acc ≤ rows.foldl (fun maxCols row => max maxCols (colspanSum heap row)) acc ∧
    (∀ row ∈ rows, colspanSum heap row
      ≤ rows.foldl (fun maxCols row => max maxCols (colspanSum heap row)) acc) ∧
    (rows.foldl (fun maxCols row => max maxCols (colspanSum heap row)) acc = acc ∨
      ∃ row ∈ rows, colspanSum heap row
        = rows.foldl (fun maxCols row => max maxCols (colspanSum heap row)) acc) := by
  induction rows with
  | nil => intro acc; simp
  | cons row rest ih =>
    intro acc
    simp only [List.foldl_cons, List.mem_cons, forall_eq_or_imp, exists_eq_or_imp]
    obtain ⟨h1, h2, h3⟩ := ih (max acc (colspanSum heap row))
    refine ⟨le_trans (le_max_left _ _) h1, ⟨le_trans (le_max_right _ _) h1, h2⟩, ?_⟩
    rcases h3 with h3 | h3
    · rw [h3]
      rcases le_total acc (colspanSum heap row) with hle | hle
      · right; left
        rw [max_eq_right hle]
      · left
        rw [max_eq_left hle]
    · right; right
      exact h3

theorem maxColsOf_eq (heap : Heap) (rows : List TableRow) :
    maxColsOf heap rows = rows.foldl (fun maxCols row => max maxCols (colspanSum heap row)) 0 := by
  unfold maxColsOf colspanSum
  congr 1
  funext maxCols row
  rw [foldl_colspan_eq, Nat.zero_add]

/-- C14: for every row list, the grid of `BuildCellGrid` has `rows.size()`
rows, and all of them have one length `n`, which is the maximum over the rows
of the sum of the colspans of the row's cells: no row has a larger sum, one
row has the sum `n` when there are rows (and `n = 0` when there is none). -/
theorem BuildCellGrid_shape (rows : List TableRow) (heap : Heap) :
    (BuildCellGrid rows heap).1.length = rows.length ∧
    ∃ n : Nat,
      (∀ gridRow ∈ (BuildCellGrid rows heap).1, gridRow.length = n) ∧
      (∀ row ∈ rows, colspanSum heap row ≤ n) ∧
      (rows ≠ [] → ∃ row ∈ rows, colspanSum heap row = n) ∧
      (rows = [] → n = 0) := by
  have hinv := BuildCellGrid_keeps_shape rows heap
  obtain ⟨_, hle, hatt⟩ := foldl_maxCols_spec heap rows 0
  rw [← maxColsOf_eq] at hle hatt
  refine ⟨hinv.rowsLen, maxColsOf heap rows, ?_, hle, ?_, ?_⟩
  · intro gridRow hmem
    obtain ⟨i, hi, hget⟩ := List.mem_iff_getElem.mp hmem
    have := hinv.colsLen i (by rw [← hinv.rowsLen]; exact hi)
    rw [List.getD_eq_getElem?_getD, List.getElem?_eq_getElem hi, Option.getD_some, hget] at this
    exact this
  · intro hne
    rcases hatt with h0 | h
    · obtain ⟨row, rest, hrows⟩ := List.exists_cons_of_ne_nil hne
      refine ⟨row, by rw [hrows]; exact List.mem_cons_self _ _, ?_⟩
      have := hle row (by rw [hrows]; exact List.mem_cons_self _ _)
      omega
    · exact h
  · intro hnil
    subst hnil
    rfl

/-! ## Populated slots -/

theorem Grid.keeps_refl (g : Grid) : g.keeps g := fun _ _ h => h

theorem Grid.keeps_trans {g g' g'' : Grid} (h : g.keeps g') (h' : g'.keeps g'') : g.keeps g'' :=
  fun r c hs => h' r c (h r c hs)

theorem Grid.keeps_set (g : Grid) (r c : Nat) (p : Ptr) : g.keeps (g.set r c (some p)) := by
  intro r' c' h
  rw [Grid.get_set]
  split
  · rfl
  · exact h

theorem Grid.get_set_self (g : Grid) (r c : Nat) (v : Option Ptr) (hr : r < g.length)
    (hc : c < (g.getD r []).length) : (g.set r c v).get r c = v := by
  rw [Grid.get_set, if_pos ⟨rfl, rfl, hr, hc⟩]

theorem claimSlot_keeps (rows : List TableRow) (rowIdx colIdx : Nat) (cell : Ptr) (r c : Nat)
    (st : Grid × Heap) : st.1.keeps (claimSlot rows rowIdx colIdx cell r c st).1 := by
  unfold claimSlot
  split
  · exact Grid.keeps_set _ _ _ _
  · exact Grid.keeps_set _ _ _ _

theorem claimSlot_sets (rows : List TableRow) (h0 : Heap) (maxCols rowIdx colIdx : Nat)
    (cell : Ptr) (r c : Nat) (st : Grid × Heap) (hinv : ShapeInv rows h0 maxCols st)
    (hr : rowIdx + r < rows.length) (hc : colIdx + c < maxCols) :
    ((claimSlot rows rowIdx colIdx cell r c st).1.get (rowIdx + r) (colIdx + c)).isSome = true := by
  have hr' : rowIdx + r < st.1.length := by rw [hinv.rowsLen]; exact hr
  have hc' : colIdx + c < (st.1.getD (rowIdx + r) []).length := by
    rw [hinv.colsLen _ hr]; exact hc
  unfold claimSlot
  split
  · rw [Grid.get_set_self _ _ _ _ hr' hc']
    rfl
  · rw [Grid.get_set_self _ _ _ _ hr' hc']
    rfl

/-- The loop `for c` of `BuildCellGrid` for one offset `r`: the slots of grid
row `rowIdx + r` in the columns `colIdx, …, colIdx + n - 1` of the grid are
populated afterwards. -/
theorem claimRow_populated (rows : List TableRow) (h0 : Heap) (maxCols rowIdx colIdx : Nat)
    (cell : Ptr) (r n : Nat) (st : Grid × Heap) (hinv : ShapeInv rows h0 maxCols st)
    (hr : rowIdx + r < rows.length) :
    ShapeInv rows h0 maxCols
      ((List.range n).foldl (fun st c => claimSlot rows rowIdx colIdx cell r c st) st) ∧
    st.1.keeps ((List.range n).foldl (fun st c => claimSlot rows rowIdx colIdx cell r c st) st).1 ∧
    ∀ c, c < n → colIdx + c < maxCols →
      (((List.range n).foldl (fun st c => claimSlot rows rowIdx colIdx cell r c st) st).1.get
        (rowIdx + r) (colIdx + c)).isSome = true := by
  refine foldl_range_invariant (fun st c => claimSlot rows rowIdx colIdx cell r c st)
    (fun j s => ShapeInv rows h0 maxCols s ∧ st.1.keeps s.1 ∧
      ∀ c, c < j → colIdx + c < maxCols → (s.1.get (rowIdx + r) (colIdx + c)).isSome = true)
    n ?_ st ⟨hinv, Grid.keeps_refl _, fun c hc => absurd hc (Nat.not_lt_zero c)⟩
  intro j s _ hs
  obtain ⟨hs1, hs2, hs3⟩ := hs
  refine ⟨claimSlot_shape rows h0 maxCols rowIdx colIdx cell r j s hs1,
    Grid.keeps_trans hs2 (claimSlot_keeps rows rowIdx colIdx cell r j s), ?_⟩
  intro c hc hcm
  by_cases hcj : c = j
  · subst hcj
    exact claimSlot_sets rows h0 maxCols rowIdx colIdx cell r c s hs1 hr hcm
  · exact claimSlot_keeps rows rowIdx colIdx cell r j s _ _ (hs3 c (by omega) hcm)

/-- The two loops `for r` / `for c` of `BuildCellGrid` for a cell of rowspan at
least 1: the slots of its own row under its colspan are populated afterwards,
and no slot was emptied. -/
theorem claimSpan_populated (rows : List TableRow) (h0 : Heap) (maxCols rowIdx colIdx : Nat)
    (cell : Ptr) (st : Grid × Heap) (hinv : ShapeInv rows h0 maxCols st)
    (hr : rowIdx < rows.length) (hcell : cell < h0.next) (hspan : 1 ≤ (h0.cell cell).rowspan) :
    ShapeInv rows h0 maxCols (claimSpan rows maxCols rowIdx colIdx cell st) ∧
    st.1.keeps (claimSpan rows maxCols rowIdx colIdx cell st).1 ∧
    ∀ c, c < (h0.cell cell).colspan → colIdx + c < maxCols →
      ((claimSpan rows maxCols rowIdx colIdx cell st).1.get rowIdx (colIdx + c)).isSome
        = true := by
  unfold claimSpan
  have hpos : 0 < min (st.2.cell cell).rowspan (rows.length - rowIdx) := by
    rw [(hinv.spans cell hcell).2]
    exact Nat.lt_min.mpr ⟨hspan, by omega⟩
  have key := foldl_range_invariant
    (fun st r =>
      (List.range (min (st.2.cell cell).colspan (maxCols - colIdx))).foldl
        (fun st c => claimSlot rows rowIdx colIdx cell r c st) st)
    (fun i s => ShapeInv rows h0 maxCols s ∧ st.1.keeps s.1 ∧
      (0 < i → ∀ c, c < (h0.cell cell).colspan → colIdx + c < maxCols →
        (s.1.get rowIdx (colIdx + c)).isSome = true))
    (min (st.2.cell cell).rowspan (rows.length - rowIdx))
    (by
      intro r s hrlt hs
      obtain ⟨hs1, hs2, hs3⟩ := hs
      have hrr : rowIdx + r < rows.length := by
        have := Nat.lt_min.mp hrlt
        omega
      obtain ⟨h1, h2, h3⟩ := claimRow_populated rows h0 maxCols rowIdx colIdx cell r
        (min (s.2.cell cell).colspan (maxCols - colIdx)) s hs1 hrr
      refine ⟨h1, Grid.keeps_trans hs2 h2, ?_⟩
      intro _ c hc hcm
      by_cases hr0 : r = 0
      · subst hr0
        have := h3 c (by
          rw [(hs1.spans cell hcell).1]
          exact Nat.lt_min.mpr ⟨hc, by omega⟩) hcm
        simpa using this
      · exact h2 _ _ (hs3 (by omega) c hc hcm))
    st ⟨hinv, Grid.keeps_refl _, fun h => absurd h (Nat.lt_irrefl 0)⟩
  exact ⟨key.1, key.2.1, key.2.2 hpos⟩

theorem skipClaimed_spec (grid : Grid) (rowIdx maxCols : Nat) :
    ∀ (fuel colIdx : Nat),
      colIdx ≤ skipClaimed grid rowIdx maxCols fuel colIdx ∧
      ∀ c, colIdx ≤ c → c < skipClaimed grid rowIdx maxCols fuel colIdx →
        (grid.get rowIdx c).isSome = true := by
  intro fuel
  induction fuel with
  | zero =>
    intro colIdx
    simp only [skipClaimed]
    exact ⟨le_refl _, fun c h1 h2 => absurd h2 (by omega)⟩
  | succ fuel ih =>
    intro colIdx
    simp only [skipClaimed]
    split
    · rename_i hcond
      obtain ⟨h1, h2⟩ := ih (colIdx + 1)
      refine ⟨by omega, ?_⟩
      intro c hc hlt
      by_cases hcc : c = colIdx
      · subst hcc
        exact hcond.2
      · exact h2 c (by omega) hlt
    · exact ⟨le_refl _, fun c h1 h2 => absurd h2 (by omega)⟩

/-- The loop over the cells of one row: when the slots of the row left of
`colIdx` are populated at the start, the slots left of `colIdx` plus the sum of
the colspans of the cells are populated at the end. -/
theorem placeCells_populated (rows : List TableRow) (h0 : Heap) (maxCols rowIdx : Nat)
    (hr : rowIdx < rows.length) :
    ∀ (cells : List Ptr) (colIdx : Nat) (st : Grid × Heap),
      ShapeInv rows h0 maxCols st →
      (∀ cell ∈ cells, cell < h0.next ∧ 1 ≤ (h0.cell cell).rowspan) →
      (∀ c, c < colIdx → c < maxCols → (st.1.get rowIdx c).isSome = true) →
      st.1.keeps (placeCells rows maxCols rowIdx cells colIdx st).1 ∧
      ∀ c, c < colIdx + (cells.map (fun x => (h0.cell x).colspan)).sum → c < maxCols →
        ((placeCells rows maxCols rowIdx cells colIdx st).1.get rowIdx c).isSome = true := by
  intro cells
  induction cells with
  | nil =>
    intro colIdx st _ _ hpop
    simp only [placeCells, List.map_nil, List.sum_nil, Nat.add_zero]
    exact ⟨Grid.keeps_refl _, hpop⟩
  | cons cell cells ih =>
    intro colIdx st hinv hcells hpop
    obtain ⟨hk1, hk2⟩ := skipClaimed_spec st.1 rowIdx maxCols maxCols colIdx
    have hbelow : ∀ c, c < skipClaimed st.1 rowIdx maxCols maxCols colIdx → c < maxCols →
        (st.1.get rowIdx c).isSome = true := by
      intro c hc hcm
      by_cases hcc : c < colIdx
      · exact hpop c hcc hcm
      · exact hk2 c (by omega) hc
    unfold placeCells
    simp only
    split
    · rename_i hbreak
      refine ⟨Grid.keeps_refl _, ?_⟩
      intro c _ hcm
      exact hbelow c (by omega) hcm
    · rename_i hnobreak
      obtain ⟨hc1, hc2⟩ := hcells cell (List.mem_cons_self _ _)
      obtain ⟨hs1, hs2, hs3⟩ := claimSpan_populated rows h0 maxCols rowIdx
        (skipClaimed st.1 rowIdx maxCols maxCols colIdx) cell st hinv hr hc1 hc2
      obtain ⟨ih1, ih2⟩ := ih
        (skipClaimed st.1 rowIdx maxCols maxCols colIdx
          + ((claimSpan rows maxCols rowIdx (skipClaimed st.1 rowIdx maxCols maxCols colIdx)
              cell st).2.cell cell).colspan)
        (claimSpan rows maxCols rowIdx (skipClaimed st.1 rowIdx maxCols maxCols colIdx) cell st)
        hs1 (fun x hx => hcells x (List.mem_cons_of_mem _ hx))
        (by
          intro c hc hcm
          rw [(hs1.spans cell hc1).1] at hc
          by_cases hck : c < skipClaimed st.1 rowIdx maxCols maxCols colIdx
          · exact hs2 _ _ (hbelow c hck hcm)
          · have := hs3 (c - skipClaimed st.1 rowIdx maxCols maxCols colIdx) (by omega)
              (by omega)
            rw [show skipClaimed st.1 rowIdx maxCols maxCols colIdx
                + (c - skipClaimed st.1 rowIdx maxCols maxCols colIdx) = c by omega] at this
            exact this)
      refine ⟨Grid.keeps_trans hs2 ih1, ?_⟩
      intro c hc hcm
      apply ih2 c _ hcm
      rw [(hs1.spans cell hc1).1]
      simp only [List.map_cons, List.sum_cons] at hc
      omega

/-! ## Claim on the density of the grid -/

theorem mem_allCells_of_row (rows : List TableRow) (i : Nat) (hi : i < rows.length) (p : Ptr)
    (hp : p ∈ (rows.getD i default).cells) : p ∈ allCells rows := by
  unfold allCells
  rw [List.mem_flatten]
  refine ⟨(rows.getD i default).cells, List.mem_map.mpr ⟨rows.getD i default, ?_, rfl⟩, hp⟩
  rw [List.getD_eq_getElem?_getD, List.getElem?_eq_getElem hi, Option.getD_some]
  exact List.getElem_mem hi

/-- C13 (counterexample): two rows of default cells, the first with two cells
and the second with one. The grid has two columns and the slot in row 1,
column 1 is left null. -/
theorem BuildCellGrid_dense_counterexample :
    (BuildCellGrid raggedRows (plainHeap 3)).1 = [[some 0, some 1], [some 2, none]] ∧
    (BuildCellGrid raggedRows (plainHeap 3)).1.get 1 1 = none := by
  have h : (BuildCellGrid raggedRows (plainHeap 3)).1 = [[some 0, some 1], [some 2, none]] := by
    simp [BuildCellGrid, raggedRows, plainHeap, maxColsOf, placeCells, skipClaimed, claimSpan,
      claimSlot, anchorCell, Grid.get, Grid.set, Heap.modify, List.range, List.range.loop,
      Function.update]
  exact ⟨h, by rw [h]; rfl⟩

/-- C13 (amended): for rows whose cells are allocated objects of rowspan at
least 1, every slot of grid row `r` in a column below the sum of the colspans
of the cells of row `r` is populated (so a row whose colspans add up to the
column count has no null slot); and when the cells are pairwise distinct, a
populated slot holds either a cell of the row list or a placeholder allocated
by `BuildCellGrid` and marked `isSpanned`. -/
theorem BuildCellGrid_populated (rows : List TableRow) (h0 : Heap)
    (halloc : ∀ p ∈ allCells rows, p < h0.next)
    (hrowspan : ∀ p ∈ allCells rows, 1 ≤ (h0.cell p).rowspan) :
    (∀ r c, r < rows.length → c < colspanSum h0 (rows.getD r default) →
      ((BuildCellGrid rows h0).1.get r c).isSome = true) ∧
    ((allCells rows).Nodup → ∀ r c p, (BuildCellGrid rows h0).1.get r c = some p →
      p ∈ allCells rows ∨
        (h0.next ≤ p ∧ ((BuildCellGrid rows h0).2.cell p).isSpanned = true)) := by
  constructor
  · have hmax : ∀ row ∈ rows, colspanSum h0 row ≤ maxColsOf h0 rows := by
      rw [maxColsOf_eq]
      exact (foldl_maxCols_spec h0 rows 0).2.1
    have key := foldl_range_invariant
      (fun st rowIdx =>
        placeCells rows (maxColsOf h0 rows) rowIdx (rows.getD rowIdx default).cells 0 st)
      (fun i s => ShapeInv rows h0 (maxColsOf h0 rows) s ∧
        ∀ r c, r < i → c < colspanSum h0 (rows.getD r default) → (s.1.get r c).isSome = true)
      rows.length
      (by
        intro i s hi hs
        obtain ⟨hs1, hs2⟩ := hs
        have hrow : rows.getD i default ∈ rows := by
          rw [List.getD_eq_getElem?_getD, List.getElem?_eq_getElem hi, Option.getD_some]
          exact List.getElem_mem hi
        obtain ⟨hk, hp⟩ := placeCells_populated rows h0 (maxColsOf h0 rows) i hi
          (rows.getD i default).cells 0 s hs1
          (fun cell hcell =>
            ⟨halloc cell (mem_allCells_of_row rows i hi cell hcell),
              hrowspan cell (mem_allCells_of_row rows i hi cell hcell)⟩)
          (fun c hc => absurd hc (Nat.not_lt_zero c))
        refine ⟨placeCells_shape rows h0 (maxColsOf h0 rows) i _ 0 s hs1, ?_⟩
        intro r c hr hc
        by_cases hri : r = i
        · subst hri
          have hle := hmax _ hrow
          apply hp c
          · rw [Nat.zero_add]
            exact hc
          · exact Nat.lt_of_lt_of_le hc hle
        · exact hk _ _ (hs2 r c (by omega) hc))
      (List.replicate rows.length (List.replicate (maxColsOf h0 rows) none), h0)
      ⟨{ rowsLen := by simp
         colsLen := fun i hi => by
           simp [List.getD_eq_getElem?_getD, List.getElem?_replicate, hi]
         next := le_refl _
         spans := fun _ _ => ⟨rfl, rfl⟩ },
        fun r c hr => absurd hr (Nat.not_lt_zero r)⟩
    intro r c hr hc
    exact key.2 r c hr hc
  · intro hnodup r c p hg
    have hinv := BuildCellGrid_inv rows h0 hnodup halloc
    by_cases hp : p < h0.next
    · exact Or.inl (hinv.anchor r c p hg hp)
    · exact Or.inr ⟨Nat.le_of_not_lt hp, (hinv.spanned r c p hg (Nat.le_of_not_lt hp)).1⟩

/-- C13 (witness): the worked example (five distinct cells of rowspan 1; both
rows have colspans adding up to 3). -/
theorem BuildCellGrid_populated_witness :
    (∀ r c, r < exampleRows.length → c < colspanSum exampleHeap (exampleRows.getD r default) →
      ((BuildCellGrid exampleRows exampleHeap).1.get r c).isSome = true) ∧
    ((allCells exampleRows).Nodup → ∀ r c p,
      (BuildCellGrid exampleRows exampleHeap).1.get r c = some p →
      p ∈ allCells exampleRows ∨
        (exampleHeap.next ≤ p ∧
          ((BuildCellGrid exampleRows exampleHeap).2.cell p).isSpanned = true)) := by
  have hcells : allCells exampleRows = [0, 1, 2, 3, 4] := by decide
  refine BuildCellGrid_populated exampleRows exampleHeap ?_ ?_
  · rw [hcells]
    intro p hp
    simp only [List.mem_cons, List.mem_singleton, List.not_mem_nil, or_false] at hp
    show p < 5
    rcases hp with h | h | h | h | h <;> subst h <;> decide
  · rw [hcells]
    intro p hp
    simp only [List.mem_cons, List.mem_singleton, List.not_mem_nil, or_false] at hp
    rcases hp with h | h | h | h | h <;> subst h <;> decide

/-! ## The cell positions -/

theorem foldl_range'_add (f : Nat → ℚ) : ∀ (n col : Nat) (acc : ℚ),
    (List.range' col n).foldl (fun acc c => acc + f c) acc
      = acc + Finset.sum (Finset.Ico col (col + n)) f := by
  intro n
  induction n with
  | zero => intro col acc; simp
  | succ n ih =>
    intro col acc
    rw [List.range'_succ, List.foldl_cons, ih,
      Finset.sum_eq_sum_Ico_succ_bot (by omega : col < col + (n + 1))]
    rw [show col + 1 + n = col + (n + 1) by omega]
    ring

/-- The width of a span is the sum of the column widths from `col` up to, and
without, `min (col + colspan) numCols`. -/
theorem spanWidth_eq_sum (colWidths : List ℚ) (numCols col colspan : Nat) :
    spanWidth colWidths numCols col colspan
      = Finset.sum (Finset.Ico col (min (col + colspan) numCols))
          (fun j => colWidths.getD j 0) := by
  unfold spanWidth
  rw [foldl_range'_add (fun j => colWidths.getD j 0), zero_add]
  by_cases h : col ≤ numCols
  · rw [show col + min colspan (numCols - col) = min (col + colspan) numCols by omega]
  · rw [show min colspan (numCols - col) = 0 by omega, Nat.add_zero,
      Finset.Ico_eq_empty (by omega), Finset.Ico_eq_empty (by omega)]

theorem foldl_const_add (x : ℚ) (l : List Nat) : ∀ acc : ℚ,
    l.foldl (fun acc _ => acc + x) acc = acc + l.length * x := by
  induction l with
  | nil => intro acc; simp
  | cons a l ih =>
    intro acc
    rw [List.foldl_cons, ih]
    push_cast [List.length_cons]
    ring

/-- The height of a position is the height of the cell itself (or the default
row height when that is not positive), once per spanned row. -/
theorem spanHeight_eq (style : TableStyle) (numRows row : Nat) (cell : TableCell) :
    spanHeight style numRows row cell
      = (min cell.rowspan (numRows - row) : Nat)
        * (if cell.height > 0 then cell.height else style.fontSize + 2 * style.cellPadding) := by
  unfold spanHeight
  by_cases h : cell.height > 0
  · simp only [h, ↓reduceIte]
    rw [foldl_const_add, zero_add, List.length_range']
  · simp only [h, ↓reduceIte]
    rw [foldl_const_add, zero_add, List.length_range']

/-- The positions built by the last loops of `CalculateCellPositions`: one for
every populated slot inside the loop bounds, with the width and the height
that the two inner loops add up. -/
theorem buildPositions_spec (style : TableStyle) (grid : Grid) (colWidths : List ℚ)
    (numRows numCols : Nat) (heap : Heap) :
    (∀ pos ∈ buildPositions style grid colWidths numRows numCols heap,
      grid.get pos.row pos.col = some pos.cell ∧
      pos.width = spanWidth colWidths numCols pos.col (heap.cell pos.cell).colspan ∧
      pos.height = spanHeight style numRows pos.row (heap.cell pos.cell)) ∧
    (∀ r c p, r < numRows → c < numCols → grid.get r c = some p →
      ∃ pos ∈ buildPositions style grid colWidths numRows numCols heap,
        pos.row = r ∧ pos.col = c ∧ pos.cell = p) := by
  unfold buildPositions
  have key := foldl_range_invariant
    (fun positions row =>
      (List.range numCols).foldl
        (fun positions col =>
          match grid.get row col with
          | none => positions
          | some p =>
            positions ++
              [{ row := row, col := col
                 width := spanWidth colWidths numCols col (heap.cell p).colspan
                 height := spanHeight style numRows row (heap.cell p)
                 cell := p }])
        positions)
    (fun i (ps : List CellPosition) =>
      (∀ pos ∈ ps, grid.get pos.row pos.col = some pos.cell ∧
        pos.width = spanWidth colWidths numCols pos.col (heap.cell pos.cell).colspan ∧
        pos.height = spanHeight style numRows pos.row (heap.cell pos.cell)) ∧
      (∀ r c p, r < i → c < numCols → grid.get r c = some p →
        ∃ pos ∈ ps, pos.row = r ∧ pos.col = c ∧ pos.cell = p))
    numRows
    (by
      intro row ps _ hps
      have inner := foldl_range_invariant
        (fun positions col =>
          match grid.get row col with
          | none => positions
          | some p =>
            positions ++
              [{ row := row, col := col
                 width := spanWidth colWidths numCols col (heap.cell p).colspan
                 height := spanHeight style numRows row (heap.cell p)
                 cell := p }])
        (fun j (qs : List CellPosition) =>
          (∀ pos ∈ qs, grid.get pos.row pos.col = some pos.cell ∧
            pos.width = spanWidth colWidths numCols pos.col (heap.cell pos.cell).colspan ∧
            pos.height = spanHeight style numRows pos.row (heap.cell pos.cell)) ∧
          (∀ r c p, (r < row ∨ (r = row ∧ c < j)) → c < numCols → grid.get r c = some p →
            ∃ pos ∈ qs, pos.row = r ∧ pos.col = c ∧ pos.cell = p))
        numCols
        (by
          intro col qs _ hqs
          beta_reduce at hqs ⊢
          obtain ⟨hq1, hq2⟩ := hqs
          cases hg : grid.get row col with
          | none =>
            simp only
            refine ⟨hq1, ?_⟩
            intro r c p hrc hc hget
            rcases hrc with hlt | ⟨hr, hcj⟩
            · exact hq2 r c p (Or.inl hlt) hc hget
            · by_cases hcc : c = col
              · subst hr hcc
                rw [hg] at hget
                cases hget
              · exact hq2 r c p (Or.inr ⟨hr, by omega⟩) hc hget
          | some q =>
            simp only
            constructor
            · intro pos hpos
              rcases List.mem_append.mp hpos with hmem | hmem
              · exact hq1 pos hmem
              · rw [List.mem_singleton] at hmem
                subst hmem
                exact ⟨hg, rfl, rfl⟩
            · intro r c p hrc hc hget
              by_cases hcc : r = row ∧ c = col
              · obtain ⟨hr, hcc⟩ := hcc
                subst hr hcc
                rw [hg] at hget
                simp only [Option.some.injEq] at hget
                subst hget
                exact ⟨_, List.mem_append_right _ (List.mem_singleton.mpr rfl), rfl, rfl, rfl⟩
              · have : r < row ∨ (r = row ∧ c < col) := by
                  rcases hrc with hlt | ⟨hr, hcj⟩
                  · exact Or.inl hlt
                  · exact Or.inr ⟨hr, by
                      have : c ≠ col := fun e => hcc ⟨hr, e⟩
                      omega⟩
                obtain ⟨pos, hmem, hpos⟩ := hq2 r c p this hc hget
                exact ⟨pos, List.mem_append_left _ hmem, hpos⟩)
        ps
        ⟨hps.1, fun r c p hrc hc hget => by
          rcases hrc with hlt | ⟨_, hcj⟩
          · exact hps.2 r c p hlt hc hget
          · exact absurd hcj (Nat.not_lt_zero c)⟩
      beta_reduce at inner ⊢
      refine ⟨inner.1, ?_⟩
      intro r c p hr hc hget
      refine inner.2 r c p ?_ hc hget
      by_cases hrr : r = row
      · exact Or.inr ⟨hrr, hc⟩
      · exact Or.inl (by omega))
    []
    ⟨fun pos hpos => absurd hpos (List.not_mem_nil pos),
      fun r c p hr => absurd hr (Nat.not_lt_zero r)⟩
  exact key

/-- What a returning call of `CalculateCellPositions` on a non-empty grid went
through: the solved widths, the store after the row height pass, and the
positions built from both. -/
theorem CalculateCellPositions_some (style : TableStyle) (grid : Grid) (tableWidth : ℚ)
    (heap : Heap) (positions : List CellPosition) (heap' : Heap) (hne : grid ≠ [])
    (h : CalculateCellPositions style grid tableWidth heap = some (positions, heap')) :
    ∃ colWidths, solveColumnWidths heap grid tableWidth = some colWidths ∧
      resolveRowHeights style grid colWidths grid.length (grid.getD 0 []).length
        (writeBackWidths grid grid.length (grid.getD 0 []).length colWidths heap) = some heap' ∧
      positions = buildPositions style grid colWidths grid.length (grid.getD 0 []).length
        heap' := by
  unfold CalculateCellPositions at h
  have hemp : grid.isEmpty = false := by
    cases grid with
    | nil => exact absurd rfl hne
    | cons a l => rfl
  rw [hemp] at h
  simp only [Bool.false_eq_true, ↓reduceIte] at h
  cases hcw : solveColumnWidths heap grid tableWidth with
  | none => rw [hcw] at h; cases h
  | some colWidths =>
    rw [hcw] at h
    simp only at h
    cases hres : resolveRowHeights style grid colWidths grid.length (grid.getD 0 []).length
        (writeBackWidths grid grid.length (grid.getD 0 []).length colWidths heap) with
    | none => rw [hres] at h; cases h
    | some hp =>
      rw [hres] at h
      simp only [Option.some.injEq, Prod.mk.injEq] at h
      refine ⟨colWidths, rfl, ?_, ?_⟩
      · rw [← h.2]
        exact hres
      · rw [← h.1, ← h.2]

/-- `CalculateCellPositions` returns when the widths are solved and every cell
of the grid can be measured. -/
theorem CalculateCellPositions_total (style : TableStyle) (grid : Grid) (tableWidth : ℚ)
    (heap : Heap) (colWidths : List ℚ)
    (hcw : solveColumnWidths heap grid tableWidth = some colWidths)
    (hmeasure : ∀ r c p, grid.get r c = some p →
      ∃ t, measureCell style colWidths (grid.getD 0 []).length c (heap.cell p) = some t) :
    ∃ positions heap',
      CalculateCellPositions style grid tableWidth heap = some (positions, heap') := by
  unfold CalculateCellPositions
  by_cases hemp : grid.isEmpty = true
  · rw [if_pos hemp]
    exact ⟨_, _, rfl⟩
  · rw [if_neg hemp]
    obtain ⟨heap', hres⟩ := resolveRowHeights_total style grid colWidths grid.length
      (grid.getD 0 []).length
      (writeBackWidths grid grid.length (grid.getD 0 []).length colWidths heap)
      (fun r c p hg => by
        obtain ⟨t, ht⟩ := hmeasure r c p hg
        refine ⟨t, ?_⟩
        rw [measureCell_congr_width style colWidths _ c _ _
          (writeBackWidths_same grid grid.length (grid.getD 0 []).length colWidths heap p)]
        exact ht)
    simp only [hcw, hres]
    exact ⟨_, _, rfl⟩

/-- The layout of the worked example returns. -/
theorem CalculateCellPositions_example :
    ∃ positions heap',
      CalculateCellPositions exampleStyle exampleGrid 300 ⟨exampleCellsBuilt, 6⟩
        = some (positions, heap') := by
  refine CalculateCellPositions_total exampleStyle exampleGrid 300 _ _ solveColumnWidths_example
    ?_
  intro r c p _
  refine ⟨_, measureCell_empty exampleStyle _ _ _ _ ?_⟩
  show (exampleCellsBuilt p).content = []
  unfold exampleCellsBuilt
  split <;> rfl

/-- C15: when `CalculateCellPositions` returns, every populated slot `(r, c)`
of the grid (inside the column count) has a position, and the width of every
position is the sum of the solved widths of the columns
`c, …, min(c + colspan, numCols) - 1`, where `colspan` is the colspan of the
cell, which the call does not change. -/
theorem CalculateCellPositions_position_width (style : TableStyle) (grid : Grid)
    (tableWidth : ℚ) (heap : Heap) (positions : List CellPosition) (heap' : Heap)
    (h : CalculateCellPositions style grid tableWidth heap = some (positions, heap')) :
    ∃ colWidths, solveColumnWidths heap grid tableWidth = some colWidths ∧
      (∀ r c p, c < (grid.getD 0 []).length → grid.get r c = some p →
        ∃ pos ∈ positions, pos.row = r ∧ pos.col = c ∧ pos.cell = p) ∧
      ∀ pos ∈ positions,
        grid.get pos.row pos.col = some pos.cell ∧
        (heap'.cell pos.cell).colspan = (heap.cell pos.cell).colspan ∧
        pos.width
          = Finset.sum
              (Finset.Ico pos.col
                (min (pos.col + (heap.cell pos.cell).colspan) (grid.getD 0 []).length))
              (fun j => colWidths.getD j 0) := by
  by_cases hne : grid = []
  · subst hne
    simp only [CalculateCellPositions, List.isEmpty_nil, ↓reduceIte, Option.some.injEq,
      Prod.mk.injEq] at h
    refine ⟨[], ?_, ?_, ?_⟩
    · simp [solveColumnWidths, explicitWidths, distributeFlexible]
    · intro r c p hc
      simp at hc
    · intro pos hpos
      rw [← h.1] at hpos
      exact absurd hpos (List.not_mem_nil pos)
  · obtain ⟨colWidths, hcw, hres, hpos⟩ :=
      CalculateCellPositions_some style grid tableWidth heap positions heap' hne h
    obtain ⟨hb1, hb2⟩ := buildPositions_spec style grid colWidths grid.length
      (grid.getD 0 []).length heap'
    rw [← hpos] at hb1 hb2
    have hspan : ∀ p, (heap'.cell p).colspan = (heap.cell p).colspan := by
      intro p
      have e1 := congrArg TableCell.colspan (resolveRowHeights_same _ _ _ _ _ _ _ hres p)
      have e2 := congrArg TableCell.colspan
        (writeBackWidths_same grid grid.length (grid.getD 0 []).length colWidths heap p)
      simp only [TableCell.withHeight, TableCell.withWidth] at e1 e2
      rw [e1, e2]
    refine ⟨colWidths, hcw, ?_, ?_⟩
    · intro r c p hc hg
      exact hb2 r c p (Grid.get_some_bounds grid r c p hg).1 hc hg
    · intro pos hmem
      obtain ⟨hg, hw, _⟩ := hb1 pos hmem
      refine ⟨hg, hspan _, ?_⟩
      rw [hw, spanWidth_eq_sum, hspan]

/-- C15 (witness): the layout of the worked example. -/
theorem CalculateCellPositions_position_width_witness :
    ∃ positions heap',
      CalculateCellPositions exampleStyle exampleGrid 300 ⟨exampleCellsBuilt, 6⟩
        = some (positions, heap') ∧
      ∃ colWidths, solveColumnWidths ⟨exampleCellsBuilt, 6⟩ exampleGrid 300 = some colWidths ∧
        (∀ r c p, c < (exampleGrid.getD 0 []).length → exampleGrid.get r c = some p →
          ∃ pos ∈ positions, pos.row = r ∧ pos.col = c ∧ pos.cell = p) ∧
        ∀ pos ∈ positions,
          exampleGrid.get pos.row pos.col = some pos.cell ∧
          (heap'.cell pos.cell).colspan = (exampleCellsBuilt pos.cell).colspan ∧
          pos.width
            = Finset.sum
                (Finset.Ico pos.col
                  (min (pos.col + (exampleCellsBuilt pos.cell).colspan)
                    (exampleGrid.getD 0 []).length))
                (fun j => colWidths.getD j 0) := by
  obtain ⟨positions, heap', h⟩ := CalculateCellPositions_example
  exact ⟨positions, heap', h,
    CalculateCellPositions_position_width exampleStyle exampleGrid 300 ⟨exampleCellsBuilt, 6⟩
      positions heap' h⟩

/-! ## Claim on the height of a row span -/

/-- The grid and the store that `BuildCellGrid` produces for the row span
example. -/
theorem BuildCellGrid_span_example :
    BuildCellGrid spanRows spanHeap = (spanGrid, ⟨spanCellsBuilt, 4⟩) := by
  simp [BuildCellGrid, spanRows, spanHeap, maxColsOf, spanCells, placeCells,
    skipClaimed, claimSpan, claimSlot, anchorCell, spannedCell, Grid.get, Grid.set, Heap.modify,
    Heap.alloc, List.range, List.range.loop, Function.update, spanGrid]
  funext p
  match p with
  | 0 => simp [spanCellsBuilt, spanCells]
  | 1 => simp [spanCellsBuilt, spanCells]
  | 2 => simp [spanCellsBuilt, spanCells]
  | 3 => simp [spanCellsBuilt, spanCells]
  | n + 4 => simp [spanCellsBuilt, spanCells]

/-- Column widths solved for the row span example. -/
theorem solveColumnWidths_span_example :
    solveColumnWidths ⟨spanCellsBuilt, 4⟩ spanGrid 200 = some [100, 100] := by
  simp only [solveColumnWidths, explicitWidths, List.range, List.range.loop, List.foldlM,
    List.getD_cons_zero, List.length, spanGrid]
  simp [explicitWidthsRow, Grid.get, List.range, List.range.loop, distributeFlexible,
    sumWidthsOf, fixWidthCountOf, spanCellsBuilt]
  norm_num

/-- C16 (failing input): two rows of declared heights 20 and 30; the first
cell of the first row spans both rows (rowspan 2), all cells are empty, padding
4, tableWidth 200. The resolved row heights are 20 (cells 0 and 1) and 30 (the
placeholder 3 and cell 2), so the spanned rows add up to 50; the position of
the spanning cell is 40 high: the loop adds the height of the cell itself,
20, once per spanned row. -/
theorem rowspan_position_height :
    BuildCellGrid spanRows spanHeap = (spanGrid, ⟨spanCellsBuilt, 4⟩) ∧
    ∃ positions heap',
      CalculateCellPositions exampleStyle spanGrid 200 ⟨spanCellsBuilt, 4⟩
        = some (positions, heap') ∧
      (heap'.cell 0).height = 20 ∧ (heap'.cell 1).height = 20 ∧
      (heap'.cell 3).height = 30 ∧ (heap'.cell 2).height = 30 ∧
      positions.map (fun pos => (pos.row, pos.col, pos.cell, pos.height))
        = [(0, 0, 0, 40), (0, 1, 1, 20), (1, 0, 3, 30), (1, 1, 2, 30)] := by
  refine ⟨BuildCellGrid_span_example, ?_⟩
  have hw := writeBackWidths_same spanGrid 2 2 [100, 100] ⟨spanCellsBuilt, 4⟩
  have hcontent : ∀ p, (spanCellsBuilt p).content = [] := by
    intro p
    unfold spanCellsBuilt
    split <;> rfl
  have hslots : ∀ (r c p : Nat), r < 2 → c < 2 → spanGrid.get r c = some p →
      (r = 0 ∧ c = 0 ∧ p = 0) ∨ (r = 0 ∧ c = 1 ∧ p = 1) ∨ (r = 1 ∧ c = 0 ∧ p = 3) ∨
        (r = 1 ∧ c = 1 ∧ p = 2) := by
    intro r c p hr hc h
    interval_cases r <;> interval_cases c <;> simp [Grid.get, spanGrid] at h <;> simp [h]
  obtain ⟨heap', hres, hsame, hfinal⟩ := resolveRowHeights_spec exampleStyle spanGrid [100, 100]
    2 2 (fun r => if r = 0 then 20 else 30) (fun _ _ => 8)
    (writeBackWidths spanGrid 2 2 [100, 100] ⟨spanCellsBuilt, 4⟩)
    (by
      intro r r' c c' p hr hr' hc hc' h h'
      rcases hslots r c p hr hc h with ⟨e1, e2, e3⟩ | ⟨e1, e2, e3⟩ | ⟨e1, e2, e3⟩ | ⟨e1, e2, e3⟩ <;>
      rcases hslots r' c' p hr' hc' h' with ⟨f1, f2, f3⟩ | ⟨f1, f2, f3⟩ | ⟨f1, f2, f3⟩ |
        ⟨f1, f2, f3⟩ <;> omega)
    (by
      intro r c p _ _ _
      rw [measureCell_congr_width exampleStyle [100, 100] 2 c _ _ (hw p),
        measureCell_empty exampleStyle _ _ _ _ (hcontent p)]
      norm_num [exampleStyle])
    (by
      intro r c p hr hc h
      have e := congrArg TableCell.height (hw p)
      simp only [TableCell.withWidth] at e
      rw [e]
      rcases hslots r c p hr hc h with ⟨e1, _, e3⟩ | ⟨e1, _, e3⟩ | ⟨e1, _, e3⟩ | ⟨e1, _, e3⟩ <;>
      subst e1 e3 <;> simp [spanCellsBuilt])
  have hrow0 : ∀ c p, c < 2 → spanGrid.get 0 c = some p → (heap'.cell p).height = 20 := by
    obtain ⟨M, hM1, hM2⟩ := hfinal 0 (by decide)
    obtain ⟨c0, p0, _, _, hM⟩ := hM2 ⟨0, 0, by decide, rfl⟩
    have hM20 : M = 20 := by rw [hM]; norm_num
    intro c p hc h
    rw [(hM1 c p hc h).1, hM20]
  have hrow1 : ∀ c p, c < 2 → spanGrid.get 1 c = some p → (heap'.cell p).height = 30 := by
    obtain ⟨M, hM1, hM2⟩ := hfinal 1 (by decide)
    obtain ⟨c0, p0, _, _, hM⟩ := hM2 ⟨0, 3, by decide, rfl⟩
    have hM30 : M = 30 := by rw [hM]; norm_num
    intro c p hc h
    rw [(hM1 c p hc h).1, hM30]
  have h0 := hrow0 0 0 (by decide) rfl
  have h1 := hrow0 1 1 (by decide) rfl
  have h3 := hrow1 0 3 (by decide) rfl
  have h2 := hrow1 1 2 (by decide) rfl
  have hspan : ∀ p, (heap'.cell p).rowspan = (spanCellsBuilt p).rowspan := by
    intro p
    have e1 := congrArg TableCell.rowspan (hsame p)
    have e2 := congrArg TableCell.rowspan (hw p)
    simp only [TableCell.withHeight, TableCell.withWidth] at e1 e2
    rw [e1, e2]
  refine ⟨buildPositions exampleStyle spanGrid [100, 100] 2 2 heap', heap', ?_, h0, h1, h3, h2,
    ?_⟩
  · unfold CalculateCellPositions
    simp only [solveColumnWidths_span_example]
    simp only [spanGrid, List.isEmpty, List.getD_cons_zero, List.length] at hres ⊢
    simp only [Nat.zero_add, Nat.reduceAdd, Bool.false_eq_true, ↓reduceIte] at hres ⊢
    rw [hres]
  · simp [buildPositions, spanHeight, Grid.get, spanGrid, hspan, spanCellsBuilt, h0, h1, h2, h3,
      List.range, List.range.loop, List.range']
    norm_num

/-! ## Claims on `DrawRowsOnPage` -/

theorem cursorBefore_zero (heap : Heap) (rows : List TableRow) (startRow : Nat) (y : ℚ) :
    cursorBefore heap rows startRow y 0 = y := by
  simp [cursorBefore]

theorem cursorBefore_cons (heap : Heap) (row : TableRow) (rest : List TableRow) (y h : ℚ)
    (i : Nat) (hrow : firstCellHeight heap row = some h) :
    cursorBefore heap (row :: rest) 0 y (i + 1) = cursorBefore heap rest 0 (y - h) i := by
  simp only [cursorBefore, List.drop_zero, List.take_succ_cons, List.map_cons, List.sum_cons, hrow,
    Option.getD_some]
  ring

/-- What the loop of `DrawRowsOnPage` does on the rows `l` (numbered from
`rowIdx`): it draws the first `n` of them, each at the cursor left by the rows
before it, each fitting above the margin and none asking for a page break after
a drawn row; and it stops at row `n` for one of three reasons: the break-before
flag, the margin, or a row without cells. -/
theorem drawRowsLoop_rows (margin : ℚ) (heap : Heap) (cellPositions : List CellPosition)
    (startX : ℚ) (l : List TableRow) :
    ∀ (rowIdx : Nat) (currentY : ℚ) (rowsDrawn : Nat) (ops : List CanvasOp),
      ∃ n : Nat, n ≤ l.length ∧
        (drawRowsLoop margin heap cellPositions startX l rowIdx currentY rowsDrawn ops).ops
          = ops ++ (List.range n).map (fun i =>
              CanvasOp.dataRow (rowIdx + i) (cursorBefore heap l 0 currentY i)
                (DrawRowCells heap (rowIdx + i) (cursorBefore heap l 0 currentY i)
                  cellPositions startX)) ∧
        (∀ i, i < n → ∃ h, firstCellHeight heap (l.getD i default) = some h ∧
          margin ≤ cursorBefore heap l 0 currentY i - h ∧
          ¬ ((l.getD i default).pageBreakBefore = true ∧ 0 < rowsDrawn + i)) ∧
        (∀ m, (drawRowsLoop margin heap cellPositions startX l rowIdx currentY rowsDrawn
            ops).rowsDrawn = some m →
          m = rowsDrawn + n ∧
          (n < l.length → ∃ h, firstCellHeight heap (l.getD n default) = some h ∧
            (((l.getD n default).pageBreakBefore = true ∧ 0 < rowsDrawn + n) ∨
              cursorBefore heap l 0 currentY n - h < margin))) ∧
        ((drawRowsLoop margin heap cellPositions startX l rowIdx currentY rowsDrawn
            ops).rowsDrawn = none →
          n < l.length ∧ firstCellHeight heap (l.getD n default) = none) := by
  induction l with
  | nil =>
    intro rowIdx currentY rowsDrawn ops
    refine ⟨0, le_refl _, by simp [drawRowsLoop], fun i hi => absurd hi (Nat.not_lt_zero i), ?_, ?_⟩
    · intro m hm
      simp only [drawRowsLoop, Option.some.injEq] at hm
      exact ⟨by omega, fun h => absurd h (Nat.lt_irrefl 0)⟩
    · intro hnone
      simp [drawRowsLoop] at hnone
  | cons row rest ih =>
    intro rowIdx currentY rowsDrawn ops
    unfold drawRowsLoop
    cases hfc : firstCellHeight heap row with
    | none =>
      refine ⟨0, Nat.zero_le _, by simp, fun i hi => absurd hi (Nat.not_lt_zero i), ?_, ?_⟩
      · intro m hm
        simp at hm
      · intro _
        exact ⟨by simp, by simpa using hfc⟩
    | some rowHeight =>
      simp only
      by_cases hbreak : row.pageBreakBefore = true ∧ rowsDrawn > 0
      · rw [if_pos hbreak]
        refine ⟨0, Nat.zero_le _, by simp, fun i hi => absurd hi (Nat.not_lt_zero i), ?_, ?_⟩
        · intro m hm
          simp only [Option.some.injEq] at hm
          refine ⟨by omega, fun _ => ⟨rowHeight, by simpa using hfc, Or.inl ?_⟩⟩
          simpa using hbreak
        · intro hnone
          simp at hnone
      · rw [if_neg hbreak]
        by_cases hfull : currentY - rowHeight < margin
        · rw [if_pos hfull]
          refine ⟨0, Nat.zero_le _, by simp, fun i hi => absurd hi (Nat.not_lt_zero i), ?_, ?_⟩
          · intro m hm
            simp only [Option.some.injEq] at hm
            refine ⟨by omega, fun _ => ⟨rowHeight, by simpa using hfc, Or.inr ?_⟩⟩
            rw [cursorBefore_zero]
            exact hfull
          · intro hnone
            simp at hnone
        · rw [if_neg hfull]
          obtain ⟨n, hn, hops, hdrawn, hsome, hnone⟩ :=
            ih (rowIdx + 1) (currentY - rowHeight) (rowsDrawn + 1)
              (ops ++ [CanvasOp.dataRow rowIdx currentY
                (DrawRowCells heap rowIdx currentY cellPositions startX)])
          refine ⟨n + 1, by simp; omega, ?_, ?_, ?_, ?_⟩
          · rw [hops, List.range_succ_eq_map, List.map_cons, List.map_map, List.append_assoc]
            congr 1
            simp only [List.singleton_append, cursorBefore_zero, Nat.add_zero, List.cons.injEq,
              true_and]
            apply List.map_congr_left
            intro i _
            simp only [Function.comp_apply, Nat.succ_eq_add_one]
            rw [cursorBefore_cons heap row rest currentY rowHeight i hfc,
              show rowIdx + (i + 1) = rowIdx + 1 + i by omega]
          · intro i hi
            cases i with
            | zero =>
              refine ⟨rowHeight, by simpa using hfc, ?_, ?_⟩
              · rw [cursorBefore_zero]
                exact le_of_not_lt hfull
              · simpa using hbreak
            | succ i =>
              obtain ⟨h, hh1, hh2, hh3⟩ := hdrawn i (by omega)
              refine ⟨h, by simpa using hh1, ?_, ?_⟩
              · rw [cursorBefore_cons heap row rest currentY rowHeight i hfc]
                exact hh2
              · simp only [List.getD_cons_succ]
                rw [show rowsDrawn + (i + 1) = rowsDrawn + 1 + i by omega]
                exact hh3
          · intro m hm
            obtain ⟨hm1, hm2⟩ := hsome m hm
            refine ⟨by omega, ?_⟩
            intro hlt
            obtain ⟨h, hh1, hh2⟩ := hm2 (by simpa using hlt)
            refine ⟨h, by simpa using hh1, ?_⟩
            simp only [List.getD_cons_succ]
            rw [cursorBefore_cons heap row rest currentY rowHeight n hfc,
              show rowsDrawn + (n + 1) = rowsDrawn + 1 + n by omega]
            exact hh2
          · intro hn'
            obtain ⟨h1, h2⟩ := hnone hn'
            exact ⟨by simpa using h1, by simpa using h2⟩

theorem getD_drop_rows (rows : List TableRow) (startRow i : Nat) :
    (rows.drop startRow).getD i default = rows.getD (startRow + i) default := by
  rw [List.getD_eq_getElem?_getD, List.getD_eq_getElem?_getD, List.getElem?_drop]

theorem cursorBefore_drop (heap : Heap) (rows : List TableRow) (startRow : Nat) (y : ℚ)
    (i : Nat) :
    cursorBefore heap (rows.drop startRow) 0 y i = cursorBefore heap rows startRow y i := by
  simp [cursorBefore]

/-- What one call of `DrawRowsOnPage` does, in the numbering of the table. -/
theorem DrawRowsOnPage_rows (table : PDFTable) (heap : Heap) (rows : List TableRow)
    (cellPositions : List CellPosition) (startX startY : ℚ) (startRow : Nat) :
    ∃ n : Nat, n ≤ rows.length - startRow ∧
      (table.DrawRowsOnPage heap rows cellPositions startX startY startRow).ops
        = (List.range n).map (fun i =>
            CanvasOp.dataRow (startRow + i) (cursorBefore heap rows startRow startY i)
              (DrawRowCells heap (startRow + i) (cursorBefore heap rows startRow startY i)
                cellPositions startX)) ∧
      (∀ i, i < n → ∃ h, firstCellHeight heap (rows.getD (startRow + i) default) = some h ∧
        table.margin ≤ cursorBefore heap rows startRow startY i - h ∧
        ¬ ((rows.getD (startRow + i) default).pageBreakBefore = true ∧ 0 < i)) ∧
      (∀ m, (table.DrawRowsOnPage heap rows cellPositions startX startY startRow).rowsDrawn
          = some m →
        m = n ∧
        (startRow + n < rows.length →
          ∃ h, firstCellHeight heap (rows.getD (startRow + n) default) = some h ∧
            (((rows.getD (startRow + n) default).pageBreakBefore = true ∧ 0 < n) ∨
              cursorBefore heap rows startRow startY n - h < table.margin))) ∧
      ((table.DrawRowsOnPage heap rows cellPositions startX startY startRow).rowsDrawn = none →
        startRow + n < rows.length ∧
        firstCellHeight heap (rows.getD (startRow + n) default) = none) := by
  obtain ⟨n, hn, hops, hdrawn, hsome, hnone⟩ :=
    drawRowsLoop_rows table.margin heap cellPositions startX (rows.drop startRow) startRow startY
      0 []
  simp only [getD_drop_rows, cursorBefore_drop, List.length_drop, Nat.zero_add,
    List.nil_append] at hn hops hdrawn hsome hnone
  refine ⟨n, hn, hops, hdrawn, ?_, ?_⟩
  · intro m hm
    obtain ⟨h1, h2⟩ := hsome m hm
    exact ⟨h1, fun hlt => h2 (by omega)⟩
  · intro hn'
    obtain ⟨h1, h2⟩ := hnone hn'
    exact ⟨by omega, h2⟩

/-- C18: in every call of `DrawRowsOnPage` the rows drawn are the `k` rows
from `startRow` on, each drawn at the cursor left by the rows before it
(`cursorBefore`), and `k` is the count that the call returns. Every drawn row
has its bottom edge, cursor minus row height, at or above the margin; no row
whose bottom edge would lie below the margin is drawn (`k` is at most its
index); and when the call returns before the last row, the row it stopped at is
a break-before row after a drawn row or does not fit. -/
theorem DrawRowsOnPage_fit_rule (table : PDFTable) (heap : Heap) (rows : List TableRow)
    (cellPositions : List CellPosition) (startX startY : ℚ) (startRow : Nat) :
    ∃ k : Nat, k ≤ rows.length - startRow ∧
      (table.DrawRowsOnPage heap rows cellPositions startX startY startRow).ops
        = (List.range k).map (fun i =>
            CanvasOp.dataRow (startRow + i) (cursorBefore heap rows startRow startY i)
              (DrawRowCells heap (startRow + i) (cursorBefore heap rows startRow startY i)
                cellPositions startX)) ∧
      (∀ m, (table.DrawRowsOnPage heap rows cellPositions startX startY startRow).rowsDrawn
          = some m → m = k) ∧
      (∀ i, i < k → ∃ rowHeight,
        firstCellHeight heap (rows.getD (startRow + i) default) = some rowHeight ∧
        table.margin ≤ cursorBefore heap rows startRow startY i - rowHeight) ∧
      (∀ j rowHeight, firstCellHeight heap (rows.getD (startRow + j) default) = some rowHeight →
        cursorBefore heap rows startRow startY j - rowHeight < table.margin → k ≤ j) ∧
      (∀ m, (table.DrawRowsOnPage heap rows cellPositions startX startY startRow).rowsDrawn
          = some m → startRow + k < rows.length →
        ∃ rowHeight, firstCellHeight heap (rows.getD (startRow + k) default) = some rowHeight ∧
          (((rows.getD (startRow + k) default).pageBreakBefore = true ∧ 0 < k) ∨
            cursorBefore heap rows startRow startY k - rowHeight < table.margin)) := by
  obtain ⟨n, hn, hops, hdrawn, hsome, _⟩ :=
    DrawRowsOnPage_rows table heap rows cellPositions startX startY startRow
  refine ⟨n, hn, hops, fun m hm => (hsome m hm).1, ?_, ?_, fun m hm => (hsome m hm).2⟩
  · intro i hi
    obtain ⟨h, h1, h2, _⟩ := hdrawn i hi
    exact ⟨h, h1, h2⟩
  · intro j rowHeight hj hlow
    by_contra hcon
    obtain ⟨h, h1, h2, _⟩ := hdrawn j (by omega)
    rw [hj] at h1
    simp only [Option.some.injEq] at h1
    rw [h1] at hlow
    exact absurd h2 (not_le_of_lt hlow)

/-- C17: in every call of `DrawRowsOnPage` the rows drawn are the `k` rows
from `startRow` on (`k` being the returned count). None of the rows drawn after
the first one has the break-before flag, so a flagged row is never drawn after
another row of the page: the call stops before it. The first row of the page
is drawn whenever it fits above the margin, flagged or not. -/
theorem DrawRowsOnPage_break_before (table : PDFTable) (heap : Heap) (rows : List TableRow)
    (cellPositions : List CellPosition) (startX startY : ℚ) (startRow : Nat) :
    ∃ k : Nat,
      rowsDrawnIn (table.DrawRowsOnPage heap rows cellPositions startX startY startRow).ops
        = List.range' startRow k ∧
      (∀ m, (table.DrawRowsOnPage heap rows cellPositions startX startY startRow).rowsDrawn
          = some m → m = k) ∧
      (∀ i, 0 < i → i < k → (rows.getD (startRow + i) default).pageBreakBefore = false) ∧
      (∀ j, 0 < j → startRow + j < rows.length →
        (rows.getD (startRow + j) default).pageBreakBefore = true → k ≤ j) ∧
      (∀ rowHeight, startRow < rows.length →
        firstCellHeight heap (rows.getD startRow default) = some rowHeight →
        table.margin ≤ startY - rowHeight → 0 < k) := by
  obtain ⟨n, hn, hops, hdrawn, hsome, hnone⟩ :=
    DrawRowsOnPage_rows table heap rows cellPositions startX startY startRow
  have hflag : ∀ i, 0 < i → i < n →
      (rows.getD (startRow + i) default).pageBreakBefore = false := by
    intro i hi hin
    obtain ⟨_, _, _, h3⟩ := hdrawn i hin
    cases hb : (rows.getD (startRow + i) default).pageBreakBefore with
    | false => rfl
    | true => exact absurd ⟨hb, hi⟩ h3
  refine ⟨n, ?_, fun m hm => (hsome m hm).1, hflag, ?_, ?_⟩
  · rw [hops]
    simp only [rowsDrawnIn, List.filterMap_map]
    rw [List.range'_eq_map_range]
    rw [← List.filterMap_eq_map]
    rfl
  · intro j hj _ hb
    by_contra hcon
    have := hflag j hj (by omega)
    rw [hb] at this
    cases this
  · intro rowHeight hlt hfc hfit
    by_contra hcon
    have hn0 : n = 0 := by omega
    subst hn0
    rw [Nat.add_zero] at hsome hnone
    cases hres : (table.DrawRowsOnPage heap rows cellPositions startX startY startRow).rowsDrawn with
    | none =>
      have := (hnone hres).2
      rw [hfc] at this
      cases this
    | some m =>
      obtain ⟨h, h1, h2⟩ := (hsome m hres).2 hlt
      rw [hfc] at h1
      simp only [Option.some.injEq] at h1
      rcases h2 with ⟨_, hpos⟩ | hlow
      · exact absurd hpos (Nat.lt_irrefl 0)
      · rw [cursorBefore_zero, ← h1] at hlow
        exact absurd hfit (not_le_of_lt hlow)

/-! ## Claim on the returned `Dimension` -/

/-- The loop of `DrawTableOnPages` returns the `Dimension` prepared before the
loop, with at most the flag `ok` changed. -/
theorem tablePagesLoop_ret (direct : Bool) (table : PDFTable) (heap : Heap)
    (rows : List TableRow) (cellPositions : List CellPosition) (startX : ℚ) (ret : Dimension)
    (n : Nat) :
    ∀ (currentRow : Nat) (isFirstPage : Bool) (pdf : PDFCreator) (trace : List CanvasOp)
    (pageCounts : List Nat) (iterations : Nat), rows.length - currentRow = n →
    ∀ d, (tablePagesLoop direct table heap rows cellPositions startX ret currentRow isFirstPage
      pdf trace pageCounts iterations).ret = some d →
      d = ret ∨ d = { ret with ok := true } := by
  induction n using Nat.strong_induction_on with
  | _ n ih =>
    intro currentRow isFirstPage pdf trace pageCounts iterations hn d hd
    rw [tablePagesLoop] at hd
    by_cases hlt : currentRow < rows.length
    · simp only [hlt, ↓reduceDIte] at hd
      cases hpa : pageAttempt table heap rows cellPositions startX currentRow isFirstPage pdf
          trace with
      | noContext pdf₁ trace₁ =>
        rw [hpa] at hd
        simp only [Option.some.injEq] at hd
        exact Or.inl hd.symm
      | outOfRange pdf₁ trace₁ =>
        rw [hpa] at hd
        cases hd
      | page rowsDrawn pdf₁ trace₁ =>
        rw [hpa] at hd
        simp only at hd
        by_cases h0 : rowsDrawn = 0
        · simp only [h0, ↓reduceDIte, Option.some.injEq] at hd
          exact Or.inr hd.symm
        · simp only [h0, ↓reduceDIte] at hd
          exact ih (rows.length - (currentRow + rowsDrawn)) (by omega)
            (currentRow + rowsDrawn) (if direct then false else isFirstPage) pdf₁ trace₁
            (pageCounts ++ [rowsDrawn]) (iterations + 1) rfl d hd
    · simp only [hlt, ↓reduceDIte, Option.some.injEq] at hd
      exact Or.inr hd.symm

/-- C19 (amended): the `Dimension` that `DrawTableWithPageBreaks` returns
reports the origin of the table, as the other drawing calls do for what they
draw: for a non-empty row list `x` is `startX` and `y` is the caller's
`startY`, whatever rows and pages were drawn; for an empty row list it is the
default `Dimension` (`y = 0`) with `ok` set. -/
theorem DrawTableWithPageBreaks_origin (pdf : PDFCreator) (direct : Bool) (table : PDFTable)
    (heap : Heap) (rows : List TableRow) (startX startY tableWidth : ℚ) (run : TableRun)
    (heap' : Heap) (d : Dimension)
    (h : pdf.DrawTableWithPageBreaks direct table heap rows startX startY tableWidth
      = some (run, heap'))
    (hd : run.ret = some d) :
    (rows ≠ [] → d.x = startX ∧ d.y = startY) ∧
    (rows = [] → d = { ok := true }) := by
  unfold PDFCreator.DrawTableWithPageBreaks at h
  constructor
  · intro hne
    have hemp : rows.isEmpty = false := by
      cases rows with
      | nil => exact absurd rfl hne
      | cons a l => rfl
    rw [hemp] at h
    simp only [Bool.false_eq_true, ↓reduceIte] at h
    cases hpos : CalculateCellPositions table.mStyle (BuildCellGrid rows heap).1 tableWidth
        (BuildCellGrid rows heap).2 with
    | none => rw [hpos] at h; cases h
    | some out =>
      obtain ⟨cellPositions, heap₁⟩ := out
      rw [hpos] at h
      simp only [Option.some.injEq, Prod.mk.injEq] at h
      rw [← h.1] at hd
      unfold PDFCreator.DrawTableOnPages at hd
      rcases tablePagesLoop_ret direct _ heap₁ rows cellPositions startX _ _ 0 true pdf [] [] 0 rfl
        d hd with hd' | hd' <;> rw [hd'] <;> exact ⟨rfl, rfl⟩
  · intro hnil
    subst hnil
    simp only [List.isEmpty_nil, ↓reduceIte, Option.some.injEq, Prod.mk.injEq] at h
    rw [← h.1] at hd
    simp only [Option.some.injEq] at hd
    exact hd.symm

/-- The grid and the store that `BuildCellGrid` produces for `oneRow`. -/
theorem BuildCellGrid_oneRow :
    BuildCellGrid oneRow (plainHeap 1) = ([[some 0]], ⟨oneCellBuilt, 1⟩) := by
  simp [BuildCellGrid, oneRow, plainHeap, maxColsOf, placeCells, skipClaimed, claimSpan,
    claimSlot, anchorCell, Grid.get, Grid.set, Heap.modify, List.range, List.range.loop,
    Function.update]
  funext p
  match p with
  | 0 => simp [oneCellBuilt]
  | n + 1 => simp [oneCellBuilt]

/-- The run of `DrawTableWithPageBreaks` on the one-row table, drawn directly
on the page from y = 700: the row (height 20) is drawn on the first page. -/
theorem DrawTableWithPageBreaks_oneRow :
    ∃ run heap',
      examplePdf.DrawTableWithPageBreaks true exampleTable (plainHeap 1) oneRow 0 700 300
        = some (run, heap') ∧
      (heap'.cell 0).height = 20 ∧ rowsDrawnIn run.trace = [0] ∧ run.pageCounts = [1] ∧
      run.ret = some { x := 0, y := 700, ok := true } := by
  have hw := writeBackWidths_same [[some 0]] 1 1 [300] ⟨oneCellBuilt, 1⟩
  have hcontent : ∀ p, (oneCellBuilt p).content = [] := by
    intro p
    unfold oneCellBuilt
    split <;> rfl
  have hslots : ∀ (r c p : Nat), r < 1 → c < 1 → Grid.get [[some 0]] r c = some p →
      r = 0 ∧ c = 0 ∧ p = 0 := by
    intro r c p hr hc h
    interval_cases r
    interval_cases c
    simp [Grid.get] at h
    simp [h]
  have hcw : solveColumnWidths ⟨oneCellBuilt, 1⟩ [[some 0]] 300 = some [300] := by
    simp only [solveColumnWidths, explicitWidths, List.range, List.range.loop, List.foldlM,
      List.getD_cons_zero, List.length]
    simp [explicitWidthsRow, Grid.get, distributeFlexible, sumWidthsOf, fixWidthCountOf,
      oneCellBuilt]
  obtain ⟨heap', hres, hsame, hfinal⟩ := resolveRowHeights_spec exampleStyle [[some 0]] [300]
    1 1 (fun _ => 20) (fun _ _ => 8) (writeBackWidths [[some 0]] 1 1 [300] ⟨oneCellBuilt, 1⟩)
    (by
      intro r r' c c' p hr hr' hc hc' h h'
      obtain ⟨e1, e2, _⟩ := hslots r c p hr hc h
      obtain ⟨f1, f2, _⟩ := hslots r' c' p hr' hc' h'
      omega)
    (by
      intro r c p _ _ _
      rw [measureCell_congr_width exampleStyle [300] 1 c _ _ (hw p),
        measureCell_empty exampleStyle _ _ _ _ (hcontent p)]
      norm_num [exampleStyle])
    (by
      intro r c p hr hc h
      have e := congrArg TableCell.height (hw p)
      simp only [TableCell.withWidth] at e
      rw [e]
      obtain ⟨_, _, e3⟩ := hslots r c p hr hc h
      subst e3
      simp [oneCellBuilt])
  have h0 : (heap'.cell 0).height = 20 := by
    obtain ⟨M, hM1, hM2⟩ := hfinal 0 (by decide)
    obtain ⟨c0, p0, _, _, hM⟩ := hM2 ⟨0, 0, by decide, rfl⟩
    have hM20 : M = 20 := by rw [hM]; norm_num
    rw [(hM1 0 0 (by decide) rfl).1, hM20]
  have hpos : CalculateCellPositions exampleTable.mStyle [[some 0]] 300 ⟨oneCellBuilt, 1⟩
      = some (buildPositions exampleStyle [[some 0]] [300] 1 1 heap', heap') := by
    unfold CalculateCellPositions
    simp only [hcw]
    simp only [List.isEmpty, List.getD_cons_zero, List.length] at hres ⊢
    simp only [Nat.zero_add, Bool.false_eq_true, ↓reduceIte] at hres ⊢
    show (match resolveRowHeights exampleStyle [[some 0]] [300] 1 1
      (writeBackWidths [[some 0]] 1 1 [300] ⟨oneCellBuilt, 1⟩) with
      | none => none
      | some heap => some (buildPositions exampleStyle [[some 0]] [300] 1 1 heap, heap)) = _
    rw [hres]
  refine ⟨examplePdf.DrawTableOnPages true { exampleTable with mCurrentY := 700 } heap' oneRow
    (buildPositions exampleStyle [[some 0]] [300] 1 1 heap') 0, heap', ?_, h0, ?_, ?_, ?_⟩
  · simp only [PDFCreator.DrawTableWithPageBreaks, BuildCellGrid_oneRow, hpos]
    rfl
  all_goals
    rw [PDFCreator.DrawTableOnPages, tablePagesLoop]
    norm_num [oneRow, pageAttempt, drawPage, examplePdf, exampleTable,
      PDFTable.DrawRowsOnPage, drawRowsLoop, firstCellHeight, h0, rowsDrawnIn, CanvasOp.rowIdx?]
    rw [tablePagesLoop]
    simp [rowsDrawnIn, CanvasOp.rowIdx?]

/-- C19 (counterexample): one row of height 20 drawn directly on the page
from startY = 700. The row is drawn on the first page, so the position just
below the last row drawn is 700 - 20 = 680; the returned `y` is 700, the
caller's startY. -/
theorem DrawTableWithPageBreaks_final_cursor_counterexample :
    ∃ run heap',
      examplePdf.DrawTableWithPageBreaks true exampleTable (plainHeap 1) oneRow 0 700 300
        = some (run, heap') ∧
      rowsDrawnIn run.trace = [0] ∧ run.pageCounts = [1] ∧
      cursorBefore heap' oneRow 0 700 1 = 680 ∧
      run.ret.map (fun d => d.y) = some 700 := by
  obtain ⟨run, heap', h, h0, hrows, hcounts, hret⟩ := DrawTableWithPageBreaks_oneRow
  refine ⟨run, heap', h, hrows, hcounts, ?_, by rw [hret]; rfl⟩
  simp only [cursorBefore, oneRow, List.drop_zero, List.take_succ_cons, List.take_zero,
    List.map_cons, List.map_nil, List.sum_cons, List.sum_nil, firstCellHeight, List.head?_cons,
    Option.map_some', Option.getD_some, h0]
  norm_num

/-- C19 (witness): the one-row table drawn from startY = 700. -/
theorem DrawTableWithPageBreaks_origin_witness :
    ∃ run heap' d,
      examplePdf.DrawTableWithPageBreaks true exampleTable (plainHeap 1) oneRow 0 700 300
        = some (run, heap') ∧
      run.ret = some d ∧
      (oneRow ≠ [] → d.x = 0 ∧ d.y = 700) ∧
      (oneRow = [] → d = { ok := true }) := by
  obtain ⟨run, heap', h, _, _, _, hret⟩ := DrawTableWithPageBreaks_oneRow
  exact ⟨run, heap', _, h, hret,
    DrawTableWithPageBreaks_origin examplePdf true exampleTable (plainHeap 1) oneRow 0 700 300
      run heap' _ h hret⟩

/-! ## Claim on the greedy line fit -/

/-- A recorded line of `wrapText` either fits `maxWidth`, or is one of the
words `ws` on its own, recorded with its own width, which exceeds
`maxWidth`. -/
theorem wrapLoop_fit (w : AdvancedTextWrapper) (options : WrappingOptions)
    (hhyp : options.hyphenate = false) (ws : List Str)
    (words : List Str) (currentLine : Str) (currentLineWidth : ℚ) (result : WrappedTextResult) :
    (∀ x ∈ words, x ∈ ws) →
    (currentLine = [] ∨ currentLineWidth ≤ options.maxWidth ∨
      (currentLine ∈ ws ∧ currentLineWidth = w.textWidth currentLine ∧
        options.maxWidth < w.textWidth currentLine)) →
    result.lines.length = result.lineWidths.length →
    (∀ lw ∈ result.lines.zip result.lineWidths, lw.2 ≤ options.maxWidth ∨
      (lw.1 ∈ ws ∧ lw.2 = w.textWidth lw.1 ∧ options.maxWidth < w.textWidth lw.1)) →
    ∃ st, wrapLoop w options words currentLine currentLineWidth result = some st ∧
      (st.1 = [] ∨ st.2.1 ≤ options.maxWidth ∨
        (st.1 ∈ ws ∧ st.2.1 = w.textWidth st.1 ∧ options.maxWidth < w.textWidth st.1)) ∧
      st.2.2.lines.length = st.2.2.lineWidths.length ∧
      ∀ lw ∈ st.2.2.lines.zip st.2.2.lineWidths, lw.2 ≤ options.maxWidth ∨
        (lw.1 ∈ ws ∧ lw.2 = w.textWidth lw.1 ∧ options.maxWidth < w.textWidth lw.1) := by
  induction words, currentLine, currentLineWidth, result using wrapLoop.induct w options with
  | case1 currentLine currentLineWidth result =>
    intro _ hcur hlen hlines
    exact ⟨(currentLine, currentLineWidth, result), by simp only [wrapLoop], hcur, hlen, hlines⟩
  | case2 word rest currentLine currentLineWidth result hfit hne ih =>
    intro hws _ hlen hlines
    rw [wrapLoop, if_pos hfit, if_pos hne]
    exact ih (fun x hx => hws x (List.mem_cons_of_mem _ hx)) (Or.inr (Or.inl hfit)) hlen hlines
  | case3 word rest currentLine currentLineWidth result hfit hne ih =>
    intro hws _ hlen hlines
    rw [wrapLoop, if_pos hfit, if_neg hne]
    refine ih (fun x hx => hws x (List.mem_cons_of_mem _ hx)) (Or.inr (Or.inl ?_)) hlen hlines
    have hempty : currentLine.isEmpty = true := by simpa using hne
    simpa [AdvancedTextWrapper.spaceWidth, hempty] using hfit
  | case4 word rest currentLine currentLineWidth result hfit hempty hh hnone =>
    rw [hhyp] at hh
    cases hh
  | case5 word rest currentLine currentLineWidth result hfit hempty hh brokenWord hsome ih =>
    rw [hhyp] at hh
    cases hh
  | case6 word rest currentLine currentLineWidth result hfit hempty hh ih =>
    intro hws _ hlen hlines
    rw [wrapLoop, if_neg hfit, if_pos hempty, if_neg hh]
    refine ih (fun x hx => hws x (List.mem_cons_of_mem _ hx)) (Or.inl rfl) ?_ ?_
    · simp only [WrappedTextResult.pushLine, List.length_append, List.length_singleton, hlen]
    · intro lw hlw
      simp only [WrappedTextResult.pushLine] at hlw
      rw [List.zip_append hlen] at hlw
      rcases List.mem_append.mp hlw with h | h
      · exact hlines lw h
      · simp only [List.zip_cons_cons, List.zip_nil_right, List.mem_singleton] at h
        subst h
        by_cases hle : w.textWidth word ≤ options.maxWidth
        · exact Or.inl hle
        · exact Or.inr ⟨hws word (List.mem_cons_self _ _), rfl, lt_of_not_le hle⟩
  | case7 word rest currentLine currentLineWidth result hfit hempty ih =>
    intro hws hcur hlen hlines
    rw [wrapLoop, if_neg hfit, if_neg hempty]
    refine ih (fun x hx => hws x (List.mem_cons_of_mem _ hx)) ?_ ?_ ?_
    · by_cases hle : w.textWidth word ≤ options.maxWidth
      · exact Or.inr (Or.inl hle)
      · exact Or.inr (Or.inr ⟨hws word (List.mem_cons_self _ _), rfl, lt_of_not_le hle⟩)
    · simp only [WrappedTextResult.pushLine, List.length_append, List.length_singleton, hlen]
    · intro lw hlw
      simp only [WrappedTextResult.pushLine] at hlw
      rw [List.zip_append hlen] at hlw
      rcases List.mem_append.mp hlw with h | h
      · exact hlines lw h
      · simp only [List.zip_cons_cons, List.zip_nil_right, List.mem_singleton] at h
        subst h
        rcases hcur with h1 | h2 | h3
        · simp [h1] at hempty
        · exact Or.inl h2
        · exact Or.inr h3

/-- C23: with hyphenation disabled `wrapText` returns for every text and
`maxWidth`, with one recorded width per line, and every returned line either
has a recorded width of at most `maxWidth`, or is exactly one word of the text
(one of `splitWords text`, verbatim) recorded with its own width, which
exceeds `maxWidth`. -/
theorem wrapText_greedy_fit (w : AdvancedTextWrapper) (text : Str) (options : WrappingOptions)
    (hhyp : options.hyphenate = false) :
    ∃ r, w.wrapText text options = some r ∧
      r.lines.length = r.lineWidths.length ∧
      ∀ lw ∈ r.lines.zip r.lineWidths, lw.2 ≤ options.maxWidth ∨
        (lw.1 ∈ splitWords text ∧ lw.2 = w.textWidth lw.1 ∧
          options.maxWidth < w.textWidth lw.1) := by
  obtain ⟨st, hst, hcur, hlen, hlines⟩ := wrapLoop_fit w options hhyp (splitWords text)
    (splitWords text) [] 0 w.emptyResult (fun _ hx => hx) (Or.inl rfl) rfl
    (fun lw hlw => by simp [AdvancedTextWrapper.emptyResult] at hlw)
  obtain ⟨currentLine, currentLineWidth, result⟩ := st
  unfold AdvancedTextWrapper.wrapText
  rw [hst]
  simp only at hcur hlen hlines ⊢
  by_cases hempty : currentLine.isEmpty = true
  · simp only [hempty, Bool.not_true, Bool.false_eq_true, ↓reduceIte]
    exact ⟨result, rfl, hlen, hlines⟩
  · simp only [hempty, Bool.not_false, ↓reduceIte]
    refine ⟨_, rfl, ?_, ?_⟩
    · simp only [List.length_append, List.length_singleton, hlen]
    · intro lw hlw
      simp only at hlw
      rw [List.zip_append hlen] at hlw
      rcases List.mem_append.mp hlw with h | h
      · exact hlines lw h
      · simp only [List.zip_cons_cons, List.zip_nil_right, List.mem_singleton] at h
        subst h
        rcases hcur with h1 | h2 | h3
        · simp [h1] at hempty
        · exact Or.inl h2
        · exact Or.inr h3

/-- C23 (witness): "ab cdefg hi" wrapped without hyphenation into width 12
(characters are 5 wide): the lines are "ab" (10), the oversized word "cdefg"
(25) and "hi" (10). -/
theorem wrapText_greedy_fit_witness :
    (exampleWrapper.wrapText "ab cdefg hi".toList { maxWidth := 12 }).map
        (fun r => (r.lines, r.lineWidths))
      = some (["ab".toList, "cdefg".toList, "hi".toList], [10, 25, 10]) ∧
    ∃ r, exampleWrapper.wrapText "ab cdefg hi".toList { maxWidth := 12 } = some r ∧
      r.lines.length = r.lineWidths.length ∧
      ∀ lw ∈ r.lines.zip r.lineWidths, lw.2 ≤ 12 ∨
        (lw.1 ∈ splitWords "ab cdefg hi".toList ∧ lw.2 = exampleWrapper.textWidth lw.1 ∧
          12 < exampleWrapper.textWidth lw.1) := by
  refine ⟨?_, wrapText_greedy_fit exampleWrapper "ab cdefg hi".toList { maxWidth := 12 } rfl⟩
  simp [AdvancedTextWrapper.wrapText, wrapLoop, splitWords, splitWordsAux, isSpace,
    exampleWrapper, exampleFont, AdvancedTextWrapper.mk', WrappedTextResult.pushLine,
    AdvancedTextWrapper.emptyResult, AdvancedTextWrapper.textWidth,
    AdvancedTextWrapper.spaceWidth]
  norm_num
  simp

/-! ## Claims on `breakWord` -/

/-- The countdown of `breakWord` from `n`: a returned pair splits the word at
the largest `i ≤ n`, `i ≥ 1`, whose prefix fits the target width; no result
means that no prefix of length `1, …, n` fits. -/
theorem breakWordSearch_spec (w : AdvancedTextWrapper) (word : Str) (t : ℚ) (n : Nat) :
    (∀ r, breakWordSearch w word t n = some r →
      ∃ i, 1 ≤ i ∧ i ≤ n ∧ r = (word.take i, word.drop i) ∧ w.textWidth (word.take i) ≤ t ∧
        ∀ j, i < j → j ≤ n → t < w.textWidth (word.take j)) ∧
    (breakWordSearch w word t n = none →
      ∀ j, 1 ≤ j → j ≤ n → t < w.textWidth (word.take j)) := by
  induction n with
  | zero =>
    constructor
    · intro r h
      simp [breakWordSearch] at h
    · intro _ j h1 h2
      omega
  | succ n ih =>
    unfold breakWordSearch
    by_cases hfit : w.textWidth (substrTo word (n + 1)) ≤ t
    · rw [if_pos hfit]
      constructor
      · intro r h
        simp only [Option.some.injEq] at h
        refine ⟨n + 1, by omega, le_refl _, h.symm, hfit, ?_⟩
        intro j h1 h2
        omega
      · intro h
        cases h
    · rw [if_neg hfit]
      constructor
      · intro r h
        obtain ⟨i, h1, h2, h3, h4, h5⟩ := ih.1 r h
        refine ⟨i, h1, by omega, h3, h4, ?_⟩
        intro j hj1 hj2
        by_cases hjn : j = n + 1
        · subst hjn
          exact lt_of_not_le hfit
        · exact h5 j hj1 (by omega)
      · intro h j hj1 hj2
        by_cases hjn : j = n + 1
        · subst hjn
          exact lt_of_not_le hfit
        · exact ih.2 h j hj1 (by omega)

/-- A pair returned by `breakWord` splits the word, and its prefix is not
empty when the word is not. -/
theorem breakWord_split (w : AdvancedTextWrapper) (word : Str) (maxWidth : ℚ)
    (p rest : Str) (h : w.breakWord word maxWidth = some (p, rest)) :
    p ++ rest = word ∧ (word ≠ [] → p ≠ []) := by
  unfold AdvancedTextWrapper.breakWord at h
  simp only at h
  have hne : ∀ i, 1 ≤ i → word ≠ [] → word.take i ≠ [] := by
    intro i hi hw hnil
    have hpos : 0 < word.length := List.length_pos.mpr hw
    have := congrArg List.length hnil
    simp only [List.length_nil, List.length_take] at this
    omega
  cases hsearch : breakWordSearch w word (maxWidth * (4 / 5)) (word.length / 2) with
  | some r =>
    rw [hsearch] at h
    simp only [Option.some.injEq] at h
    obtain ⟨i, h1, _, h3, _, _⟩ :=
      (breakWordSearch_spec w word (maxWidth * (4 / 5)) (word.length / 2)).1 r hsearch
    rw [h, Prod.mk.injEq] at h3
    obtain ⟨hp, hrest⟩ := h3
    refine ⟨by rw [hp, hrest, List.take_append_drop], ?_⟩
    rw [hp]
    exact hne i h1
  | none =>
    rw [hsearch] at h
    simp only at h
    cases hsub : substrFrom word 1 with
    | none => rw [hsub] at h; cases h
    | some rest' =>
      rw [hsub] at h
      simp only [Option.some.injEq, Prod.mk.injEq, substrTo] at h
      unfold substrFrom at hsub
      split at hsub
      · cases hsub
      · simp only [Option.some.injEq] at hsub
        refine ⟨by rw [← h.1, ← h.2, ← hsub, List.take_append_drop], ?_⟩
        rw [← h.1]
        exact hne 1 (le_refl 1)

/-- C24 (counterexample): the word "abcd" (characters and the hyphen are 5
wide) broken for maxWidth 15, target 0.8 × 15 = 12. `breakWord` measures the
prefix without the hyphen and returns "ab" (10 ≤ 12); with the hyphen "ab-"
measures 15 > 12, and the longest prefix that fits together with the hyphen is
"a" ("a-" measures 10). `wrapText` emits the line "ab-". -/
theorem breakWord_hyphen_counterexample :
    exampleWrapper.breakWord "abcd".toList 15 = some ("ab".toList, "cd".toList) ∧
    ¬ exampleWrapper.textWidth "ab-".toList ≤ 15 * (4 / 5) ∧
    exampleWrapper.textWidth "a-".toList ≤ 15 * (4 / 5) ∧
    (exampleWrapper.wrapText "abcd".toList { maxWidth := 15, hyphenate := true }).map
      (fun r => r.lines) = some ["ab-".toList, "cd".toList] := by
  have hw : ∀ word : Str, exampleWrapper.textWidth word = 5 * word.length := by
    intro word
    simp [AdvancedTextWrapper.textWidth, exampleWrapper, exampleFont, AdvancedTextWrapper.mk']
  have hb : exampleWrapper.breakWord "abcd".toList 15 = some ("ab".toList, "cd".toList) := by
    norm_num [AdvancedTextWrapper.breakWord, breakWordSearch, substrFrom, substrTo, hw]
  refine ⟨hb, ?_, ?_, ?_⟩
  · rw [hw]
    norm_num
  · rw [hw]
    norm_num
  · have hsplit : splitWords "abcd".toList = ["abcd".toList] := by decide
    have hnofit : ¬ (0 : ℚ) + exampleWrapper.spaceWidth [] + exampleWrapper.textWidth "abcd".toList
        ≤ ({ maxWidth := 15, hyphenate := true } : WrappingOptions).maxWidth := by
      rw [hw]
      norm_num [AdvancedTextWrapper.spaceWidth]
    unfold AdvancedTextWrapper.wrapText
    have hfit : (0 : ℚ) + exampleWrapper.spaceWidth [] + exampleWrapper.textWidth "cd".toList
        ≤ ({ maxWidth := 15, hyphenate := true } : WrappingOptions).maxWidth := by
      rw [hw]
      norm_num [AdvancedTextWrapper.spaceWidth]
    rw [hsplit, wrapLoop_hyphen _ _ _ _ _ _ _ hnofit rfl hb]
    rw [wrapLoop, if_pos hfit, if_neg (by simp), wrapLoop]
    rfl

/-- C24 (amended): a pair returned by `breakWord` splits the word, and its
prefix is the longest prefix of length between 1 and half the length of the
word whose own width, measured without the hyphen, is at most
0.8 × maxWidth; when no such prefix exists, the prefix is the first character
of the word. -/
theorem breakWord_break_point (w : AdvancedTextWrapper) (word : Str) (maxWidth : ℚ)
    (p rest : Str) (h : w.breakWord word maxWidth = some (p, rest)) :
    p ++ rest = word ∧
    ((∃ i, 1 ≤ i ∧ i ≤ word.length / 2 ∧ p = word.take i ∧
        w.textWidth p ≤ maxWidth * (4 / 5) ∧
        ∀ j, i < j → j ≤ word.length / 2 → maxWidth * (4 / 5) < w.textWidth (word.take j)) ∨
      ((∀ j, 1 ≤ j → j ≤ word.length / 2 → maxWidth * (4 / 5) < w.textWidth (word.take j)) ∧
        p = word.take 1)) := by
  unfold AdvancedTextWrapper.breakWord at h
  simp only at h
  obtain ⟨hs1, hs2⟩ := breakWordSearch_spec w word (maxWidth * (4 / 5)) (word.length / 2)
  cases hsearch : breakWordSearch w word (maxWidth * (4 / 5)) (word.length / 2) with
  | some r =>
    rw [hsearch] at h
    simp only [Option.some.injEq] at h
    obtain ⟨i, h1, h2, h3, h4, h5⟩ := hs1 r hsearch
    rw [h, Prod.mk.injEq] at h3
    obtain ⟨hp, hrest⟩ := h3
    refine ⟨by rw [hp, hrest, List.take_append_drop], Or.inl ⟨i, h1, h2, hp, ?_, h5⟩⟩
    rw [hp]
    exact h4
  | none =>
    rw [hsearch] at h
    simp only at h
    cases hsub : substrFrom word 1 with
    | none => rw [hsub] at h; cases h
    | some rest' =>
      rw [hsub] at h
      simp only [Option.some.injEq, Prod.mk.injEq, substrTo] at h
      unfold substrFrom at hsub
      split at hsub
      · cases hsub
      · simp only [Option.some.injEq] at hsub
        refine ⟨by rw [← h.1, ← h.2, ← hsub, List.take_append_drop], Or.inr ⟨hs2 hsearch, h.1.symm⟩⟩

/-- C24 (witness): the word "abcd" broken for maxWidth 15. -/
theorem breakWord_break_point_witness :
    exampleWrapper.breakWord "abcd".toList 15 = some ("ab".toList, "cd".toList) ∧
    "ab".toList ++ "cd".toList = "abcd".toList ∧
    ((∃ i, 1 ≤ i ∧ i ≤ "abcd".toList.length / 2 ∧ "ab".toList = "abcd".toList.take i ∧
        exampleWrapper.textWidth "ab".toList ≤ 15 * (4 / 5) ∧
        ∀ j, i < j → j ≤ "abcd".toList.length / 2 →
          15 * (4 / 5) < exampleWrapper.textWidth ("abcd".toList.take j)) ∨
      ((∀ j, 1 ≤ j → j ≤ "abcd".toList.length / 2 →
          15 * (4 / 5) < exampleWrapper.textWidth ("abcd".toList.take j)) ∧
        "ab".toList = "abcd".toList.take 1)) := by
  have hb : exampleWrapper.breakWord "abcd".toList 15 = some ("ab".toList, "cd".toList) := by
    have hw : ∀ word : Str, exampleWrapper.textWidth word = 5 * word.length := by
      intro word
      simp [AdvancedTextWrapper.textWidth, exampleWrapper, exampleFont, AdvancedTextWrapper.mk']
    norm_num [AdvancedTextWrapper.breakWord, breakWordSearch, substrFrom, substrTo, hw]
  exact ⟨hb, breakWord_break_point exampleWrapper "abcd".toList 15 _ _ hb⟩

/-! ## Claim on the termination of `wrapText` -/

/-- Every pass of the loop of `wrapText` emits at most one line and consumes
a word or shortens it: the number of lines added is at most the sum, over the
words still to process, of their lengths plus one. -/
theorem wrapLoop_lines_bound (w : AdvancedTextWrapper) (options : WrappingOptions)
    (words : List Str) (currentLine : Str) (currentLineWidth : ℚ) (result : WrappedTextResult) :
    ∀ st, wrapLoop w options words currentLine currentLineWidth result = some st →
      st.2.2.lines.length ≤ result.lines.length + (words.map (fun x => x.length + 1)).sum := by
  induction words, currentLine, currentLineWidth, result using wrapLoop.induct w options with
  | case1 currentLine currentLineWidth result =>
    intro st h
    simp only [wrapLoop, Option.some.injEq] at h
    subst h
    simp
  | case2 word rest currentLine currentLineWidth result hfit hne ih =>
    intro st h
    rw [wrapLoop, if_pos hfit, if_pos hne] at h
    have := ih st h
    simp only [List.map_cons, List.sum_cons]
    omega
  | case3 word rest currentLine currentLineWidth result hfit hne ih =>
    intro st h
    rw [wrapLoop, if_pos hfit, if_neg hne] at h
    have := ih st h
    simp only [List.map_cons, List.sum_cons]
    omega
  | case4 word rest currentLine currentLineWidth result hfit hempty hhyp hnone =>
    intro st h
    rw [wrapLoop, if_neg hfit, if_pos hempty, if_pos hhyp] at h
    split at h
    · cases h
    · rename_i bw hbw
      rw [hnone] at hbw
      cases hbw
  | case5 word rest currentLine currentLineWidth result hfit hempty hhyp brokenWord hsome ih =>
    intro st h
    rw [wrapLoop, if_neg hfit, if_pos hempty, if_pos hhyp] at h
    split at h
    · cases h
    · rename_i bw hbw
      rw [hsome] at hbw
      cases hbw
      have := ih st h
      have hlt := breakWord_snd_length w word options.maxWidth brokenWord hsome
      simp only [WrappedTextResult.pushLine, List.length_append, List.length_singleton,
        List.map_cons, List.sum_cons] at this ⊢
      omega
  | case6 word rest currentLine currentLineWidth result hfit hempty hhyp ih =>
    intro st h
    rw [wrapLoop, if_neg hfit, if_pos hempty, if_neg hhyp] at h
    have := ih st h
    simp only [WrappedTextResult.pushLine, List.length_append, List.length_singleton,
      List.map_cons, List.sum_cons] at this ⊢
    omega
  | case7 word rest currentLine currentLineWidth result hfit hempty ih =>
    intro st h
    rw [wrapLoop, if_neg hfit, if_neg hempty] at h
    have := ih st h
    simp only [WrappedTextResult.pushLine, List.length_append, List.length_singleton,
      List.map_cons, List.sum_cons] at this ⊢
    omega

/-- C27: `breakWord` on a non-empty word returns a non-empty prefix and a
remainder whose concatenation is the word, so the remainder that `wrapText`
re-inserts is strictly shorter than the broken word. The loop of `wrapText`
is defined by recursion on the sum, over the words still to process, of their
lengths plus one, which every pass decreases; a returning call has emitted at
most that many lines, plus the final one. -/
theorem wrapText_terminates (w : AdvancedTextWrapper) (word : Str) (maxWidth : ℚ)
    (hw : word ≠ []) :
    (∃ p rest, w.breakWord word maxWidth = some (p, rest) ∧ p ≠ [] ∧ p ++ rest = word ∧
      rest.length < word.length) ∧
    ∀ (text : Str) (options : WrappingOptions) (r : WrappedTextResult),
      w.wrapText text options = some r →
      r.lines.length ≤ ((splitWords text).map (fun x => x.length + 1)).sum + 1 := by
  constructor
  · have hpos : 0 < word.length := List.length_pos.mpr hw
    cases hb : w.breakWord word maxWidth with
    | none =>
      unfold AdvancedTextWrapper.breakWord at hb
      simp only at hb
      split at hb
      · cases hb
      · have : substrFrom word 1 = some (word.drop 1) := by
          unfold substrFrom
          rw [if_neg (by omega)]
        rw [this] at hb
        cases hb
    | some r =>
      obtain ⟨p, rest⟩ := r
      obtain ⟨hcat, hp⟩ := breakWord_split w word maxWidth p rest hb
      exact ⟨p, rest, rfl, hp hw, hcat, breakWord_snd_length w word maxWidth (p, rest) hb⟩
  · intro text options r h
    unfold AdvancedTextWrapper.wrapText at h
    cases hloop : wrapLoop w options (splitWords text) [] 0 w.emptyResult with
    | none => rw [hloop] at h; cases h
    | some st =>
      obtain ⟨currentLine, currentLineWidth, result⟩ := st
      rw [hloop] at h
      have hb := wrapLoop_lines_bound w options _ _ _ _ _ hloop
      simp only [AdvancedTextWrapper.emptyResult, List.length_nil, Nat.zero_add] at hb
      simp only at h
      split at h
      · simp only [Option.some.injEq] at h
        rw [← h]
        simp only [List.length_append, List.length_singleton]
        omega
      · simp only [Option.some.injEq] at h
        rw [← h]
        omega

/-- C27 (witness): the word "ab" broken for maxWidth -1. -/
theorem wrapText_terminates_witness :
    (∃ p rest, exampleWrapper.breakWord "ab".toList (-1) = some (p, rest) ∧ p ≠ [] ∧
      p ++ rest = "ab".toList ∧ rest.length < "ab".toList.length) ∧
    ∀ (text : Str) (options : WrappingOptions) (r : WrappedTextResult),
      exampleWrapper.wrapText text options = some r →
      r.lines.length ≤ ((splitWords text).map (fun x => x.length + 1)).sum + 1 :=
  wrapText_terminates exampleWrapper "ab".toList (-1) (by decide)

/-! ## Claim on the wrapper in narrow columns -/

/-- The grid and the store that `BuildCellGrid` produces for the narrow
table. -/
theorem BuildCellGrid_narrow :
    BuildCellGrid oneRow narrowHeap = ([[some 0]], ⟨narrowCellsBuilt, 1⟩) := by
  simp [BuildCellGrid, oneRow, narrowHeap, maxColsOf, placeCells, skipClaimed, claimSpan,
    claimSlot, anchorCell, Grid.get, Grid.set, Heap.modify, List.range, List.range.loop,
    Function.update]
  funext p
  match p with
  | 0 => simp [narrowCellsBuilt]
  | n + 1 => simp [narrowCellsBuilt]

/-- C28 (failing input): a table of one cell with the content "ab", laid out
with tableWidth 6 and cellPadding 4. The column is 6 wide, so the cell is
wrapped, with hyphenation, into maxWidth 6 - 2 × 4 = -2: `wrapText` emits
"a-" and "b-" and hands the empty remainder to `breakWord`, whose
`word.substr(1)` throws. The exception leaves `CalculateCellPositions`. -/
theorem CalculateCellPositions_narrow_column_throws :
    BuildCellGrid oneRow narrowHeap = ([[some 0]], ⟨narrowCellsBuilt, 1⟩) ∧
    solveColumnWidths ⟨narrowCellsBuilt, 1⟩ [[some 0]] 6 = some [6] ∧
    (cellWrapper exampleStyle (narrowCellsBuilt 0)).wrapText (narrowCellsBuilt 0).content
      { maxWidth := 6 - 2 * exampleStyle.cellPadding, hyphenate := true } = none ∧
    CalculateCellPositions exampleStyle [[some 0]] 6 ⟨narrowCellsBuilt, 1⟩ = none := by
  have hcw : solveColumnWidths ⟨narrowCellsBuilt, 1⟩ [[some 0]] 6 = some [6] := by
    simp only [solveColumnWidths, explicitWidths, List.range, List.range.loop, List.foldlM,
      List.getD_cons_zero, List.length]
    simp [explicitWidthsRow, Grid.get, distributeFlexible, sumWidthsOf, fixWidthCountOf,
      narrowCellsBuilt]
  have hwrapper : cellWrapper exampleStyle (narrowCellsBuilt 0) = exampleWrapper := by
    norm_num [cellWrapper, narrowCellsBuilt, exampleStyle, exampleWrapper]
  have hw : ∀ word : Str, exampleWrapper.textWidth word = 5 * word.length := by
    intro word
    simp [AdvancedTextWrapper.textWidth, exampleWrapper, exampleFont, AdvancedTextWrapper.mk']
  have hmax : (6 : ℚ) - 2 * exampleStyle.cellPadding = -2 := by
    norm_num [exampleStyle]
  have hnofit : ∀ word : Str,
      ¬ (0 : ℚ) + exampleWrapper.spaceWidth [] + exampleWrapper.textWidth word ≤ -2 := by
    intro word
    rw [hw]
    simp only [AdvancedTextWrapper.spaceWidth, List.isEmpty_nil, ↓reduceIte, not_le]
    have : (0 : ℚ) ≤ 5 * (word.length : ℚ) := by positivity
    linarith
  have hb1 : exampleWrapper.breakWord "ab".toList (-2) = some ("a".toList, "b".toList) := by
    norm_num [AdvancedTextWrapper.breakWord, breakWordSearch, substrFrom, substrTo, hw]
  have hb2 : exampleWrapper.breakWord "b".toList (-2) = some ("b".toList, []) := by
    norm_num [AdvancedTextWrapper.breakWord, breakWordSearch, substrFrom, substrTo]
  have hb3 : exampleWrapper.breakWord [] (-2) = none := by
    norm_num [AdvancedTextWrapper.breakWord, breakWordSearch, substrFrom]
  have hthrow : exampleWrapper.wrapText "ab".toList { maxWidth := -2, hyphenate := true }
      = none := by
    have hsplit : splitWords "ab".toList = ["ab".toList] := by decide
    unfold AdvancedTextWrapper.wrapText
    rw [hsplit, wrapLoop_hyphen _ _ _ _ _ _ _ (hnofit _) rfl hb1,
      wrapLoop_hyphen _ _ _ _ _ _ _ (hnofit _) rfl hb2,
      wrapLoop_throw _ _ _ _ _ _ (hnofit _) rfl hb3]
  have hcontent : (narrowCellsBuilt 0).content = "ab".toList := rfl
  refine ⟨BuildCellGrid_narrow, hcw, ?_, ?_⟩
  · rw [hwrapper, hmax, hcontent]
    exact hthrow
  · have hw0 := writeBackWidths_same [[some 0]] 1 1 [6] ⟨narrowCellsBuilt, 1⟩ 0
    have hmeasure : measureCell exampleStyle [6] 1 0
        ((writeBackWidths [[some 0]] 1 1 [6] ⟨narrowCellsBuilt, 1⟩).cell 0) = none := by
      rw [measureCell_congr_width exampleStyle [6] 1 0 _ _ hw0]
      have hspan : spanWidth [6] 1 0 (narrowCellsBuilt 0).colspan = 6 := by
        simp [spanWidth, narrowCellsBuilt, List.range']
      show (match (cellWrapper exampleStyle (narrowCellsBuilt 0)).wrapText
          (narrowCellsBuilt 0).content
          { maxWidth := spanWidth [6] 1 0 (narrowCellsBuilt 0).colspan
              - 2 * exampleStyle.cellPadding
            hyphenate := true } with
        | none => none
        | some dimension => some (dimension.totalHeight + exampleStyle.cellPadding * 2)) = none
      rw [hspan, hwrapper, hmax, hcontent, hthrow]
    unfold CalculateCellPositions
    simp only [hcw]
    simp [resolveRowHeights, rowHeightsRow, rowHeightStep, Grid.get, List.range, List.range.loop,
      hmeasure]

/-! ## Claim on the columns sized by a spanning cell -/

/-- The grid and the store that `BuildCellGrid` produces for the wide span
example. -/
theorem BuildCellGrid_wide_example :
    BuildCellGrid wideRows wideHeap = (wideGrid, ⟨wideCellsBuilt, 6⟩) := by
  simp [BuildCellGrid, wideRows, wideHeap, maxColsOf, wideCells, placeCells,
    skipClaimed, claimSpan, claimSlot, anchorCell, spannedCell, Grid.get, Grid.set, Heap.modify,
    Heap.alloc, List.range, List.range.loop, Function.update, wideGrid]
  funext p
  match p with
  | 0 => simp [wideCellsBuilt, wideCells]
  | 1 => simp [wideCellsBuilt, wideCells]
  | 2 => simp [wideCellsBuilt, wideCells]
  | 3 => simp [wideCellsBuilt, wideCells]
  | 4 => simp [wideCellsBuilt, wideCells]
  | 5 => simp [wideCellsBuilt, wideCells]
  | n + 6 => simp [wideCellsBuilt, wideCells]

/-- C25 (failing input): a cell with colspan 2, rowspan 2 and declared width
70 starts at column 0; no other cell declares a width; tableWidth 300
(flexible value 100). The scan of the first grid row sets column 0 only. In
the second grid row the scan meets the placeholders of the cell, which carry
its width and have colspan 1: the one in column 1 sets column 1 to 70 as
well. The scanned widths are [70, 70, 100] and the solved widths
[70, 70, 160]; with column 1 left flexible they would be [70, 115, 115]. -/
theorem spanning_cell_sizes_covered_column :
    BuildCellGrid wideRows wideHeap = (wideGrid, ⟨wideCellsBuilt, 6⟩) ∧
    explicitWidthsRow ⟨wideCellsBuilt, 6⟩ wideGrid 0 3 0 (List.replicate 3 (300 / 3))
      = some [70, 100, 100] ∧
    wideGrid.get 1 1 = some 5 ∧ (wideCellsBuilt 5).isSpanned = true ∧
    (wideCellsBuilt 5).width = 70 ∧
    explicitWidths ⟨wideCellsBuilt, 6⟩ wideGrid 2 3 (List.replicate 3 (300 / 3))
      = some [70, 70, 100] ∧
    solveColumnWidths ⟨wideCellsBuilt, 6⟩ wideGrid 300 = some [70, 70, 160] ∧
    distributeFlexible 300 (300 / 3) [70, 100, 100] = [70, 115, 115] := by
  refine ⟨BuildCellGrid_wide_example, ?_, rfl, rfl, rfl, ?_, ?_, ?_⟩
  · simp [explicitWidthsRow, Grid.get, wideGrid, wideCellsBuilt]
    norm_num
  · simp only [explicitWidths, List.range, List.range.loop, List.foldlM, wideGrid]
    simp [explicitWidthsRow, Grid.get, wideCellsBuilt]
    norm_num
  · simp only [solveColumnWidths, explicitWidths, List.range, List.range.loop, List.foldlM,
      List.getD_cons_zero, List.length, wideGrid]
    simp [explicitWidthsRow, Grid.get, List.range, List.range.loop, distributeFlexible,
      sumWidthsOf, fixWidthCountOf, wideCellsBuilt]
    norm_num
  · simp [distributeFlexible, sumWidthsOf, fixWidthCountOf]
    norm_num

/-! ## Claim on claimed slots -/

/-- C26 (failing input): the first row holds a normal cell and a cell of
rowspan 2 (addresses 0 and 1), the second row one cell of colspan 2
(address 2). After the first row the slot in row 1, column 1 holds the
placeholder of the row span (address 3). The cell of the second row starts at
the free column 0 and claims its two columns without looking at them: the slot
in row 1, column 1 is assigned again, to the new placeholder at address 4, and
the placeholder of the row span is no longer in the grid. -/
theorem claimed_slot_overwritten :
    (placeCells overlapRows 2 0 [0, 1] 0
      (List.replicate 2 (List.replicate 2 none), overlapHeap)).1
      = [[some 0, some 1], [none, some 3]] ∧
    (BuildCellGrid overlapRows overlapHeap).1 = [[some 0, some 1], [some 2, some 4]] ∧
    ((BuildCellGrid overlapRows overlapHeap).2.cell 3).isSpanned = true ∧
    ((BuildCellGrid overlapRows overlapHeap).2.cell 4).isSpanned = true ∧
    (BuildCellGrid overlapRows overlapHeap).2.next = 5 := by
  refine ⟨?_, ?_, ?_, ?_, ?_⟩
  · simp [overlapRows, overlapHeap, overlapCells, placeCells,
      skipClaimed, claimSpan, claimSlot, anchorCell, spannedCell, Grid.get, Grid.set,
      Heap.modify, Heap.alloc, List.range, List.range.loop, Function.update]
  all_goals
    simp [BuildCellGrid, overlapRows, overlapHeap, maxColsOf, overlapCells, placeCells,
      skipClaimed, claimSpan, claimSlot, anchorCell, spannedCell, Grid.get, Grid.set,
      Heap.modify, Heap.alloc, List.range, List.range.loop, Function.update]

/-! ## Claim on the width write-back -/

/-- The width write-back on a grid whose slots hold pairwise distinct cells:
every cell of the grid ends with the solved width of its column. -/
theorem writeBackWidths_width (grid : Grid) (numRows numCols : Nat) (colWidths : List ℚ)
    (heap : Heap)
    (hinj : ∀ r r' c c' p, grid.get r c = some p → grid.get r' c' = some p → r = r' ∧ c = c') :
    ∀ r c p, r < numRows → c < numCols → grid.get r c = some p →
      ((writeBackWidths grid numRows numCols colWidths heap).cell p).width
        = colWidths.getD c 0 := by
  unfold writeBackWidths
  have key := foldl_range_invariant
    (fun heap row =>
      (List.range numCols).foldl
        (fun heap col =>
          match grid.get row col with
          | none => heap
          | some p => heap.modify p (fun x => { x with width := colWidths.getD col 0 }))
        heap)
    (fun i (hp : Heap) => ∀ r c p, r < i → c < numCols → grid.get r c = some p →
      (hp.cell p).width = colWidths.getD c 0)
    numRows
    (by
      intro row hp _ hinv
      have inner := foldl_range_invariant
        (fun heap col =>
          match grid.get row col with
          | none => heap
          | some p => heap.modify p (fun x => { x with width := colWidths.getD col 0 }))
        (fun j (hq : Heap) => ∀ r c p, (r < row ∨ (r = row ∧ c < j)) → c < numCols →
          grid.get r c = some p → (hq.cell p).width = colWidths.getD c 0)
        numCols
        (by
          intro col hq _ hqinv
          beta_reduce at hqinv ⊢
          intro r c p hrc hc hget
          cases hg : grid.get row col with
          | none =>
            simp only
            rcases hrc with hlt | ⟨hr, hcj⟩
            · exact hqinv r c p (Or.inl hlt) hc hget
            · by_cases hcc : c = col
              · subst hr hcc
                rw [hg] at hget
                cases hget
              · exact hqinv r c p (Or.inr ⟨hr, by omega⟩) hc hget
          | some q =>
            simp only
            by_cases hpq : p = q
            · subst hpq
              obtain ⟨e1, e2⟩ := hinj r row c col p hget hg
              rw [Heap.modify_cell_same, e2]
            · rw [Heap.modify_cell_other _ _ _ _ hpq]
              have hne : ¬ (r = row ∧ c = col) := by
                intro ⟨e1, e2⟩
                subst e1 e2
                rw [hg] at hget
                exact hpq (Option.some.inj hget).symm
              refine hqinv r c p ?_ hc hget
              rcases hrc with hlt | ⟨hr, hcj⟩
              · exact Or.inl hlt
              · exact Or.inr ⟨hr, by
                  have : c ≠ col := fun e => hne ⟨hr, e⟩
                  omega⟩)
        hp
        (fun r c p hrc hc hget => by
          rcases hrc with hlt | ⟨_, hcj⟩
          · exact hinv r c p hlt hc hget
          · exact absurd hcj (Nat.not_lt_zero c))
      beta_reduce at inner ⊢
      intro r c p hr hc hget
      refine inner r c p ?_ hc hget
      by_cases hrr : r = row
      · exact Or.inr ⟨hrr, hc⟩
      · exact Or.inl (by omega))
    heap (fun r c p hr => absurd hr (Nat.not_lt_zero r))
  exact key

/-- C22 (amended): laying out the grid built from rows of pairwise distinct
cells writes the solved width of its column into every cell of the grid,
input cells included: after `CalculateCellPositions` the `width` of a cell in
column `c` is the solved width of column `c`, whatever width the cell
declared. The layout changes no field of a cell but `width` and `height`
(and `BuildCellGrid` none of an input cell but `height` and `isRowHeader`). -/
theorem CalculateCellPositions_writes_widths (style : TableStyle) (rows : List TableRow)
    (h0 : Heap) (tableWidth : ℚ) (grid : Grid) (h1 : Heap) (positions : List CellPosition)
    (heap' : Heap)
    (hnodup : (allCells rows).Nodup) (halloc : ∀ p ∈ allCells rows, p < h0.next)
    (hbuild : BuildCellGrid rows h0 = (grid, h1))
    (h : CalculateCellPositions style grid tableWidth h1 = some (positions, heap')) :
    ∃ colWidths, solveColumnWidths h1 grid tableWidth = some colWidths ∧
      (∀ r c p, grid.get r c = some p → (heap'.cell p).width = colWidths.getD c 0) ∧
      (∀ p, ((heap'.cell p).withWidth 0).withHeight 0
        = ((h1.cell p).withWidth 0).withHeight 0) ∧
      (∀ p ∈ allCells rows,
        h1.cell p = { h0.cell p with
          height := (h1.cell p).height, isRowHeader := (h1.cell p).isRowHeader }) := by
  have hinv := BuildCellGrid_inv rows h0 hnodup halloc
  rw [hbuild] at hinv
  have hinput : ∀ p ∈ allCells rows,
      h1.cell p = { h0.cell p with
        height := (h1.cell p).height, isRowHeader := (h1.cell p).isRowHeader } :=
    fun p hp => hinv.input p (halloc p hp)
  by_cases hne : grid = []
  · subst hne
    simp only [CalculateCellPositions, List.isEmpty_nil, ↓reduceIte, Option.some.injEq,
      Prod.mk.injEq] at h
    refine ⟨[], by simp [solveColumnWidths, explicitWidths, distributeFlexible], ?_, ?_, hinput⟩
    · intro r c p hg
      simp [Grid.get] at hg
    · intro p
      rw [← h.2]
  · obtain ⟨colWidths, hcw, hres, _⟩ :=
      CalculateCellPositions_some style grid tableWidth h1 positions heap' hne h
    have hsame := resolveRowHeights_same _ _ _ _ _ _ _ hres
    have hw := writeBackWidths_same grid grid.length (grid.getD 0 []).length colWidths h1
    refine ⟨colWidths, hcw, ?_, ?_, hinput⟩
    · intro r c p hg
      obtain ⟨hr, hc⟩ := Grid.get_some_bounds grid r c p hg
      have hlen : grid.length = rows.length := hinv.rowsLen
      rw [hinv.colsLen r (by omega)] at hc
      have hc0 : c < (grid.getD 0 []).length := by
        rw [hinv.colsLen 0 (by omega)]
        exact hc
      have e := congrArg TableCell.width (hsame p)
      simp only [TableCell.withHeight] at e
      rw [e]
      exact writeBackWidths_width grid grid.length (grid.getD 0 []).length colWidths h1
        hinv.inj r c p hr hc0 hg
    · intro p
      have e1 := congrArg (fun x => TableCell.withWidth x 0) (hsame p)
      have e2 := congrArg (fun x => TableCell.withHeight x 0) (hw p)
      simp only [TableCell.withHeight, TableCell.withWidth] at e1 e2 ⊢
      rw [← e2]
      exact e1

/-- The grid and the store that `BuildCellGrid` produces for `flexRows`. -/
theorem BuildCellGrid_flex :
    BuildCellGrid flexRows (plainHeap 2) = ([[some 0, some 1]], ⟨flexCellsBuilt, 2⟩) := by
  simp [BuildCellGrid, flexRows, plainHeap, maxColsOf, placeCells, skipClaimed, claimSpan,
    claimSlot, anchorCell, Grid.get, Grid.set, Heap.modify, List.range, List.range.loop,
    Function.update]
  funext p
  match p with
  | 0 => simp [flexCellsBuilt]
  | 1 => simp [flexCellsBuilt]
  | n + 2 => simp [flexCellsBuilt]

/-- The layout of `flexRows` for tableWidth 300 returns. -/
theorem CalculateCellPositions_flex :
    solveColumnWidths ⟨flexCellsBuilt, 2⟩ [[some 0, some 1]] 300 = some [150, 150] ∧
    ∃ positions heap',
      CalculateCellPositions exampleStyle [[some 0, some 1]] 300 ⟨flexCellsBuilt, 2⟩
        = some (positions, heap') := by
  have hcw : solveColumnWidths ⟨flexCellsBuilt, 2⟩ [[some 0, some 1]] 300
      = some [150, 150] := by
    simp only [solveColumnWidths, explicitWidths, List.range, List.range.loop, List.foldlM,
      List.getD_cons_zero, List.length]
    simp [explicitWidthsRow, Grid.get, distributeFlexible, sumWidthsOf, fixWidthCountOf,
      flexCellsBuilt]
    norm_num
  refine ⟨hcw, CalculateCellPositions_total exampleStyle _ 300 _ _ hcw ?_⟩
  intro r c p _
  refine ⟨_, measureCell_empty exampleStyle _ _ _ _ ?_⟩
  show (flexCellsBuilt p).content = []
  unfold flexCellsBuilt
  split <;> rfl

/-- C22 (counterexample): one row of two cells that declare no width, laid
out with tableWidth 300. The layout writes the solved width 150 into both
input cells (declared width 0). Laying the same rows out again with
tableWidth 200 finds the widths 150 in the cells, takes them for explicit and
solves [150, 150]; a fresh layout with tableWidth 200 solves [100, 100]. -/
theorem layout_persists_counterexample :
    BuildCellGrid flexRows (plainHeap 2) = ([[some 0, some 1]], ⟨flexCellsBuilt, 2⟩) ∧
    ((plainHeap 2).cell 0).width = 0 ∧
    solveColumnWidths ⟨flexCellsBuilt, 2⟩ [[some 0, some 1]] 200 = some [100, 100] ∧
    ∃ positions heap',
      CalculateCellPositions exampleStyle [[some 0, some 1]] 300 ⟨flexCellsBuilt, 2⟩
        = some (positions, heap') ∧
      (heap'.cell 0).width = 150 ∧ (heap'.cell 1).width = 150 ∧
      (BuildCellGrid flexRows heap').1 = [[some 0, some 1]] ∧
      solveColumnWidths (BuildCellGrid flexRows heap').2 [[some 0, some 1]] 200
        = some [150, 150] := by
  obtain ⟨hcw, positions, heap', h⟩ := CalculateCellPositions_flex
  obtain ⟨colWidths, hcw', hres, _⟩ := CalculateCellPositions_some exampleStyle _ 300 _
    positions heap' (by simp) h
  rw [hcw] at hcw'
  simp only [Option.some.injEq] at hcw'
  subst hcw'
  have hsame : (writeBackWidths [[some 0, some 1]] 1 2 [150, 150]
      ⟨flexCellsBuilt, 2⟩).sameButHeights heap' := resolveRowHeights_same _ _ _ _ _ _ _ hres
  have hw := writeBackWidths_same [[some 0, some 1]] 1 2 [150, 150] ⟨flexCellsBuilt, 2⟩
  have hslots : ∀ (r c p : Nat), Grid.get [[some 0, some 1]] r c = some p →
      (r = 0 ∧ c = 0 ∧ p = 0) ∨ (r = 0 ∧ c = 1 ∧ p = 1) := by
    intro r c p hg
    obtain ⟨hr, hc⟩ := Grid.get_some_bounds _ r c p hg
    have hr1 : r < 1 := hr
    interval_cases r
    have hc2 : c < 2 := hc
    interval_cases c <;> simp [Grid.get] at hg <;> simp [hg]
  have hwidth : ∀ (c p : Nat), c < 2 → Grid.get [[some 0, some 1]] 0 c = some p →
      (heap'.cell p).width = 150 := by
    intro c p hc hg
    have e := congrArg TableCell.width (hsame p)
    simp only [TableCell.withHeight] at e
    rw [e]
    have := writeBackWidths_width [[some 0, some 1]] 1 2 [150, 150] ⟨flexCellsBuilt, 2⟩
      (by
        intro r r' c c' p h1 h2
        rcases hslots r c p h1 with ⟨e1, e2, e3⟩ | ⟨e1, e2, e3⟩ <;>
        rcases hslots r' c' p h2 with ⟨f1, f2, f3⟩ | ⟨f1, f2, f3⟩ <;> omega)
      0 c p (by decide) hc hg
    rw [this]
    interval_cases c <;> rfl
  have h0 := hwidth 0 0 (by decide) rfl
  have h1 := hwidth 1 1 (by decide) rfl
  have hspan : ∀ p, (heap'.cell p).colspan = 1 ∧ (heap'.cell p).rowspan = 1 := by
    intro p
    have e1 := congrArg TableCell.colspan (hsame p)
    have e2 := congrArg TableCell.colspan (hw p)
    have e3 := congrArg TableCell.rowspan (hsame p)
    have e4 := congrArg TableCell.rowspan (hw p)
    simp only [TableCell.withHeight, TableCell.withWidth] at e1 e2 e3 e4
    rw [e1, e2, e3, e4]
    unfold flexCellsBuilt
    split <;> exact ⟨rfl, rfl⟩
  have hgrid : (BuildCellGrid flexRows heap').1 = [[some 0, some 1]] := by
    simp [BuildCellGrid, flexRows, maxColsOf, placeCells, skipClaimed, claimSpan,
      claimSlot, anchorCell, Grid.get, Grid.set, Heap.modify, List.range, List.range.loop,
      Function.update, hspan]
  have hcells : ((BuildCellGrid flexRows heap').2.cell 0).width = 150 ∧
      ((BuildCellGrid flexRows heap').2.cell 1).width = 150 ∧
      ((BuildCellGrid flexRows heap').2.cell 0).colspan = 1 ∧
      ((BuildCellGrid flexRows heap').2.cell 1).colspan = 1 := by
    simp [BuildCellGrid, flexRows, maxColsOf, placeCells, skipClaimed, claimSpan,
      claimSlot, anchorCell, Grid.get, Grid.set, Heap.modify, List.range, List.range.loop,
      Function.update, hspan, h0, h1]
  refine ⟨BuildCellGrid_flex, rfl, ?_, positions, heap', h, h0, h1, hgrid, ?_⟩
  · simp only [solveColumnWidths, explicitWidths, List.range, List.range.loop, List.foldlM,
      List.getD_cons_zero, List.length]
    simp [explicitWidthsRow, Grid.get, distributeFlexible, sumWidthsOf, fixWidthCountOf,
      flexCellsBuilt]
    norm_num
  · simp only [solveColumnWidths, explicitWidths, List.range, List.range.loop, List.foldlM,
      List.getD_cons_zero, List.length]
    simp [explicitWidthsRow, Grid.get, distributeFlexible, sumWidthsOf, fixWidthCountOf,
      hcells]
    norm_num

/-- C22 (witness): the layout of `flexRows` for tableWidth 300. -/
theorem CalculateCellPositions_writes_widths_witness :
    ∃ positions heap',
      CalculateCellPositions exampleStyle [[some 0, some 1]] 300 ⟨flexCellsBuilt, 2⟩
        = some (positions, heap') ∧
      ∃ colWidths,
        solveColumnWidths ⟨flexCellsBuilt, 2⟩ [[some 0, some 1]] 300 = some colWidths ∧
        (∀ r c p, Grid.get [[some 0, some 1]] r c = some p →
          (heap'.cell p).width = colWidths.getD c 0) ∧
        (∀ p, ((heap'.cell p).withWidth 0).withHeight 0
          = ((flexCellsBuilt p).withWidth 0).withHeight 0) ∧
        (∀ p ∈ allCells flexRows,
          flexCellsBuilt p = { (plainHeap 2).cell p with
            height := (flexCellsBuilt p).height
            isRowHeader := (flexCellsBuilt p).isRowHeader }) := by
  obtain ⟨_, positions, heap', h⟩ := CalculateCellPositions_flex
  have hcells : allCells flexRows = [0, 1] := by decide
  exact ⟨positions, heap', h,
    CalculateCellPositions_writes_widths exampleStyle flexRows (plainHeap 2) 300
      [[some 0, some 1]] ⟨flexCellsBuilt, 2⟩ positions heap'
      (by rw [hcells]; decide)
      (by
        rw [hcells]
        intro p hp
        simp only [List.mem_cons, List.mem_singleton, List.not_mem_nil, or_false] at hp
        show p < 2
        rcases hp with h | h <;> subst h <;> decide)
      BuildCellGrid_flex h⟩

/-! ## Claim on the height floor -/

/-- One step of the column loop of the row height pass keeps every cell of the
grid at or above the floor of its row. -/
theorem rowHeightStep_floor (style : TableStyle) (grid : Grid) (colWidths : List ℚ)
    (numRows numCols row : Nat) (decl : Nat → ℚ) (hrow : row < numRows)
    (hinj : ∀ r r' c c' p, grid.get r c = some p → grid.get r' c' = some p → r = r' ∧ c = c')
    (st st' : ℚ × Heap) (col : Nat) (hcol : col < numCols)
    (hstep : rowHeightStep style grid colWidths numCols row st col = some st')
    (hfloor : ∀ r c q, r < numRows → c < numCols → grid.get r c = some q →
      decl r ≤ (st.2.cell q).height) :
    ∀ r c q, r < numRows → c < numCols → grid.get r c = some q →
      decl r ≤ (st'.2.cell q).height := by
  unfold rowHeightStep at hstep
  cases hg : grid.get row col with
  | none =>
    rw [hg] at hstep
    simp only [Option.some.injEq] at hstep
    rw [← hstep]
    exact hfloor
  | some p =>
    rw [hg] at hstep
    simp only at hstep
    cases hm : measureCell style colWidths numCols col (st.2.cell p) with
    | none => rw [hm] at hstep; cases hstep
    | some t =>
      rw [hm] at hstep
      simp only [Option.some.injEq] at hstep
      rw [← hstep]
      have hraised : ∀ r c q, r < numRows → c < numCols → grid.get r c = some q →
          decl r ≤ ((raiseHeight st.2 p t).cell q).height := by
        intro r c q hr hc hq
        by_cases hqp : q = p
        · subst hqp
          rw [raiseHeight_height]
          exact le_trans (hfloor r c q hr hc hq) (le_max_left _ _)
        · rw [raiseHeight_other _ _ _ _ hqp]
          exact hfloor r c q hr hc hq
      unfold raiseRowHeight
      simp only
      split
      · obtain ⟨hin, hout⟩ := propagateRowHeight_height grid row numCols
          ((raiseHeight st.2 p t).cell p).height (raiseHeight st.2 p t)
        intro r c q hr hc hq
        by_cases hmem : ∃ c', c' < numCols ∧ grid.get row c' = some q
        · rw [hin q hmem]
          obtain ⟨c', _, hq'⟩ := hmem
          obtain ⟨e, _⟩ := hinj r row c c' q hq hq'
          rw [e]
          exact hraised row col p hrow hcol hg
        · rw [hout q hmem]
          exact hraised r c q hr hc hq
      · exact hraised

/-- The row height pass never takes a cell of the grid below the floor of
its row. -/
theorem resolveRowHeights_floor (style : TableStyle) (grid : Grid) (colWidths : List ℚ)
    (numRows numCols : Nat) (decl : Nat → ℚ) (heap heap' : Heap)
    (hinj : ∀ r r' c c' p, grid.get r c = some p → grid.get r' c' = some p → r = r' ∧ c = c')
    (hres : resolveRowHeights style grid colWidths numRows numCols heap = some heap')
    (hfloor : ∀ r c q, r < numRows → c < numCols → grid.get r c = some q →
      decl r ≤ (heap.cell q).height) :
    ∀ r c q, r < numRows → c < numCols → grid.get r c = some q →
      decl r ≤ (heap'.cell q).height := by
  unfold resolveRowHeights at hres
  refine foldlM_range_invariant (rowHeightsRow style grid colWidths numCols)
    (fun _ hp => ∀ r c q, r < numRows → c < numCols → grid.get r c = some q →
      decl r ≤ (hp.cell q).height) numRows ?_ heap heap' hres hfloor
  intro row hp hp' hrow hstep hinv
  unfold rowHeightsRow at hstep
  cases hf : (List.range numCols).foldlM (rowHeightStep style grid colWidths numCols row)
      ((0 : ℚ), hp) with
  | none => rw [hf] at hstep; cases hstep
  | some st =>
    rw [hf] at hstep
    simp only [Option.map_some', Option.some.injEq] at hstep
    rw [← hstep]
    exact foldlM_range_invariant (rowHeightStep style grid colWidths numCols row)
      (fun _ s => ∀ r c q, r < numRows → c < numCols → grid.get r c = some q →
        decl r ≤ (s.2.cell q).height) numCols
      (fun col s s' hcol hs hP =>
        rowHeightStep_floor style grid colWidths numRows numCols row decl hrow hinj s s' col hcol
          hs hP)
      ((0 : ℚ), hp) st hf hinv

/-- C21: for rows of pairwise distinct cells, after `BuildCellGrid` every cell
of the grid has the declared height of its row, and after a returning
`CalculateCellPositions` the height of every cell of the grid, anchor or
placeholder, is greater than or equal to that declared height: the layout can
only raise it. -/
theorem CalculateCellPositions_height_floor (style : TableStyle) (rows : List TableRow)
    (h0 : Heap) (tableWidth : ℚ) (grid : Grid) (h1 : Heap) (positions : List CellPosition)
    (heap' : Heap)
    (hnodup : (allCells rows).Nodup) (halloc : ∀ p ∈ allCells rows, p < h0.next)
    (hbuild : BuildCellGrid rows h0 = (grid, h1))
    (h : CalculateCellPositions style grid tableWidth h1 = some (positions, heap')) :
    ∀ r c p, grid.get r c = some p →
      (h1.cell p).height = (rows.getD r default).height ∧
      (rows.getD r default).height ≤ (heap'.cell p).height := by
  have hinv := BuildCellGrid_inv rows h0 hnodup halloc
  rw [hbuild] at hinv
  intro r c p hg
  refine ⟨hinv.height r c p hg, ?_⟩
  have hne : grid ≠ [] := by
    intro hnil
    subst hnil
    simp [Grid.get] at hg
  obtain ⟨colWidths, _, hres, _⟩ :=
    CalculateCellPositions_some style grid tableWidth h1 positions heap' hne h
  obtain ⟨hr, hc⟩ := Grid.get_some_bounds grid r c p hg
  have hlen : grid.length = rows.length := hinv.rowsLen
  rw [hinv.colsLen r (by omega)] at hc
  have hc0 : c < (grid.getD 0 []).length := by
    rw [hinv.colsLen 0 (by omega)]
    exact hc
  refine resolveRowHeights_floor style grid colWidths grid.length (grid.getD 0 []).length
    (fun r => (rows.getD r default).height) _ heap' hinv.inj hres ?_ r c p hr hc0 hg
  intro r' c' q _ _ hq
  have e := congrArg TableCell.height
    (writeBackWidths_same grid grid.length (grid.getD 0 []).length colWidths h1 q)
  simp only [TableCell.withWidth] at e
  rw [e, hinv.height r' c' q hq]

/-- C21 (witness): the worked example. -/
theorem CalculateCellPositions_height_floor_witness :
    ∃ positions heap',
      CalculateCellPositions exampleStyle exampleGrid 300 ⟨exampleCellsBuilt, 6⟩
        = some (positions, heap') ∧
      ∀ r c p, exampleGrid.get r c = some p →
        (exampleCellsBuilt p).height = (exampleRows.getD r default).height ∧
        (exampleRows.getD r default).height ≤ (heap'.cell p).height := by
  obtain ⟨positions, heap', h⟩ := CalculateCellPositions_example
  have hcells : allCells exampleRows = [0, 1, 2, 3, 4] := by decide
  exact ⟨positions, heap', h,
    CalculateCellPositions_height_floor exampleStyle exampleRows exampleHeap 300 exampleGrid
      ⟨exampleCellsBuilt, 6⟩ positions heap'
      (by rw [hcells]; decide)
      (by
        rw [hcells]
        intro p hp
        simp only [List.mem_cons, List.mem_singleton, List.not_mem_nil, or_false] at hp
        show p < 5
        rcases hp with h | h | h | h | h <;> subst h <;> decide)
      BuildCellGrid_example h⟩

/-! ## Where the anchors of a row end up -/

/-- What claiming one slot does to the grid: the other slots are unchanged, and
a cell of the caller appears only in the anchor step, at the anchor slot. -/
theorem claimSlot_anchor (rows : List TableRow) (h0 : Heap) (maxCols rowIdx colIdx : Nat)
    (cell : Ptr) (r c : Nat) (st : Grid × Heap) (hinv : ShapeInv rows h0 maxCols st) :
    (∀ r' c', ¬ (r' = rowIdx + r ∧ c' = colIdx + c) →
      (claimSlot rows rowIdx colIdx cell r c st).1.get r' c' = st.1.get r' c') ∧
    (∀ r' c' p, (claimSlot rows rowIdx colIdx cell r c st).1.get r' c' = some p → p < h0.next →
      st.1.get r' c' = some p ∨ (r = 0 ∧ c = 0 ∧ r' = rowIdx ∧ c' = colIdx ∧ p = cell)) ∧
    (r = 0 → c = 0 → rowIdx < rows.length → colIdx < maxCols →
      (claimSlot rows rowIdx colIdx cell r c st).1.get rowIdx colIdx = some cell) := by
  refine ⟨?_, ?_, ?_⟩
  · intro r' c' hne
    unfold claimSlot
    split
    · rw [Grid.get_set, if_neg (fun h => hne ⟨h.1, h.2.1⟩)]
    · rw [Grid.get_set, if_neg (fun h => hne ⟨h.1, h.2.1⟩)]
  · intro r' c' p hg hp
    unfold claimSlot at hg
    split at hg
    · rename_i h00
      rcases Grid.get_set_cases _ _ _ _ _ _ _ hg with ⟨e1, e2, e3⟩ | ⟨_, hold⟩
      · right
        obtain ⟨hr0, hc0⟩ := h00
        subst hr0 hc0
        exact ⟨rfl, rfl, by omega, by omega, (Option.some.inj e3).symm⟩
      · exact Or.inl hold
    · rcases Grid.get_set_cases _ _ _ _ _ _ _ hg with ⟨_, _, e3⟩ | ⟨_, hold⟩
      · have hpn : st.2.next = p := Option.some.inj e3
        have := hinv.next
        exact absurd hp (Nat.not_lt.mpr (by rw [← hpn]; exact this))
      · exact Or.inl hold
  · intro hr0 hc0 hrow hcol
    subst hr0 hc0
    unfold claimSlot
    rw [if_pos ⟨rfl, rfl⟩]
    simp only [Nat.add_zero]
    exact Grid.get_set_self _ _ _ _ (by rw [hinv.rowsLen]; exact hrow)
      (by rw [hinv.colsLen _ hrow]; exact hcol)

/-- What claiming the span of one cell does to the grid: the cell is stored at
its anchor slot, the slots above the row and left of the column are
unchanged, and no other cell of the caller appears. -/
theorem claimSpan_anchor (rows : List TableRow) (h0 : Heap) (maxCols rowIdx colIdx : Nat)
    (cell : Ptr) (st : Grid × Heap) (hinv : ShapeInv rows h0 maxCols st)
    (hr : rowIdx < rows.length) (hc : colIdx < maxCols) (hcell : cell < h0.next)
    (hrowspan : 1 ≤ (h0.cell cell).rowspan) (hcolspan : 1 ≤ (h0.cell cell).colspan) :
    (claimSpan rows maxCols rowIdx colIdx cell st).1.get rowIdx colIdx = some cell ∧
    (∀ r' c', (r' < rowIdx ∨ c' < colIdx) →
      (claimSpan rows maxCols rowIdx colIdx cell st).1.get r' c' = st.1.get r' c') ∧
    (∀ r' c' p, (claimSpan rows maxCols rowIdx colIdx cell st).1.get r' c' = some p →
      p < h0.next → st.1.get r' c' = some p ∨ (r' = rowIdx ∧ c' = colIdx ∧ p = cell)) := by
  unfold claimSpan
  have hpos : 0 < min (st.2.cell cell).rowspan (rows.length - rowIdx) := by
    rw [(hinv.spans cell hcell).2]
    exact Nat.lt_min.mpr ⟨hrowspan, by omega⟩
  have key := foldl_range_invariant
    (fun st r =>
      (List.range (min (st.2.cell cell).colspan (maxCols - colIdx))).foldl
        (fun st c => claimSlot rows rowIdx colIdx cell r c st) st)
    (fun i s => ShapeInv rows h0 maxCols s ∧
      (∀ r' c', (r' < rowIdx ∨ c' < colIdx) → s.1.get r' c' = st.1.get r' c') ∧
      (∀ r' c' p, s.1.get r' c' = some p → p < h0.next →
        st.1.get r' c' = some p ∨ (r' = rowIdx ∧ c' = colIdx ∧ p = cell)) ∧
      (0 < i → s.1.get rowIdx colIdx = some cell))
    (min (st.2.cell cell).rowspan (rows.length - rowIdx))
    (by
      intro r s _ hs
      obtain ⟨hs1, hs2, hs3, hs4⟩ := hs
      have hn : 0 < min (s.2.cell cell).colspan (maxCols - colIdx) := by
        rw [(hs1.spans cell hcell).1]
        exact Nat.lt_min.mpr ⟨hcolspan, by omega⟩
      have inner := foldl_range_invariant
        (fun st c => claimSlot rows rowIdx colIdx cell r c st)
        (fun j s' => ShapeInv rows h0 maxCols s' ∧
          (∀ r' c', (r' < rowIdx ∨ c' < colIdx) → s'.1.get r' c' = st.1.get r' c') ∧
          (∀ r' c' p, s'.1.get r' c' = some p → p < h0.next →
            st.1.get r' c' = some p ∨ (r' = rowIdx ∧ c' = colIdx ∧ p = cell)) ∧
          ((0 < r ∨ 0 < j) → s'.1.get rowIdx colIdx = some cell))
        (min (s.2.cell cell).colspan (maxCols - colIdx))
        (by
          intro c s' _ hs'
          obtain ⟨ht1, ht2, ht3, ht4⟩ := hs'
          obtain ⟨ha, hb, hcc⟩ := claimSlot_anchor rows h0 maxCols rowIdx colIdx cell r c s' ht1
          refine ⟨claimSlot_shape rows h0 maxCols rowIdx colIdx cell r c s' ht1, ?_, ?_, ?_⟩
          · intro r' c' hrc
            rw [ha r' c' (by omega)]
            exact ht2 r' c' hrc
          · intro r' c' p hg hp
            rcases hb r' c' p hg hp with hold | ⟨_, _, e1, e2, e3⟩
            · exact ht3 r' c' p hold hp
            · exact Or.inr ⟨e1, e2, e3⟩
          · intro _
            by_cases h00 : r = 0 ∧ c = 0
            · exact hcc h00.1 h00.2 hr hc
            · rw [ha rowIdx colIdx (by omega)]
              exact ht4 (by omega))
        s ⟨hs1, hs2, hs3, fun h => by
          rcases h with h | h
          · exact hs4 h
          · exact absurd h (Nat.lt_irrefl 0)⟩
      exact ⟨inner.1, inner.2.1, inner.2.2.1, fun _ => inner.2.2.2 (Or.inr hn)⟩)
    st ⟨hinv, fun _ _ _ => rfl, fun _ _ _ h _ => Or.inl h,
      fun h => absurd h (Nat.lt_irrefl 0)⟩
  exact ⟨key.2.2.2 hpos, key.2.1, key.2.2.1⟩

/-- The loop over the cells of one row, started at column `colIdx` with the
slots of the row left of it populated: slots above the row and left of the
column are unchanged; the cells handled before the row is full are stored, in
order, at columns `cols` that leave room for the colspan of each, and no other
cell of the caller enters the grid; when cells are left over, the row is
full. -/
theorem placeCells_anchors (rows : List TableRow) (h0 : Heap) (maxCols rowIdx : Nat)
    (hr : rowIdx < rows.length) :
    ∀ (cells : List Ptr) (colIdx : Nat) (st : Grid × Heap),
      ShapeInv rows h0 maxCols st →
      (∀ cell ∈ cells, cell < h0.next ∧ 1 ≤ (h0.cell cell).rowspan ∧
        1 ≤ (h0.cell cell).colspan) →
      (∀ c, c < colIdx → c < maxCols → (st.1.get rowIdx c).isSome = true) →
      (∀ r c, (r < rowIdx ∨ c < colIdx) →
        (placeCells rows maxCols rowIdx cells colIdx st).1.get r c = st.1.get r c) ∧
      ∃ cols : List Nat, cols.length ≤ cells.length ∧
        (∀ j, j < cols.length → colIdx ≤ cols.getD j 0 ∧ cols.getD j 0 < maxCols) ∧
        (∀ j1 j2, j1 < j2 → j2 < cols.length →
          cols.getD j1 0 + (h0.cell (cells.getD j1 0)).colspan ≤ cols.getD j2 0) ∧
        (∀ j, j < cols.length →
          (placeCells rows maxCols rowIdx cells colIdx st).1.get rowIdx (cols.getD j 0)
            = some (cells.getD j 0)) ∧
        (∀ r c p, (placeCells rows maxCols rowIdx cells colIdx st).1.get r c = some p →
          p < h0.next →
          st.1.get r c = some p ∨
            (r = rowIdx ∧ ∃ j, j < cols.length ∧ c = cols.getD j 0 ∧ p = cells.getD j 0)) ∧
        (cols.length < cells.length → ∀ c, c < maxCols →
          ((placeCells rows maxCols rowIdx cells colIdx st).1.get rowIdx c).isSome = true) := by
  intro cells
  induction cells with
  | nil =>
    intro colIdx st _ _ _
    refine ⟨fun _ _ _ => by simp only [placeCells], [], le_refl _,
      fun j hj => absurd hj (Nat.not_lt_zero j),
      fun _ j2 _ hj => absurd hj (Nat.not_lt_zero j2), fun j hj => absurd hj (Nat.not_lt_zero j),
      fun _ _ _ h _ => Or.inl (by simpa only [placeCells] using h),
      fun h => absurd h (Nat.lt_irrefl 0)⟩
  | cons cell cells ih =>
    intro colIdx st hinv hcells hpop
    obtain ⟨hk1, hk2⟩ := skipClaimed_spec st.1 rowIdx maxCols maxCols colIdx
    have hbelow : ∀ c, c < skipClaimed st.1 rowIdx maxCols maxCols colIdx → c < maxCols →
        (st.1.get rowIdx c).isSome = true := by
      intro c hc hcm
      by_cases hcc : c < colIdx
      · exact hpop c hcc hcm
      · exact hk2 c (by omega) hc
    unfold placeCells
    simp only
    split
    · rename_i hbreak
      refine ⟨fun _ _ _ => rfl, [], Nat.zero_le _, fun j hj => absurd hj (Nat.not_lt_zero j),
        fun _ j2 _ hj => absurd hj (Nat.not_lt_zero j2),
        fun j hj => absurd hj (Nat.not_lt_zero j), fun _ _ _ h _ => Or.inl h, ?_⟩
      intro _ c hcm
      exact hbelow c (by omega) hcm
    · rename_i hnobreak
      obtain ⟨hc1, hc2, hc3⟩ := hcells cell (List.mem_cons_self _ _)
      have hklt : skipClaimed st.1 rowIdx maxCols maxCols colIdx < maxCols := by omega
      obtain ⟨ha, hb, hc⟩ := claimSpan_anchor rows h0 maxCols rowIdx
        (skipClaimed st.1 rowIdx maxCols maxCols colIdx) cell st hinv hr hklt hc1 hc2 hc3
      obtain ⟨hs1, hs2, hs3⟩ := claimSpan_populated rows h0 maxCols rowIdx
        (skipClaimed st.1 rowIdx maxCols maxCols colIdx) cell st hinv hr hc1 hc2
      have hspan := (hs1.spans cell hc1).1
      obtain ⟨hframe, cols, hlen, hrange, hspace, hanch, hinputs, hfull⟩ := ih
        (skipClaimed st.1 rowIdx maxCols maxCols colIdx
          + ((claimSpan rows maxCols rowIdx (skipClaimed st.1 rowIdx maxCols maxCols colIdx)
              cell st).2.cell cell).colspan)
        (claimSpan rows maxCols rowIdx (skipClaimed st.1 rowIdx maxCols maxCols colIdx) cell st)
        hs1 (fun x hx => hcells x (List.mem_cons_of_mem _ hx))
        (by
          intro c hc hcm
          rw [hspan] at hc
          by_cases hck : c < skipClaimed st.1 rowIdx maxCols maxCols colIdx
          · exact hs2 _ _ (hbelow c hck hcm)
          · have := hs3 (c - skipClaimed st.1 rowIdx maxCols maxCols colIdx) (by omega)
              (by omega)
            rw [show skipClaimed st.1 rowIdx maxCols maxCols colIdx
                + (c - skipClaimed st.1 rowIdx maxCols maxCols colIdx) = c by omega] at this
            exact this)
      refine ⟨?_, skipClaimed st.1 rowIdx maxCols maxCols colIdx :: cols, ?_, ?_, ?_, ?_, ?_, ?_⟩
      · intro r c hrc
        rw [hframe r c (by omega), hb r c (by omega)]
      · simp only [List.length_cons]
        omega
      · intro j hj
        cases j with
        | zero => exact ⟨hk1, hklt⟩
        | succ j =>
          simp only [List.getD_cons_succ]
          simp only [List.length_cons] at hj
          have := hrange j (by omega)
          exact ⟨by omega, this.2⟩
      · intro j1 j2 hlt hj2
        simp only [List.length_cons] at hj2
        cases j2 with
        | zero => exact absurd hlt (Nat.not_lt_zero j1)
        | succ j2 =>
          cases j1 with
          | zero =>
            simp only [List.getD_cons_zero, List.getD_cons_succ]
            have := (hrange j2 (by omega)).1
            omega
          | succ j1 =>
            simp only [List.getD_cons_succ]
            exact hspace j1 j2 (by omega) (by omega)
      · intro j hj
        simp only [List.length_cons] at hj
        cases j with
        | zero =>
          simp only [List.getD_cons_zero]
          rw [hframe rowIdx _ (Or.inr (by omega))]
          exact ha
        | succ j =>
          simp only [List.getD_cons_succ]
          exact hanch j (by omega)
      · intro r c p hg hp
        rcases hinputs r c p hg hp with hold | ⟨e1, j, hj, e2, e3⟩
        · rcases hc r c p hold hp with hst | ⟨e1, e2, e3⟩
          · exact Or.inl hst
          · exact Or.inr ⟨e1, 0, by simp, by simpa using e2, by simpa using e3⟩
        · exact Or.inr ⟨e1, j + 1, by simpa using hj, by simpa using e2, by simpa using e3⟩
      · intro hlt c hcm
        simp only [List.length_cons] at hlt
        exact hfull (by omega) c hcm

/-- The anchors of the grid built by `BuildCellGrid` from cells of colspan and
rowspan at least 1: in every row the cells handled before the row is full are
stored in grid row `i` as `RowAnchors` tells, and these are the only slots
that hold a cell of the caller. -/
theorem BuildCellGrid_anchors (rows : List TableRow) (h0 : Heap)
    (halloc : ∀ p ∈ allCells rows, p < h0.next)
    (hspans : ∀ p ∈ allCells rows, 1 ≤ (h0.cell p).rowspan ∧ 1 ≤ (h0.cell p).colspan) :
    ∃ colsOf : Nat → List Nat,
      (∀ i, i < rows.length →
        RowAnchors rows h0 (maxColsOf h0 rows) (BuildCellGrid rows h0).1 i (colsOf i)) ∧
      (∀ r c p, (BuildCellGrid rows h0).1.get r c = some p → p < h0.next →
        r < rows.length ∧ ∃ j, j < (colsOf r).length ∧ c = (colsOf r).getD j 0 ∧
          p = (rows.getD r default).cells.getD j 0) := by
  unfold BuildCellGrid
  have key := foldl_range_invariant
    (fun st rowIdx =>
      placeCells rows (maxColsOf h0 rows) rowIdx (rows.getD rowIdx default).cells 0 st)
    (fun i s => ShapeInv rows h0 (maxColsOf h0 rows) s ∧
      ∃ colsOf : Nat → List Nat,
        (∀ r, r < i → RowAnchors rows h0 (maxColsOf h0 rows) s.1 r (colsOf r)) ∧
        (∀ r c p, s.1.get r c = some p → p < h0.next →
          r < i ∧ ∃ j, j < (colsOf r).length ∧ c = (colsOf r).getD j 0 ∧
            p = (rows.getD r default).cells.getD j 0))
    rows.length
    (by
      intro i s hi hs
      obtain ⟨hs1, colsOf, hrowsDone, hinputsDone⟩ := hs
      obtain ⟨hframe, cols, hlen, hrange, hspace, hanch, hinputs, hfull⟩ :=
        placeCells_anchors rows h0 (maxColsOf h0 rows) i hi (rows.getD i default).cells 0 s hs1
          (fun cell hcell =>
            ⟨halloc cell (mem_allCells_of_row rows i hi cell hcell),
              hspans cell (mem_allCells_of_row rows i hi cell hcell)⟩)
          (fun c hc => absurd hc (Nat.not_lt_zero c))
      refine ⟨placeCells_shape rows h0 (maxColsOf h0 rows) i _ 0 s hs1,
        fun r => if r = i then cols else colsOf r, ?_, ?_⟩
      · intro r hr
        by_cases hri : r = i
        · subst hri
          simp only [↓reduceIte]
          exact ⟨hlen, fun j hj => (hrange j hj).2, hspace, hanch, hfull⟩
        · simp only [hri, ↓reduceIte]
          obtain ⟨h1, h2, h3, h4, h5⟩ := hrowsDone r (by omega)
          refine ⟨h1, h2, h3, ?_, ?_⟩
          · intro j hj
            rw [hframe r _ (Or.inl (by omega))]
            exact h4 j hj
          · intro hlt c hc
            rw [hframe r c (Or.inl (by omega))]
            exact h5 hlt c hc
      · intro r c p hg hp
        rcases hinputs r c p hg hp with hold | ⟨e1, j, hj, e2, e3⟩
        · obtain ⟨hr, j, hj, e2, e3⟩ := hinputsDone r c p hold hp
          have hri : r ≠ i := by omega
          simp only [hri, ↓reduceIte]
          exact ⟨by omega, j, hj, e2, e3⟩
        · subst e1
          simp only [↓reduceIte]
          exact ⟨by omega, j, hj, e2, e3⟩)
    (List.replicate rows.length (List.replicate (maxColsOf h0 rows) none), h0)
    ⟨{ rowsLen := by simp
       colsLen := fun i hi => by
         simp [List.getD_eq_getElem?_getD, List.getElem?_replicate, hi]
       next := le_refl _
       spans := fun _ _ => ⟨rfl, rfl⟩ },
      fun _ => [], fun r hr => absurd hr (Nat.not_lt_zero r),
      fun r c p h _ => by
        rw [Grid.get_replicate] at h
        cases h⟩
  obtain ⟨_, colsOf, h1, h2⟩ := key
  exact ⟨colsOf, h1, h2⟩

/-! ## Claim on the anchors -/

theorem getD_mem_of_lt {α : Type} (l : List α) (j : Nat) (d : α) (hj : j < l.length) :
    l.getD j d ∈ l := by
  rw [List.getD_eq_getElem?_getD, List.getElem?_eq_getElem hj, Option.getD_some]
  exact List.getElem_mem hj

theorem getD_inj_of_nodup {α : Type} (l : List α) (hnd : l.Nodup) (j1 j2 : Nat) (d : α)
    (h1 : j1 < l.length) (h2 : j2 < l.length) (h : l.getD j1 d = l.getD j2 d) : j1 = j2 := by
  rw [List.getD_eq_getElem?_getD, List.getD_eq_getElem?_getD, List.getElem?_eq_getElem h1,
    List.getElem?_eq_getElem h2, Option.getD_some, Option.getD_some] at h
  exact (List.Nodup.getElem_inj_iff hnd).mp h

theorem nodup_row_cells (rows : List TableRow) (hnodup : (allCells rows).Nodup) (i : Nat)
    (hi : i < rows.length) : (rows.getD i default).cells.Nodup := by
  have hsplit : allCells rows
      = allCells (rows.take (i + 1)) ++ allCells (rows.drop (i + 1)) := by
    rw [← allCells_append, List.take_append_drop]
  rw [hsplit] at hnodup
  have hpre := (List.nodup_append.mp hnodup).1
  rw [allCells_take_succ rows i hi] at hpre
  exact (List.nodup_append.mp hpre).2.1

/-- C29: for rows of pairwise distinct cells with colspan and rowspan at
least 1, in the grid returned by `BuildCellGrid` (1) a cell of the row list
found in the grid sits in the grid row of its own table row, in that slot
only, and is not turned into a placeholder (`isSpanned` is as the caller set
it); (2) in every row the cells handled before the row was full, which are the
first cells of its cell list, are all still in the grid (no later span has
overwritten them), at strictly increasing columns in the order of the cell
list, and they are the only cells of the row list in that grid row; cells are
left over only when the grid row is full. -/
theorem BuildCellGrid_anchors_stable (rows : List TableRow) (h0 : Heap)
    (hnodup : (allCells rows).Nodup) (halloc : ∀ p ∈ allCells rows, p < h0.next)
    (hspans : ∀ p ∈ allCells rows, 1 ≤ (h0.cell p).rowspan ∧ 1 ≤ (h0.cell p).colspan) :
    (∀ r c p, (BuildCellGrid rows h0).1.get r c = some p → p ∈ allCells rows →
      p ∈ (rows.getD r default).cells ∧
      ((BuildCellGrid rows h0).2.cell p).isSpanned = (h0.cell p).isSpanned ∧
      ∀ r' c', (BuildCellGrid rows h0).1.get r' c' = some p → r' = r ∧ c' = c) ∧
    (∀ i, i < rows.length → ∃ cols : List Nat,
      cols.length ≤ (rows.getD i default).cells.length ∧
      (∀ j, j < cols.length →
        (BuildCellGrid rows h0).1.get i (cols.getD j 0)
          = some ((rows.getD i default).cells.getD j 0)) ∧
      (∀ j1 j2, j1 < j2 → j2 < cols.length → cols.getD j1 0 < cols.getD j2 0) ∧
      (∀ c p, (BuildCellGrid rows h0).1.get i c = some p → p ∈ allCells rows →
        ∃ j, j < cols.length ∧ c = cols.getD j 0 ∧ p = (rows.getD i default).cells.getD j 0) ∧
      (cols.length < (rows.getD i default).cells.length →
        ∀ c, c < maxColsOf h0 rows → ((BuildCellGrid rows h0).1.get i c).isSome = true)) := by
  obtain ⟨colsOf, hrowsA, hinputs⟩ := BuildCellGrid_anchors rows h0 halloc hspans
  have hinv := BuildCellGrid_inv rows h0 hnodup halloc
  constructor
  · intro r c p hg hp
    obtain ⟨hr, j, hj, _, e3⟩ := hinputs r c p hg (halloc p hp)
    obtain ⟨hlen, _, _, _, _⟩ := hrowsA r hr
    refine ⟨?_, ?_, ?_⟩
    · rw [e3]
      exact getD_mem_of_lt _ j 0 (by omega)
    · have e := congrArg TableCell.isSpanned (hinv.input p (halloc p hp))
      simp only at e
      exact e
    · intro r' c' hg'
      obtain ⟨e1, e2⟩ := hinv.inj r r' c c' p hg hg'
      exact ⟨e1.symm, e2.symm⟩
  · intro i hi
    obtain ⟨hlen, _, hspace, hanch, hfull⟩ := hrowsA i hi
    refine ⟨colsOf i, hlen, hanch, ?_, ?_, hfull⟩
    · intro j1 j2 hlt hj2
      have hmem : (rows.getD i default).cells.getD j1 0 ∈ allCells rows :=
        mem_allCells_of_row rows i hi _ (getD_mem_of_lt _ j1 0 (by omega))
      have := hspace j1 j2 hlt hj2
      have := (hspans _ hmem).2
      omega
    · intro c p hg hp
      obtain ⟨_, j, hj, e2, e3⟩ := hinputs i c p hg (halloc p hp)
      exact ⟨j, hj, e2, e3⟩

/-- C29 (witness): the worked example (five distinct cells of rowspan 1 and
colspan 1 or 2). -/
theorem BuildCellGrid_anchors_stable_witness :
    (∀ r c p, (BuildCellGrid exampleRows exampleHeap).1.get r c = some p →
      p ∈ allCells exampleRows →
      p ∈ (exampleRows.getD r default).cells ∧
      ((BuildCellGrid exampleRows exampleHeap).2.cell p).isSpanned
        = (exampleHeap.cell p).isSpanned ∧
      ∀ r' c', (BuildCellGrid exampleRows exampleHeap).1.get r' c' = some p →
        r' = r ∧ c' = c) ∧
    (∀ i, i < exampleRows.length → ∃ cols : List Nat,
      cols.length ≤ (exampleRows.getD i default).cells.length ∧
      (∀ j, j < cols.length →
        (BuildCellGrid exampleRows exampleHeap).1.get i (cols.getD j 0)
          = some ((exampleRows.getD i default).cells.getD j 0)) ∧
      (∀ j1 j2, j1 < j2 → j2 < cols.length → cols.getD j1 0 < cols.getD j2 0) ∧
      (∀ c p, (BuildCellGrid exampleRows exampleHeap).1.get i c = some p →
        p ∈ allCells exampleRows →
        ∃ j, j < cols.length ∧ c = cols.getD j 0 ∧
          p = (exampleRows.getD i default).cells.getD j 0) ∧
      (cols.length < (exampleRows.getD i default).cells.length →
        ∀ c, c < maxColsOf exampleHeap exampleRows →
          ((BuildCellGrid exampleRows exampleHeap).1.get i c).isSome = true)) := by
  have hcells : allCells exampleRows = [0, 1, 2, 3, 4] := by decide
  refine BuildCellGrid_anchors_stable exampleRows exampleHeap (by rw [hcells]; decide) ?_ ?_
  · rw [hcells]
    intro p hp
    simp only [List.mem_cons, List.mem_singleton, List.not_mem_nil, or_false] at hp
    show p < 5
    rcases hp with h | h | h | h | h <;> subst h <;> decide
  · rw [hcells]
    intro p hp
    simp only [List.mem_cons, List.mem_singleton, List.not_mem_nil, or_false] at hp
    rcases hp with h | h | h | h | h <;> subst h <;> decide

/-! ## Claim on the tiling of a row -/

theorem DrawRowCells_append (heap : Heap) (rowIdx : Nat) (rowY : ℚ) (a b : List CellPosition) :
    ∀ sx, DrawRowCells heap rowIdx rowY (a ++ b) sx
      = DrawRowCells heap rowIdx rowY a sx
        ++ DrawRowCells heap rowIdx rowY b (rowEndX heap rowIdx a sx) := by
  induction a with
  | nil => intro sx; rfl
  | cons pos rest ih =>
    intro sx
    simp only [List.cons_append, DrawRowCells, rowEndX]
    split
    · exact ih _
    · split
      · exact congrArg _ (ih _)
      · exact ih _

theorem rowEndX_append (heap : Heap) (rowIdx : Nat) (a b : List CellPosition) :
    ∀ sx, rowEndX heap rowIdx (a ++ b) sx = rowEndX heap rowIdx b (rowEndX heap rowIdx a sx) := by
  induction a with
  | nil => intro sx; rfl
  | cons pos rest ih =>
    intro sx
    simp only [List.cons_append, rowEndX]
    split
    · exact ih _
    · split
      · exact ih _
      · exact ih _

theorem columnLeft_succ (colWidths : List ℚ) (startX : ℚ) (c : Nat) :
    columnLeft colWidths startX (c + 1) = columnLeft colWidths startX c + colWidths.getD c 0 := by
  unfold columnLeft
  rw [Finset.sum_range_succ]
  ring

/-- The draw calls of a row, read off the positions that the last loops of
`CalculateCellPositions` build: when every slot of grid row `r` holds a cell
whose `width` is the width of its column, `DrawRowCells` makes one call per
slot whose cell is not marked `isSpanned`, in column order, at the left edge
of the column, and its running left edge ends at the right edge of the last
column. -/
theorem DrawRowCells_buildPositions (style : TableStyle) (grid : Grid) (colWidths : List ℚ)
    (numRows numCols : Nat) (heap : Heap) (r : Nat) (startX rowY : ℚ) (hr : r < numRows)
    (hfull : ∀ c, c < numCols → ∃ p, grid.get r c = some p ∧
      (heap.cell p).width = colWidths.getD c 0) :
    DrawRowCells heap r rowY (buildPositions style grid colWidths numRows numCols heap) startX
      = (List.range numCols).filterMap
          (specTile style heap grid colWidths numRows numCols r startX rowY) ∧
    rowEndX heap r (buildPositions style grid colWidths numRows numCols heap) startX
      = columnLeft colWidths startX numCols := by
  unfold buildPositions
  have key := foldl_range_invariant
    (fun positions row =>
      (List.range numCols).foldl
        (fun positions col =>
          match grid.get row col with
          | none => positions
          | some p =>
            positions ++
              [{ row := row, col := col
                 width := spanWidth colWidths numCols col (heap.cell p).colspan
                 height := spanHeight style numRows row (heap.cell p)
                 cell := p }])
        positions)
    (fun i (ps : List CellPosition) =>
      (i ≤ r → DrawRowCells heap r rowY ps startX = [] ∧ rowEndX heap r ps startX = startX) ∧
      (r < i → DrawRowCells heap r rowY ps startX
          = (List.range numCols).filterMap
              (specTile style heap grid colWidths numRows numCols r startX rowY) ∧
        rowEndX heap r ps startX = columnLeft colWidths startX numCols))
    numRows ?_ [] ⟨fun _ => ⟨rfl, rfl⟩, fun h => absurd h (Nat.not_lt_zero r)⟩
  · exact key.2 hr
  · intro row ps hrow hps
    beta_reduce at hps ⊢
    by_cases hrr : row = r
    · subst hrr
      obtain ⟨hd, hx⟩ := hps.1 (Nat.le_refl _)
      have inner := foldl_range_invariant
        (fun positions col =>
          match grid.get row col with
          | none => positions
          | some p =>
            positions ++
              [{ row := row, col := col
                 width := spanWidth colWidths numCols col (heap.cell p).colspan
                 height := spanHeight style numRows row (heap.cell p)
                 cell := p }])
        (fun c (qs : List CellPosition) =>
          DrawRowCells heap row rowY qs startX
            = (List.range c).filterMap
                (specTile style heap grid colWidths numRows numCols row startX rowY) ∧
          rowEndX heap row qs startX = columnLeft colWidths startX c)
        numCols ?_ ps ⟨by simpa using hd, by simpa [columnLeft] using hx⟩
      · exact ⟨fun h => absurd h (by omega), fun _ => inner⟩
      · intro c qs hc hqs
        beta_reduce at hqs ⊢
        obtain ⟨p, hg, hw⟩ := hfull c hc
        rw [hg]
        simp only
        rw [DrawRowCells_append, rowEndX_append, hqs.1, hqs.2, List.range_succ,
          List.filterMap_append, columnLeft_succ]
        by_cases hsp : (heap.cell p).isSpanned = true
        · simp [DrawRowCells, rowEndX, specTile, hg, hsp, hw]
        · simp [DrawRowCells, rowEndX, specTile, hg, hsp, hw, spanWidth_eq_sum]
    · have inner := foldl_range_invariant
        (fun positions col =>
          match grid.get row col with
          | none => positions
          | some p =>
            positions ++
              [{ row := row, col := col
                 width := spanWidth colWidths numCols col (heap.cell p).colspan
                 height := spanHeight style numRows row (heap.cell p)
                 cell := p }])
        (fun _ (qs : List CellPosition) =>
          DrawRowCells heap r rowY qs startX = DrawRowCells heap r rowY ps startX ∧
          rowEndX heap r qs startX = rowEndX heap r ps startX)
        numCols ?_ ps ⟨rfl, rfl⟩
      · rw [inner.1, inner.2]
        exact ⟨fun h => hps.1 (by omega), fun h => hps.2 (by omega)⟩
      · intro c qs hc hqs
        beta_reduce at hqs ⊢
        cases hg : grid.get row c with
        | none => exact hqs
        | some p =>
          simp only
          rw [DrawRowCells_append, rowEndX_append, hqs.1, hqs.2]
          simp [DrawRowCells, rowEndX, hrr]

theorem columnLeft_add_Ico (colWidths : List ℚ) (startX : ℚ) (c e : Nat) (hce : c ≤ e) :
    columnLeft colWidths startX c
        + Finset.sum (Finset.Ico c e) (fun j => colWidths.getD j 0)
      = columnLeft colWidths startX e := by
  unfold columnLeft
  rw [Finset.range_eq_Ico, add_assoc, Finset.sum_Ico_consecutive _ (Nat.zero_le c) hce]

theorem columnLeft_mono (colWidths : List ℚ) (startX : ℚ) (n : Nat)
    (hpos : ∀ j, j < n → 0 ≤ colWidths.getD j 0) (c e : Nat) (hce : c ≤ e) (he : e ≤ n) :
    columnLeft colWidths startX c ≤ columnLeft colWidths startX e := by
  rw [← columnLeft_add_Ico colWidths startX c e hce]
  have : 0 ≤ Finset.sum (Finset.Ico c e) (fun j => colWidths.getD j 0) :=
    Finset.sum_nonneg (fun j hj => hpos j (by
      have := (Finset.mem_Ico.mp hj).2
      omega))
  linarith

/-- The draw calls of a fully populated grid row after a returning layout of
the grid built from rows of pairwise distinct cells: one call per slot whose
cell is not marked `isSpanned`, in column order, each at the left edge of its
column; the layout leaves `isSpanned` and `colspan` of every cell as they
were. -/
theorem DrawRowCells_of_layout (style : TableStyle) (rows : List TableRow) (h0 : Heap)
    (tableWidth : ℚ) (grid : Grid) (h1 : Heap) (positions : List CellPosition) (heap' : Heap)
    (r : Nat) (startX rowY : ℚ)
    (hnodup : (allCells rows).Nodup) (halloc : ∀ p ∈ allCells rows, p < h0.next)
    (hbuild : BuildCellGrid rows h0 = (grid, h1))
    (h : CalculateCellPositions style grid tableWidth h1 = some (positions, heap'))
    (hr : r < grid.length)
    (hfull : ∀ c, c < (grid.getD 0 []).length → (grid.get r c).isSome = true) :
    ∃ colWidths, solveColumnWidths h1 grid tableWidth = some colWidths ∧
      DrawRowCells heap' r rowY positions startX
        = (List.range (grid.getD 0 []).length).filterMap
            (specTile style heap' grid colWidths grid.length (grid.getD 0 []).length r
              startX rowY) ∧
      rowEndX heap' r positions startX
        = columnLeft colWidths startX (grid.getD 0 []).length ∧
      (∀ p, (heap'.cell p).isSpanned = (h1.cell p).isSpanned ∧
        (heap'.cell p).colspan = (h1.cell p).colspan) := by
  have hinv := BuildCellGrid_inv rows h0 hnodup halloc
  rw [hbuild] at hinv
  have hne : grid ≠ [] := by
    intro e
    subst e
    exact absurd hr (Nat.not_lt_zero r)
  obtain ⟨colWidths, hcw, hres, hpos⟩ :=
    CalculateCellPositions_some style grid tableWidth h1 positions heap' hne h
  have hsame := resolveRowHeights_same _ _ _ _ _ _ _ hres
  have hw := writeBackWidths_same grid grid.length (grid.getD 0 []).length colWidths h1
  have hflag : ∀ p, (heap'.cell p).isSpanned = (h1.cell p).isSpanned ∧
      (heap'.cell p).colspan = (h1.cell p).colspan := by
    intro p
    have e1 := congrArg TableCell.isSpanned (hsame p)
    have e2 := congrArg TableCell.isSpanned (hw p)
    have e3 := congrArg TableCell.colspan (hsame p)
    have e4 := congrArg TableCell.colspan (hw p)
    simp only [TableCell.withHeight, TableCell.withWidth] at e1 e2 e3 e4
    exact ⟨e1.trans e2, e3.trans e4⟩
  have hwidth : ∀ c, c < (grid.getD 0 []).length → ∃ p, grid.get r c = some p ∧
      (heap'.cell p).width = colWidths.getD c 0 := by
    intro c hc
    cases hg : grid.get r c with
    | none =>
      have := hfull c hc
      rw [hg] at this
      cases this
    | some p =>
      refine ⟨p, rfl, ?_⟩
      have e := congrArg TableCell.width (hsame p)
      simp only [TableCell.withHeight] at e
      rw [e]
      exact writeBackWidths_width grid grid.length (grid.getD 0 []).length colWidths h1
        hinv.inj r c p hr hc hg
  obtain ⟨hdraw, hend⟩ := DrawRowCells_buildPositions style grid colWidths grid.length
    (grid.getD 0 []).length heap' r startX rowY hr hwidth
  rw [← hpos] at hdraw hend
  exact ⟨colWidths, hcw, hdraw, hend, hflag⟩

/-- C30 (amended): for the grid built from rows of pairwise distinct cells
with colspan and rowspan at least 1 and a returning layout, in a grid row `r`
whose slots are all populated `DrawRowCells` makes one `DrawCell` call per
slot whose cell is not a placeholder, in column order: the cell of column `c`
is drawn at x = startX + the solved widths of the columns left of `c`, as
wide as its position (the solved widths of its columns `c` to
`min (c + colspan) numCols - 1`), so that its right edge x + width is the
left edge of column `min (c + colspan) numCols`; the next drawn cell starts
at column `c + colspan` or later; and the running left edge ends at startX +
the sum of all solved widths. When no solved width is negative, a drawn cell
ends where or before the next one starts. -/
theorem DrawRowCells_tiles_row (style : TableStyle) (rows : List TableRow) (h0 : Heap)
    (tableWidth : ℚ) (grid : Grid) (h1 : Heap) (positions : List CellPosition) (heap' : Heap)
    (r : Nat) (startX rowY : ℚ)
    (hnodup : (allCells rows).Nodup) (halloc : ∀ p ∈ allCells rows, p < h0.next)
    (hspans : ∀ p ∈ allCells rows, 1 ≤ (h0.cell p).rowspan ∧ 1 ≤ (h0.cell p).colspan)
    (hbuild : BuildCellGrid rows h0 = (grid, h1))
    (h : CalculateCellPositions style grid tableWidth h1 = some (positions, heap'))
    (hr : r < grid.length)
    (hfull : ∀ c, c < (grid.getD 0 []).length → (grid.get r c).isSome = true) :
    ∃ colWidths, solveColumnWidths h1 grid tableWidth = some colWidths ∧
      DrawRowCells heap' r rowY positions startX
        = (List.range (grid.getD 0 []).length).filterMap
            (specTile style heap' grid colWidths grid.length (grid.getD 0 []).length r
              startX rowY) ∧
      rowEndX heap' r positions startX
        = columnLeft colWidths startX (grid.getD 0 []).length ∧
      (∀ c1 c2 t1 t2, c1 < c2 → c2 < (grid.getD 0 []).length →
        specTile style heap' grid colWidths grid.length (grid.getD 0 []).length r startX rowY c1
          = some t1 →
        specTile style heap' grid colWidths grid.length (grid.getD 0 []).length r startX rowY c2
          = some t2 →
        c1 + (heap'.cell t1.cell).colspan ≤ c2 ∧
        t1.x + t1.width = columnLeft colWidths startX
          (min (c1 + (heap'.cell t1.cell).colspan) (grid.getD 0 []).length) ∧
        t2.x = columnLeft colWidths startX c2 ∧
        ((∀ j, j < (grid.getD 0 []).length → 0 ≤ colWidths.getD j 0) →
          t1.x ≤ t1.x + t1.width ∧ t1.x + t1.width ≤ t2.x)) := by
  have hinv := BuildCellGrid_inv rows h0 hnodup halloc
  obtain ⟨colsOf, hrowsA, hinputs⟩ := BuildCellGrid_anchors rows h0 halloc hspans
  rw [hbuild] at hinv hrowsA hinputs
  have hlen : grid.length = rows.length := hinv.rowsLen
  obtain ⟨colWidths, hcw, hdraw, hend, hflag⟩ := DrawRowCells_of_layout style rows h0
    tableWidth grid h1 positions heap' r startX rowY hnodup halloc hbuild h hr hfull
  refine ⟨colWidths, hcw, hdraw, hend, ?_⟩
  intro c1 c2 t1 t2 hlt hc2 ht1 ht2
  -- the two drawn cells are cells of the row list, anchored in row `r`
  have hanchor : ∀ c t, specTile style heap' grid colWidths grid.length
      (grid.getD 0 []).length r startX rowY c = some t →
      grid.get r c = some t.cell ∧ t.x = columnLeft colWidths startX c ∧
      t.width = Finset.sum
        (Finset.Ico c (min (c + (heap'.cell t.cell).colspan) (grid.getD 0 []).length))
        (fun j => colWidths.getD j 0) ∧
      (heap'.cell t.cell).colspan = (h0.cell t.cell).colspan ∧
      ∃ j, j < (colsOf r).length ∧ c = (colsOf r).getD j 0 ∧
        t.cell = (rows.getD r default).cells.getD j 0 := by
    intro c t ht
    unfold specTile at ht
    cases hg : grid.get r c with
    | none => rw [hg] at ht; cases ht
    | some p =>
      rw [hg] at ht
      simp only at ht
      by_cases hsp : (heap'.cell p).isSpanned = true
      · rw [if_pos hsp] at ht
        cases ht
      · rw [if_neg hsp] at ht
        simp only [Option.some.injEq] at ht
        subst ht
        have hin : p < h0.next := by
          by_contra hge
          have := (hinv.spanned r c p hg (Nat.le_of_not_lt hge)).1
          rw [← (hflag p).1] at this
          exact hsp this
        obtain ⟨_, j, hj, e2, e3⟩ := hinputs r c p hg hin
        refine ⟨rfl, rfl, rfl, ?_, j, hj, e2, e3⟩
        show (heap'.cell p).colspan = (h0.cell p).colspan
        rw [(hflag p).2]
        have e := congrArg TableCell.colspan (hinv.input p hin)
        simp only at e
        exact e
  obtain ⟨hg1, hx1, hw1, hcs1, j1, hj1, e1, f1⟩ := hanchor c1 t1 ht1
  obtain ⟨hg2, hx2, _, _, j2, hj2, e2, f2⟩ := hanchor c2 t2 ht2
  obtain ⟨_, _, hspace, _, _⟩ := hrowsA r (by omega)
  have hjj : j1 < j2 := by
    by_contra hnot
    rcases Nat.lt_or_eq_of_le (Nat.le_of_not_lt hnot) with hlt2 | heq
    · have := hspace j2 j1 hlt2 hj1
      omega
    · subst heq
      omega
  have hsp := hspace j1 j2 hjj hj2
  rw [← f1, ← e1, ← e2, ← hcs1] at hsp
  have hedge : t1.x + t1.width = columnLeft colWidths startX
      (min (c1 + (heap'.cell t1.cell).colspan) (grid.getD 0 []).length) := by
    rw [hx1, hw1]
    exact columnLeft_add_Ico colWidths startX c1 _ (by omega)
  refine ⟨hsp, hedge, hx2, ?_⟩
  intro hnonneg
  constructor
  · rw [hedge, hx1]
    exact columnLeft_mono colWidths startX _ hnonneg c1 _ (by omega) (by omega)
  · rw [hedge, hx2]
    exact columnLeft_mono colWidths startX _ hnonneg _ c2 (by omega) (by omega)

/-- The grid and the store that `BuildCellGrid` produces for `overRows`. -/
theorem BuildCellGrid_over :
    BuildCellGrid overRows overHeap
      = ([[some 0, some 1, some 2]], ⟨overCellsBuilt, 3⟩) := by
  simp [BuildCellGrid, overRows, overHeap, overCells, maxColsOf, placeCells, skipClaimed,
    claimSpan, claimSlot, anchorCell, Grid.get, Grid.set, Heap.modify, List.range,
    List.range.loop, Function.update]
  funext p
  match p with
  | 0 => simp [overCellsBuilt]
  | 1 => simp [overCellsBuilt]
  | 2 => simp [overCellsBuilt]
  | n + 3 => simp [overCellsBuilt, overCells]

/-- The layout of `overRows` for tableWidth 90 returns, with two negative
column widths. -/
theorem CalculateCellPositions_over :
    solveColumnWidths ⟨overCellsBuilt, 3⟩ [[some 0, some 1, some 2]] 90
      = some [150, -30, -30] ∧
    ∃ positions heap',
      CalculateCellPositions exampleStyle [[some 0, some 1, some 2]] 90 ⟨overCellsBuilt, 3⟩
        = some (positions, heap') := by
  have hcw : solveColumnWidths ⟨overCellsBuilt, 3⟩ [[some 0, some 1, some 2]] 90
      = some [150, -30, -30] := by
    simp only [solveColumnWidths, explicitWidths, List.range, List.range.loop, List.foldlM,
      List.getD_cons_zero, List.length]
    simp [explicitWidthsRow, Grid.get, distributeFlexible, sumWidthsOf, fixWidthCountOf,
      overCellsBuilt]
    norm_num
  refine ⟨hcw, CalculateCellPositions_total exampleStyle _ 90 _ _ hcw ?_⟩
  intro r c p _
  refine ⟨_, measureCell_empty exampleStyle _ _ _ _ ?_⟩
  show (overCellsBuilt p).content = []
  unfold overCellsBuilt
  split <;> rfl

theorem overRows_cells : allCells overRows = [0, 1, 2] := by decide

/-- C30 (counterexample): one row of three cells, the first declaring the
width 150, laid out with tableWidth 90. The solved widths are
[150, -30, -30]; the row is fully populated. `DrawRowCells` (startX 0) draws
the first cell at x = 0 with width 150, the second at x = 150 with width -30
and the third at x = 120 with width -30: the third cell starts, and lies,
inside the first. -/
theorem row_tiles_overlap_counterexample :
    BuildCellGrid overRows overHeap = ([[some 0, some 1, some 2]], ⟨overCellsBuilt, 3⟩) ∧
    solveColumnWidths ⟨overCellsBuilt, 3⟩ [[some 0, some 1, some 2]] 90
      = some [150, -30, -30] ∧
    ∃ positions heap',
      CalculateCellPositions exampleStyle [[some 0, some 1, some 2]] 90 ⟨overCellsBuilt, 3⟩
        = some (positions, heap') ∧
      (DrawRowCells heap' 0 0 positions 0).map (fun t => (t.cell, t.x, t.width))
        = [(0, 0, 150), (1, 150, -30), (2, 120, -30)] := by
  obtain ⟨hcw, positions, heap', h⟩ := CalculateCellPositions_over
  refine ⟨BuildCellGrid_over, hcw, positions, heap', h, ?_⟩
  obtain ⟨colWidths, hcw', hdraw, _, hflag⟩ := DrawRowCells_of_layout exampleStyle overRows
    overHeap 90 [[some 0, some 1, some 2]] ⟨overCellsBuilt, 3⟩ positions heap' 0 0 0
    (by rw [overRows_cells]; decide)
    (by
      rw [overRows_cells]
      intro p hp
      simp only [List.mem_cons, List.mem_singleton, List.not_mem_nil, or_false] at hp
      show p < 3
      rcases hp with h | h | h <;> subst h <;> decide)
    BuildCellGrid_over h (by decide)
    (by
      intro c hc
      have hc3 : c < 3 := hc
      interval_cases c <;> rfl)
  rw [hcw] at hcw'
  simp only [Option.some.injEq] at hcw'
  subst hcw'
  have f0 := hflag 0
  have f1 := hflag 1
  have f2 := hflag 2
  simp only [overCellsBuilt] at f0 f1 f2
  rw [hdraw]
  simp [List.range, List.range.loop, specTile, Grid.get, f0, f1, f2, columnLeft,
    Finset.sum_range_succ, Finset.sum_Ico_eq_sum_range]
  norm_num

/-- C30 (witness): the layout of `flexRows` for tableWidth 300, row 0 drawn
from x = 50 at y = 700. -/
theorem DrawRowCells_tiles_row_witness :
    ∃ positions heap',
      CalculateCellPositions exampleStyle [[some 0, some 1]] 300 ⟨flexCellsBuilt, 2⟩
        = some (positions, heap') ∧
      ∃ colWidths,
        solveColumnWidths ⟨flexCellsBuilt, 2⟩ [[some 0, some 1]] 300 = some colWidths ∧
        DrawRowCells heap' 0 700 positions 50
          = (List.range 2).filterMap
              (specTile exampleStyle heap' [[some 0, some 1]] colWidths 1 2 0 50 700) ∧
        rowEndX heap' 0 positions 50 = columnLeft colWidths 50 2 ∧
        (∀ c1 c2 t1 t2, c1 < c2 → c2 < 2 →
          specTile exampleStyle heap' [[some 0, some 1]] colWidths 1 2 0 50 700 c1 = some t1 →
          specTile exampleStyle heap' [[some 0, some 1]] colWidths 1 2 0 50 700 c2 = some t2 →
          c1 + (heap'.cell t1.cell).colspan ≤ c2 ∧
          t1.x + t1.width
            = columnLeft colWidths 50 (min (c1 + (heap'.cell t1.cell).colspan) 2) ∧
          t2.x = columnLeft colWidths 50 c2 ∧
          ((∀ j, j < 2 → 0 ≤ colWidths.getD j 0) →
            t1.x ≤ t1.x + t1.width ∧ t1.x + t1.width ≤ t2.x)) := by
  obtain ⟨_, positions, heap', h⟩ := CalculateCellPositions_flex
  have hcells : allCells flexRows = [0, 1] := by decide
  exact ⟨positions, heap', h,
    DrawRowCells_tiles_row exampleStyle flexRows (plainHeap 2) 300
      [[some 0, some 1]] ⟨flexCellsBuilt, 2⟩ positions heap' 0 50 700
      (by rw [hcells]; decide)
      (by
        rw [hcells]
        intro p hp
        simp only [List.mem_cons, List.mem_singleton, List.not_mem_nil, or_false] at hp
        show p < 2
        rcases hp with h | h <;> subst h <;> decide)
      (by
        rw [hcells]
        intro p hp
        simp only [List.mem_cons, List.mem_singleton, List.not_mem_nil, or_false] at hp
        rcases hp with h | h <;> subst h <;> decide)
      BuildCellGrid_flex h (by decide)
      (by
        intro c hc
        have hc2 : c < 2 := hc
        interval_cases c <;> rfl)⟩

end BriskyPdf
